import Mathlib

/-!
# A verification development for the publish/subscribe broker

Shallow embedding of `psserver.c` and `stringmap.c`.

Modelling conventions.

* A C string is a Lean `String`; `strcmp(a, b) == 0` is `a = b`, a `NULL`
  string pointer is `none`.
* A `FILE*` is a natural number naming the stream (`stderr` is stream 2). Every
  `fprintf` appends one pair (stream, text) to the field `sent` of the broker
  state, in program order.
* A `ClientNode*` is the list of the `client` fields met by following `next`
  until `NULL`; the null pointer is the empty list. Nodes of different topics
  are never shared (every node is allocated by `handle_sub` and linked in front
  of one chain), which is what makes this reading of the pointer structure
  sound. The lists describe what the `next` pointers link. A node that is
  passed to `free` after it has been unlinked is gone from the lists. A node
  that is passed to `free` while the map or a `next` pointer still leads to it
  stays in its list, as it stays linked in the program, and is recorded with
  its topic in the field `released` of the broker state. In a state whose
  `released` is not empty the registry holds a dangling pointer: what the
  program does when it next reads such a node is not defined by C, and the
  functions here then give what the links alone would make it do. The calls of
  `free` made by `handle_unsub` are also listed, by position, by
  `handle_unsub_frees`, and the nodes that a handler reads by `handle_sub_reads`
  and `handle_unsub_reads`.
* The five counters are C `int` variables of 32 bits. Every `++` is `+ 1` and
  every `--` is `- 1` on the integers; `c_int x` is what the `int` variable
  holds when the count is `x`: `x` itself from `INT_MIN` to `INT_MAX`, and the
  32 bits that remain of it beyond (`++` at `INT_MAX` overflows, which C leaves
  undefined and the machine wraps to `INT_MIN`).
* `sem_init` takes the value of the semaphore as an `unsigned int` and fails
  when it exceeds `SEM_VALUE_MAX`: `init_thread_lock` gives the value that the
  semaphore gets for the `long` that `main` read.
* Every registry operation runs under `mutexLock`, so an execution of the
  broker is a sequence of whole handler calls; the lock itself is not modelled.
  `threadLock` is the value of the admission semaphore; a `sem_wait` on the
  value 0 is a step that does not happen yet.
-/

namespace PubSub

/-! ## Constants of `psserver.c` -/

def INITIAL_BUFFER_SIZE : Nat := 3
def COUNT : Nat := 1
def DONT_COUNT : Nat := 0
def TWO_TOKENS : Nat := 2

/-! ## Constants of the C library -/

/-- `INT_MAX` of `<limits.h>`, for the `int` of 32 bits. -/
def INT_MAX : Int := 2147483647

/-- `INT_MIN` of `<limits.h>`, for the `int` of 32 bits. -/
def INT_MIN : Int := -2147483648

/-- `SEM_VALUE_MAX` of `<limits.h>`: the largest value of a semaphore (glibc). -/
def SEM_VALUE_MAX : Nat := 2147483647

/-- What a C `int` variable holds when the count is `x`: the 32 bits of `x` read
in two's complement. It is `x` itself from `INT_MIN` to `INT_MAX`. -/
def c_int (x : Int) : Int := (x - INT_MIN) % 2 ^ 32 + INT_MIN

/-! ## Data model -/

/-- Struct containing the characteristics of a client. `subbedTopics` lists the
cells of the C array from index 0; the cells in use are the first `subCount`. -/
structure Client where
  name : Option String
  toClient : Nat
  fromClient : Nat
  subbedTopics : List String
  subCount : Nat
deriving DecidableEq

/-- One `StringMapItem`: a key and the item pointer stored for it, here always a
`ClientNode*` (the head of a topic's chain of subscribers). -/
structure StringMapItem where
  key : String
  item : List Client
deriving DecidableEq

/-- The `StringMap`: the singly linked list of nodes hanging off `root`. -/
structure StringMap where
  root : List StringMapItem
deriving DecidableEq

/-- Struct containing data that is shared between each thread. The five
counters are `int` in C: a field is the count, and the variable holds `c_int`
of it. `threadLock` is the value of the semaphore. -/
structure SharedClientInfo where
  sm : StringMap
  threadLock : Nat
  currentConnections : Int
  totalConnections : Int
  totalPub : Int
  totalSub : Int
  totalUnsub : Int
deriving DecidableEq

/-- The shared data together with everything written so far to any stream, and
the nodes that have been passed to `free` while they were still linked into the
chain of a topic, each with its topic, in program order. -/
structure Broker where
  info : SharedClientInfo
  sent : List (Nat × String)
  released : List (String × Client)
deriving DecidableEq

/-! ## `stringmap.c` -/

def stringmap_init : StringMap := ⟨[]⟩

/-- The loop of `stringmap_search`: the item of the first node whose key
matches, `NULL` at the end of the list. -/
def search_nodes : List StringMapItem → String → List Client
  | [], _ => []
  | currentNode :: next, key =>
    if key = currentNode.key then currentNode.item else search_nodes next key

def stringmap_search (sm : StringMap) (key : String) : List Client :=
  search_nodes sm.root key

/-- The loop of `stringmap_add` and the linking of the new node after the last
one; `none` when a node with the key already exists. -/
def add_nodes : List StringMapItem → String → List Client → Option (List StringMapItem)
  | [], key, item => some [⟨key, item⟩]
  | currentNode :: next, key, item =>
    if key = currentNode.key then none
    else (add_nodes next key item).map (fun l => currentNode :: l)

/-- Returns the `int` result and the map afterwards. -/
def stringmap_add (sm : StringMap) (key : String) (item : List Client) : Nat × StringMap :=
  match item with
  | [] => (0, sm)
  | _ :: _ =>
    match add_nodes sm.root key item with
    | none => (0, sm)
    | some nodes => (1, ⟨nodes⟩)

/-- The loop of `stringmap_remove` and the unlinking of the node found; `none`
when no node has the key. -/
def remove_nodes : List StringMapItem → String → Option (List StringMapItem)
  | [], _ => none
  | currentNode :: next, key =>
    if currentNode.key = key then some next
    else (remove_nodes next key).map (fun l => currentNode :: l)

/-- Returns the `int` result and the map afterwards. -/
def stringmap_remove (sm : StringMap) (key : String) : Nat × StringMap :=
  match remove_nodes sm.root key with
  | none => (0, sm)
  | some nodes => (1, ⟨nodes⟩)

/-! ## `psserver.c` -/

/-- Writes the invalid message to the client's stream. -/
def print_invalid (client : Client) (b : Broker) : Broker :=
  { b with sent := b.sent ++ [(client.toClient, ":invalid\n")] }

/-- Returns `false` (C: 0) if the string contains spaces or colons or is empty,
else `true` (C: 1). -/
def check_spaces_colons_empty (str : String) : Bool :=
  if str.toList.contains ' ' || str.toList.contains ':' || str = "" then false else true

def handle_name (client : Client) (name : String) (b : Broker) : Client × Broker :=
  if !check_spaces_colons_empty name then (client, print_invalid client b)
  else match client.name with
    | none => ({ client with name := some name }, b)
    | some _ => (client, b)

/-- Returns the client and the buffer size afterwards. -/
def add_subscribed_topic (client : Client) (bufferSize : Nat) (topic : String) : Client × Nat :=
  let bufferSize1 := if client.subCount = bufferSize then bufferSize + bufferSize else bufferSize
  ({ client with subbedTopics := client.subbedTopics.take client.subCount ++ [topic],
                 subCount := client.subCount + 1 }, bufferSize1)

/-- The loop of `handle_sub` that computes `alreadySubbed`. -/
def already_subbed : List Client → Client → Bool
  | [], _ => false
  | temp :: next, client =>
    if temp.toClient = client.toClient then true else already_subbed next client

/-- Returns the client, the buffer size and the broker state afterwards. -/
def handle_sub (client : Client) (topic : String) (b : Broker) (bufferSize : Nat) :
    Client × Nat × Broker :=
  if !check_spaces_colons_empty topic then (client, bufferSize, print_invalid client b)
  else match client.name with
    | none => (client, bufferSize, b)
    | some _ =>
      match stringmap_search b.info.sm topic with
      | [] =>
        let head := [client]
        let sm1 := (stringmap_add b.info.sm topic head).2
        let r := add_subscribed_topic client bufferSize topic
        (r.1, r.2, { b with info := { b.info with sm := sm1, totalSub := b.info.totalSub + 1 } })
      | temp :: next =>
        let item := temp :: next
        if already_subbed item client then (client, bufferSize, b)
        else
          let newHead := client :: item
          let sm1 := (stringmap_remove b.info.sm topic).2
          let sm2 := (stringmap_add sm1 topic newHead).2
          let r := add_subscribed_topic client bufferSize topic
          (r.1, r.2, { b with info := { b.info with sm := sm2, totalSub := b.info.totalSub + 1 } })

/-- The second loop of `handle_unsub` followed by `prev->next = temp->next`:
the chain with the first node of the client unlinked, `none` when the loop ends
with `temp == NULL`. -/
def unlink_client : List Client → Client → Option (List Client)
  | [], _ => none
  | temp :: next, client =>
    if temp.toClient = client.toClient then some next
    else (unlink_client next client).map (fun l => temp :: l)

/-- The effect on the map of changing, through the pointer that
`stringmap_search` returned, the chain of the first node with the key: the
nodes of the map itself are not touched. -/
def store_nodes : List StringMapItem → String → List Client → List StringMapItem
  | [], _, _ => []
  | currentNode :: next, key, item =>
    if key = currentNode.key then { currentNode with item := item } :: next
    else currentNode :: store_nodes next key item

/-- The node `prev` when the second loop of `handle_unsub`, entered with a head
that is not the client, stops at a node of the client: the node before that
one. `none` when the loop ends with `temp == NULL`. -/
def prev_client : List Client → Client → Option Client
  | [], _ => none
  | prev :: rest, client =>
    match rest with
    | [] => none
    | temp :: _ => if temp.toClient = client.toClient then some prev else prev_client rest client

/-- In the head branch `free(temp)` releases the node that has just been taken
out of the map. In the other branch `prev->next = temp->next` unlinks `temp`,
`free(temp)` releases it, and `free(prev)` releases the node before it, which
stays linked: it is added to `released`. -/
def handle_unsub (client : Client) (topic : String) (b : Broker) (countStat : Nat) : Broker :=
  if !check_spaces_colons_empty topic then print_invalid client b
  else match client.name with
    | none => b
    | some _ =>
      match stringmap_search b.info.sm topic with
      | [] => b
      | temp :: next =>
        if temp.toClient = client.toClient then
          let newHead := next
          let sm1 := (stringmap_remove b.info.sm topic).2
          let sm2 := (stringmap_add sm1 topic newHead).2
          { b with info := { b.info with
              sm := sm2,
              totalUnsub := if countStat ≠ 0 then b.info.totalUnsub + 1 else b.info.totalUnsub } }
        else
          match unlink_client (temp :: next) client with
          | none => b
          | some item1 =>
            if countStat ≠ 0 then
              { b with
                  info := { b.info with
                    sm := ⟨store_nodes b.info.sm.root topic item1⟩,
                    totalUnsub := b.info.totalUnsub + 1 },
                  released := b.released
                    ++ ((prev_client (temp :: next) client).map (fun prev => (topic, prev))).toList }
            else b

/-- The position, counted from the head (0), of the node at which the second
loop of `handle_unsub` stops, that is `temp`; `none` when the loop ends with
`temp == NULL`. The node before it is `prev`. -/
def find_client : List Client → Client → Option Nat
  | [], _ => none
  | temp :: next, client =>
    if temp.toClient = client.toClient then some 0
    else (find_client next client).map (fun i => i + 1)

/-- The calls of `free` that `handle_unsub` makes, in program order: each node
released is named by its position in the chain that `stringmap_search` returned
(0 is the head). The head branch calls `free(temp)`; the other branch calls
`free(temp)` and then `free(prev)`. -/
def handle_unsub_frees (client : Client) (topic : String) (b : Broker) (countStat : Nat) :
    List Nat :=
  if !check_spaces_colons_empty topic then []
  else match client.name with
    | none => []
    | some _ =>
      match stringmap_search b.info.sm topic with
      | [] => []
      | temp :: next =>
        if temp.toClient = client.toClient then [0]
        else
          match find_client (temp :: next) client with
          | none => []
          | some i => if countStat ≠ 0 then [i, i - 1] else []

/-- The nodes whose `client.toClient` is read by a walk along a chain that stops
at the first node of the client: the loop of `handle_sub`, and the test of the
head followed by the second loop of `handle_unsub`. -/
def nodes_read : List Client → Client → List Client
  | [], _ => []
  | temp :: next, client =>
    if temp.toClient = client.toClient then [temp] else temp :: nodes_read next client

/-- The nodes of the chain of the topic that `handle_sub` reads. -/
def handle_sub_reads (client : Client) (topic : String) (b : Broker) : List Client :=
  if !check_spaces_colons_empty topic then []
  else match client.name with
    | none => []
    | some _ => nodes_read (stringmap_search b.info.sm topic) client

/-- The nodes of the chain of the topic that `handle_unsub` reads. -/
def handle_unsub_reads (client : Client) (topic : String) (b : Broker) : List Client :=
  if !check_spaces_colons_empty topic then []
  else match client.name with
    | none => []
    | some _ => nodes_read (stringmap_search b.info.sm topic) client

/-- Modelled from the spec: `split_by_char(str, split, maxFields)` of the course
library `csse2310a3`, which is not among the sources. The spec has the line
split "on the first space" into a first token and "the remainder of the line",
which "may itself contain spaces", and a split that yields no second token.
The string is cut at each occurrence of `split` until `maxFields` fields exist
(`maxFields = 0`: no limit); the last field keeps the rest of the string. -/
def split_fields : List Char → Char → Nat → List (List Char)
  | [], _, _ => [[]]
  | c :: cs, split, maxFields =>
    if c = split ∧ maxFields ≠ 1 then [] :: split_fields cs split (maxFields - 1)
    else
      match split_fields cs split maxFields with
      | [] => [[c]]
      | field :: fields => (c :: field) :: fields

/-- Modelled from the spec: see `split_fields`. The result lists the fields; the
`NULL` that ends the C array is the end of the list. -/
def split_by_char (str : String) (split : Char) (maxFields : Nat) : List String :=
  (split_fields str.toList split maxFields).map String.mk

def handle_pub (client : Client) (topicAndValue : String) (b : Broker) : Broker :=
  let pubTokens := split_by_char topicAndValue ' ' TWO_TOKENS
  match pubTokens[0]?, pubTokens[1]? with
  | some topic, some value =>
    if !check_spaces_colons_empty topic || value = "" then print_invalid client b
    else match client.name with
      | none => b
      | some name =>
        let item := stringmap_search b.info.sm topic
        let b1 := { b with sent := b.sent ++ item.map (fun (temp : Client) =>
          (temp.toClient, name ++ ":" ++ topic ++ ":" ++ value ++ "\n")) }
        { b1 with info := { b1.info with totalPub := b1.info.totalPub + 1 } }
  | _, _ => print_invalid client b

def clean_up_client (client : Client) (b : Broker) : Broker :=
  let b1 := (client.subbedTopics.take client.subCount).foldl
    (fun acc topic => handle_unsub client topic acc DONT_COUNT) b
  { b1 with info := { b1.info with
      currentConnections := b1.info.currentConnections - 1,
      totalConnections := b1.info.totalConnections + 1,
      threadLock := b1.info.threadLock + 1 } }

/-- The local variables of `client_thread`. -/
structure Handler where
  client : Client
  bufferSize : Nat
deriving DecidableEq

/-- The part of `client_thread` before its loop, for a connection whose write
and read streams are `wr` and `rd`. -/
def client_start (wr rd : Nat) (b : Broker) : Handler × Broker :=
  let client : Client :=
    { name := none, toClient := wr, fromClient := rd, subbedTopics := [], subCount := 0 }
  (⟨client, INITIAL_BUFFER_SIZE⟩,
   { b with info := { b.info with currentConnections := b.info.currentConnections + 1 } })

/-- One iteration of the loop of `client_thread`, for the line read. -/
def client_line (h : Handler) (line : String) (b : Broker) : Handler × Broker :=
  let tokens := split_by_char line ' ' TWO_TOKENS
  match tokens[0]?, tokens[1]? with
  | some command, some arg =>
    if command = "name" then
      let r := handle_name h.client arg b
      ({ h with client := r.1 }, r.2)
    else if command = "sub" then
      let r := handle_sub h.client arg b h.bufferSize
      (⟨r.1, r.2.1⟩, r.2.2)
    else if command = "unsub" then (h, handle_unsub h.client arg b COUNT)
    else if command = "pub" then (h, handle_pub h.client arg b)
    else (h, print_invalid h.client b)
  | _, _ => (h, print_invalid h.client b)

/-- The loop of `client_thread` over the lines read until end of file. -/
def client_lines (h : Handler) (lines : List String) (b : Broker) : Handler × Broker :=
  lines.foldl (fun acc line => client_line acc.1 line acc.2) (h, b)

def client_thread (wr rd : Nat) (lines : List String) (b : Broker) : Broker :=
  let r0 := client_start wr rd b
  let r1 := client_lines r0.1 lines r0.2
  clean_up_client r1.1.client r1.2

/-- The value of the semaphore after `init_thread_lock(l, connections)`, that
is `sem_init(l, 0, connections)`: the `long` becomes the `unsigned int` that
`sem_init` takes (its low 32 bits), and `sem_init` fails, leaving the semaphore
as it was, when that exceeds `SEM_VALUE_MAX` (`none`). -/
def init_thread_lock (connections : Nat) : Option Nat :=
  if connections % 2 ^ 32 ≤ SEM_VALUE_MAX then some (connections % 2 ^ 32) else none

/-- The state `process_connections` sets up, for the connection limit given.
When `sem_init` fails the semaphore is a local variable that has not been
initialised; the program does not determine its value, which is 0 here. -/
def initial_broker (connections : Nat) : Broker :=
  { info := { sm := stringmap_init, threadLock := (init_thread_lock connections).getD 0,
              currentConnections := 0, totalConnections := 0, totalPub := 0, totalSub := 0,
              totalUnsub := 0 },
    sent := [], released := [] }

/-- The stream `stderr`. -/
def stderr : Nat := 2

/-- One iteration of the loop of `sig_thread`, once `sigwait` has returned: the
`fprintf` of the statistics to `stderr`. `%d` is the decimal text of the
integer, `toString` on `Int`, for counters that are values of `int`. -/
def sig_thread (b : Broker) : Broker :=
  { b with sent := b.sent ++ [(stderr,
      "Connected clients:" ++ toString b.info.currentConnections
        ++ "\nCompleted clients:" ++ toString b.info.totalConnections
        ++ "\npub operations:" ++ toString b.info.totalPub
        ++ "\nsub operations:" ++ toString b.info.totalSub
        ++ "\nunsub operations:" ++ toString b.info.totalUnsub ++ "\n")] }

/-- Decrements the semaphore (`sem_wait`): `none` while its value is 0, when
the caller waits. -/
def take_lock (l : Nat) : Option Nat := if l = 0 then none else some (l - 1)

/-! ## `psclient.c` -/

/-- Returns `false` (C: 0) if the string contains spaces, colons or newlines or
is empty, else `true` (C: 1). -/
def check_spaces_colons_newlines_empty (str : String) : Bool :=
  if str.toList.contains ' ' || str.toList.contains ':' || str.toList.contains '\n'
      || str = "" then false else true

/-! ## Executions of the broker -/

/-- One step of an execution of the broker. Every step runs under `mutexLock`
or touches only the state of its own thread, so an execution with any number of
connections is a sequence of such steps, in the order the lock is taken. The
local state of the connection that makes a step is an argument of the step:
it is not required to come from earlier steps, so every interleaving of the
threads of the broker is among the sequences (and more). `clean_up_client` is
present as a whole and through the single `handle_unsub` calls of its loop,
between which other threads may run. -/
inductive Request where
  | connect (wr rd : Nat)
  | line (h : Handler) (text : String)
  | unsub (client : Client) (topic : String) (countStat : Nat)
  | cleanup (client : Client)

/-- The broker after one step: the start of `client_thread`, one iteration of
its loop (a `name`, `sub`, `unsub` or `pub` command, or a line that is none),
one call of `handle_unsub`, or `clean_up_client`. -/
def Request.apply (b : Broker) : Request → Broker
  | Request.connect wr rd => (client_start wr rd b).2
  | Request.line h text => (client_line h text b).2
  | Request.unsub client topic countStat => handle_unsub client topic b countStat
  | Request.cleanup client => clean_up_client client b

/-- The broker after a sequence of steps. -/
def run (requests : List Request) (b : Broker) : Broker :=
  requests.foldl Request.apply b

/-- The broker with its threads: the argument `connections` of
`process_connections`, the shared data, and the local state of every client
thread that has been created and has not returned yet. -/
structure Server where
  connections : Nat
  broker : Broker
  threads : List Handler

/-- What happens in the broker: the listener goes through one iteration of its
loop for a connection accepted on streams `wr` and `rd`; the `i`-th live thread
reads a line; the `i`-th live thread reads end of file. -/
inductive Event where
  | accept (wr rd : Nat)
  | line (i : Nat) (text : String)
  | eof (i : Nat)

/-- One iteration of the loop of `process_connections` for an accepted
connection, with the start of the thread it creates. While `take_lock` waits,
nothing happens. -/
def process_connections_loop (s : Server) (wr rd : Nat) : Server :=
  if s.connections > 0 then
    match take_lock s.broker.info.threadLock with
    | none => s
    | some l =>
      let r := client_start wr rd { s.broker with info := { s.broker.info with threadLock := l } }
      { s with broker := r.2, threads := s.threads ++ [r.1] }
  else
    let r := client_start wr rd s.broker
    { s with broker := r.2, threads := s.threads ++ [r.1] }

/-- The broker after an event. A thread that reads end of file runs
`clean_up_client` and returns; an event of a thread that does not exist changes
nothing. -/
def Server.step (s : Server) : Event → Server
  | Event.accept wr rd => process_connections_loop s wr rd
  | Event.line i text =>
    match s.threads[i]? with
    | none => s
    | some h =>
      let r := client_line h text s.broker
      { s with broker := r.2, threads := s.threads.set i r.1 }
  | Event.eof i =>
    match s.threads[i]? with
    | none => s
    | some h =>
      { s with broker := clean_up_client h.client s.broker, threads := s.threads.eraseIdx i }

/-- The broker after a sequence of events. -/
def Server.run (events : List Event) (s : Server) : Server :=
  events.foldl Server.step s

/-- The broker when `process_connections` enters its loop. -/
def initial_server (connections : Nat) : Server :=
  ⟨connections, initial_broker connections, []⟩

/-- One call on the map: `stringmap_add` or `stringmap_remove`. -/
inductive MapOp where
  | add (key : String) (item : List Client)
  | remove (key : String)

/-- The map after a call. -/
def MapOp.apply (sm : StringMap) : MapOp → StringMap
  | MapOp.add key item => (stringmap_add sm key item).2
  | MapOp.remove key => (stringmap_remove sm key).2

/-- The map built from `stringmap_init` by a sequence of calls. -/
def build (ops : List MapOp) : StringMap :=
  ops.foldl MapOp.apply stringmap_init

/-! ## Vocabulary of the statements -/

/-- The write streams along a chain, head first. A client is identified by its
write stream, as in the comparisons of `handle_sub` and `handle_unsub`. -/
def streams (chain : List Client) : List Nat := chain.map (fun n => n.toClient)

/-- The subscriber sequence of a topic: the write streams of the clients in the
chain stored for the topic, head first; empty when the topic has no entry. -/
def subscribers (b : Broker) (topic : String) : List Nat :=
  streams (stringmap_search b.info.sm topic)

/-- A valid topic or name: non-empty, no space, no colon. -/
def Valid (s : String) : Prop := s ≠ "" ∧ ' ' ∉ s.toList ∧ ':' ∉ s.toList

instance (s : String) : Decidable (Valid s) := by
  unfold Valid; infer_instance

/-- The writes made between two states of the broker. -/
def delivered (before after : Broker) : List (Nat × String) :=
  after.sent.drop before.sent.length

/-- The keys of the map, in node order. -/
def keys (sm : StringMap) : List String := sm.root.map (fun n => n.key)

/-- What holds of every map that `stringmap_add` and `stringmap_remove` build:
no key occurs twice and no stored item is `NULL`. -/
def StringMap.WF (sm : StringMap) : Prop :=
  (keys sm).Nodup ∧ ∀ n ∈ sm.root, n.item ≠ []

instance (sm : StringMap) : Decidable sm.WF := by
  unfold StringMap.WF; infer_instance

/-- The keys of a list of nodes. -/
def node_keys (l : List StringMapItem) : List String := l.map (fun n => n.key)

/-- The nodes without the first one that has the key. -/
def erase_key : List StringMapItem → String → List StringMapItem
  | [], _ => []
  | n :: l, key => if n.key = key then l else n :: erase_key l key

/-- The invariant of the registry: the map is well formed and no client occurs
twice in the subscriber sequence of a topic. -/
def Inv (b : Broker) : Prop :=
  b.info.sm.WF ∧ ∀ T : String, (subscribers b T).Nodup

/-- What `handle_unsub` makes of the chain of its topic, for a named client and
a valid topic: the two branches of the function, read on the chain alone. -/
def unsub_chain (chain : List Client) (client : Client) (countStat : Nat) : List Client :=
  match chain with
  | [] => []
  | temp :: next =>
    if temp.toClient = client.toClient then next
    else if countStat ≠ 0 then (unlink_client chain client).getD chain else chain

/-- The counters of the second state are those of the first, the same or
grown: what a command handler may do to them. The semaphore, the current and
the completed connections are the same. -/
def CommandFrame (b b1 : Broker) : Prop :=
  b1.info.threadLock = b.info.threadLock
    ∧ b1.info.currentConnections = b.info.currentConnections
    ∧ b1.info.totalConnections = b.info.totalConnections
    ∧ b.info.totalPub ≤ b1.info.totalPub
    ∧ b.info.totalSub ≤ b1.info.totalSub
    ∧ b.info.totalUnsub ≤ b1.info.totalUnsub

/-- The two states have the same semaphore value and the same five counters. -/
def SameCounters (b b1 : Broker) : Prop :=
  b1.info.threadLock = b.info.threadLock
    ∧ b1.info.currentConnections = b.info.currentConnections
    ∧ b1.info.totalConnections = b.info.totalConnections
    ∧ b1.info.totalPub = b.info.totalPub
    ∧ b1.info.totalSub = b.info.totalSub
    ∧ b1.info.totalUnsub = b.info.totalUnsub

/-- The completed-connection, publish, subscribe and unsubscribe counters of the
second state are at least those of the first. -/
def CountersGrow (b b1 : Broker) : Prop :=
  b.info.totalConnections ≤ b1.info.totalConnections
    ∧ b.info.totalPub ≤ b1.info.totalPub
    ∧ b.info.totalSub ≤ b1.info.totalSub
    ∧ b.info.totalUnsub ≤ b1.info.totalUnsub

/-- The four totals that the `int` variables hold in the second state are at
least those that they hold in the first. -/
def StoredGrow (b b1 : Broker) : Prop :=
  c_int b.info.totalConnections ≤ c_int b1.info.totalConnections
    ∧ c_int b.info.totalPub ≤ c_int b1.info.totalPub
    ∧ c_int b.info.totalSub ≤ c_int b1.info.totalSub
    ∧ c_int b.info.totalUnsub ≤ c_int b1.info.totalUnsub

instance (b b1 : Broker) : Decidable (StoredGrow b b1) := by
  unfold StoredGrow; infer_instance

/-- Each of the four totals is a value of `int`. -/
def TotalsInRange (b : Broker) : Prop :=
  (INT_MIN ≤ b.info.totalConnections ∧ b.info.totalConnections ≤ INT_MAX)
    ∧ (INT_MIN ≤ b.info.totalPub ∧ b.info.totalPub ≤ INT_MAX)
    ∧ (INT_MIN ≤ b.info.totalSub ∧ b.info.totalSub ≤ INT_MAX)
    ∧ (INT_MIN ≤ b.info.totalUnsub ∧ b.info.totalUnsub ≤ INT_MAX)

instance (b : Broker) : Decidable (TotalsInRange b) := by
  unfold TotalsInRange; infer_instance

/-- Each of the five counters is a value of `int`, as it is in every state of
the program. -/
def InRange (b : Broker) : Prop :=
  (INT_MIN ≤ b.info.currentConnections ∧ b.info.currentConnections ≤ INT_MAX)
    ∧ TotalsInRange b

instance (b : Broker) : Decidable (InRange b) := by
  unfold InRange; infer_instance

/-- What one step of the broker may do to the counters: each of the four totals
stays or grows by 1, and the current connections stay or change by 1. -/
def CountersStep (b b1 : Broker) : Prop :=
  (b.info.currentConnections - 1 ≤ b1.info.currentConnections
      ∧ b1.info.currentConnections ≤ b.info.currentConnections + 1)
    ∧ (b.info.totalConnections ≤ b1.info.totalConnections
      ∧ b1.info.totalConnections ≤ b.info.totalConnections + 1)
    ∧ (b.info.totalPub ≤ b1.info.totalPub ∧ b1.info.totalPub ≤ b.info.totalPub + 1)
    ∧ (b.info.totalSub ≤ b1.info.totalSub ∧ b1.info.totalSub ≤ b.info.totalSub + 1)
    ∧ (b.info.totalUnsub ≤ b1.info.totalUnsub ∧ b1.info.totalUnsub ≤ b.info.totalUnsub + 1)

/-- The admission invariant for the connection limit `N`: the live threads and
the free units of the semaphore add up to `N`. -/
def Admission (N : Nat) (s : Server) : Prop :=
  s.connections = N ∧ s.threads.length + s.broker.info.threadLock = N

/-- The topic for which the line makes `handle_sub` insert the client: the line
is a `sub` command with a valid topic, from a client that has a name and is not
in the subscriber sequence of the topic. `none` for every other line. -/
def inserted_topic (h : Handler) (line : String) (b : Broker) : Option String :=
  match (split_by_char line ' ' TWO_TOKENS)[0]?, (split_by_char line ' ' TWO_TOKENS)[1]? with
  | some command, some arg =>
    if command = "sub" ∧ check_spaces_colons_empty arg = true ∧ h.client.name ≠ none
        ∧ h.client.toClient ∉ subscribers b arg then some arg else none
  | _, _ => none

/-- The topic from which the line makes `handle_unsub` remove the client: the
line is an `unsub` command with a valid topic, from a client that has a name and
is in the subscriber sequence of the topic. `none` for every other line. -/
def removed_topic (h : Handler) (line : String) (b : Broker) : Option String :=
  match (split_by_char line ' ' TWO_TOKENS)[0]?, (split_by_char line ' ' TWO_TOKENS)[1]? with
  | some command, some arg =>
    if command = "unsub" ∧ check_spaces_colons_empty arg = true ∧ h.client.name ≠ none
        ∧ h.client.toClient ∈ subscribers b arg then some arg else none
  | _, _ => none

/-- The topics from which the lines of a connection have removed the client,
the latest first, in front of those removed before. -/
def unsubscribed (h : Handler) (b : Broker) (removed : List String) : List String → List String
  | [] => removed
  | line :: rest =>
    unsubscribed (client_line h line b).1 (client_line h line b).2
      ((removed_topic h line b).toList ++ removed) rest

/-- No line of the connection inserts the client for a topic from which an
earlier line has removed it. -/
def no_resubscribe (h : Handler) (b : Broker) (removed : List String) : List String → Bool
  | [] => true
  | line :: rest =>
    (match inserted_topic h line b with
      | some T => decide (T ∉ removed)
      | none => true)
    && no_resubscribe (client_line h line b).1 (client_line h line b).2
        ((removed_topic h line b).toList ++ removed) rest

/-- The tracked topics of a thread agree with the registry and with the topics
from which the client has been removed: `subCount` is the number of entries,
the client is the head of every sequence that it is in, and a topic is recorded
once for every removal and once more when the client is in its sequence. -/
def Ledger (h : Handler) (b : Broker) (removed : List String) : Prop :=
  h.client.subCount = h.client.subbedTopics.length
    ∧ (∀ T : String, h.client.toClient ∈ subscribers b T →
        (subscribers b T).head? = some h.client.toClient)
    ∧ ∀ T : String, h.client.subbedTopics.count T
        = removed.count T + (if h.client.toClient ∈ subscribers b T then 1 else 0)

/-- The broker after the client has subscribed to `T` and then unsubscribed
from it, as its thread does it: `handle_unsub` gets the client that `handle_sub`
returned and `countStat = COUNT`. -/
def sub_then_unsub (client : Client) (T : String) (b : Broker) (bufferSize : Nat) : Broker :=
  handle_unsub (handle_sub client T b bufferSize).1 T (handle_sub client T b bufferSize).2.2 COUNT

/-- The finite map of the claim, as a function from keys to items (`[]`: no
binding). Adding binds the key to the item when the item is not `NULL` and the
key has no binding, and changes nothing otherwise. -/
def finite_map_add (f : String → List Client) (key : String) (item : List Client) :
    String → List Client :=
  fun k => if k = key ∧ item ≠ [] ∧ f key = [] then item else f k

/-- The finite map of the claim: removing leaves the key without binding. -/
def finite_map_remove (f : String → List Client) (key : String) : String → List Client :=
  fun k => if k = key then [] else f k

/-! ## Example data -/

def alice : Client := ⟨some "alice", 4, 5, [], 0⟩
def bob : Client := ⟨some "bob", 6, 7, [], 0⟩
def carol : Client := ⟨some "carol", 8, 9, [], 0⟩

/-- The broker after carol subscribed to "news". -/
def news_broker : Broker := (handle_sub carol "news" (initial_broker 0) 3).2.2

/-- The broker after alice subscribed to "news" as well: alice is the head of
the chain and carol follows. -/
def news_broker2 : Broker := (handle_sub alice "news" news_broker 3).2.2

/-- The connection on streams 4 and 5 sends its name and subscribes. -/
def alice_session : Handler × Broker :=
  client_lines (client_start 4 5 (initial_broker 0)).1 ["name alice", "sub news"]
    (client_start 4 5 (initial_broker 0)).2

/-- Then the connection on streams 6 and 7 does the same. -/
def bob_session : Handler × Broker :=
  client_lines (client_start 6 7 alice_session.2).1 ["name bob", "sub news"]
    (client_start 6 7 alice_session.2).2

/-- Then the first connection is closed. -/
def after_alice_left : Broker := clean_up_client alice_session.1.client bob_session.2

/-- A broker whose counters have several digits. -/
def busy_broker : Broker :=
  { info := { sm := stringmap_init, threadLock := 0, currentConnections := 12,
              totalConnections := 305, totalPub := 4096, totalSub := 70, totalUnsub := 9 },
    sent := [], released := [] }

/-- The connection on streams 8 and 9 sends its name and subscribes. -/
def carol_session : Handler × Broker :=
  client_lines (client_start 8 9 (initial_broker 0)).1 ["name carol", "sub news"]
    (client_start 8 9 (initial_broker 0)).2

/-- Then the connection on streams 4 and 5 does the same: the chain of "news" is
alice, carol. -/
def alice_joined : Handler × Broker :=
  client_lines (client_start 4 5 carol_session.2).1 ["name alice", "sub news"]
    (client_start 4 5 carol_session.2).2

/-- Then the first connection sends `unsub news`. -/
def carol_left : Broker := (client_line carol_session.1 "unsub news" alice_joined.2).2

/-- A broker, with carol on "news", whose publish counter is at `INT_MAX`. -/
def full_broker : Broker :=
  { news_broker with info := { news_broker.info with totalPub := INT_MAX } }

/-- A fresh connection names itself, subscribes to "news", unsubscribes and
subscribes again. -/
def resubscribed : Handler × Broker :=
  client_lines (client_start 4 5 (initial_broker 0)).1
    ["name alice", "sub news", "unsub news", "sub news"] (client_start 4 5 (initial_broker 0)).2

/-- The broker after bob subscribed to "news" as well: the chain is bob, alice,
carol. -/
def news_broker3 : Broker := (handle_sub bob "news" news_broker2 3).2.2

/-- A broker with two topics: alice and carol on "news", bob on "sport". -/
def two_topics : Broker := (handle_sub bob "sport" news_broker2 3).2.2

/-! ## Facts about `stringmap.c` -/

@[simp] theorem node_keys_nil : node_keys [] = [] := rfl

@[simp] theorem node_keys_cons (n : StringMapItem) (l : List StringMapItem) :
    node_keys (n :: l) = n.key :: node_keys l := rfl

theorem keys_eq (sm : StringMap) : keys sm = node_keys sm.root := rfl

theorem search_nodes_of_not_mem (l : List StringMapItem) (k : String)
    (h : k ∉ node_keys l) : search_nodes l k = [] := by
  induction l with
  | nil => rfl
  | cons n l ih =>
    simp only [node_keys_cons, List.mem_cons, not_or] at h
    simp [search_nodes, h.1, ih h.2]

theorem search_nodes_ne_nil (l : List StringMapItem) (k : String)
    (hitem : ∀ n ∈ l, n.item ≠ []) (h : k ∈ node_keys l) : search_nodes l k ≠ [] := by
  induction l with
  | nil => simp at h
  | cons n l ih =>
    simp only [node_keys_cons, List.mem_cons] at h
    by_cases hk : k = n.key
    · simp [search_nodes, hk, hitem n (List.mem_cons_self _ _)]
    · simp only [search_nodes, hk, if_false]
      exact ih (fun m hm => hitem m (List.mem_cons_of_mem _ hm)) (h.resolve_left hk)

theorem mem_keys_of_search_ne_nil (l : List StringMapItem) (k : String)
    (h : search_nodes l k ≠ []) : k ∈ node_keys l := by
  by_contra hk
  exact h (search_nodes_of_not_mem l k hk)

theorem add_nodes_of_not_mem (l : List StringMapItem) (k : String) (item : List Client)
    (h : k ∉ node_keys l) : add_nodes l k item = some (l ++ [⟨k, item⟩]) := by
  induction l with
  | nil => rfl
  | cons n l ih =>
    simp only [node_keys_cons, List.mem_cons, not_or] at h
    simp [add_nodes, h.1, ih h.2]

theorem add_nodes_of_mem (l : List StringMapItem) (k : String) (item : List Client)
    (h : k ∈ node_keys l) : add_nodes l k item = none := by
  induction l with
  | nil => simp at h
  | cons n l ih =>
    simp only [node_keys_cons, List.mem_cons] at h
    by_cases hk : k = n.key
    · simp [add_nodes, hk]
    · simp [add_nodes, hk, ih (h.resolve_left hk)]

theorem remove_nodes_of_not_mem (l : List StringMapItem) (k : String)
    (h : k ∉ node_keys l) : remove_nodes l k = none := by
  induction l with
  | nil => rfl
  | cons n l ih =>
    simp only [node_keys_cons, List.mem_cons, not_or] at h
    have h1 : ¬ n.key = k := fun e => h.1 e.symm
    simp [remove_nodes, h1, ih h.2]

theorem remove_nodes_of_mem (l : List StringMapItem) (k : String)
    (h : k ∈ node_keys l) : remove_nodes l k = some (erase_key l k) := by
  induction l with
  | nil => simp at h
  | cons n l ih =>
    simp only [node_keys_cons, List.mem_cons] at h
    by_cases hk : n.key = k
    · simp [remove_nodes, erase_key, hk]
    · have h2 : k ∈ node_keys l := h.resolve_left (fun e => hk e.symm)
      simp [remove_nodes, erase_key, hk, ih h2]

theorem erase_key_of_not_mem (l : List StringMapItem) (k : String)
    (h : k ∉ node_keys l) : erase_key l k = l := by
  induction l with
  | nil => rfl
  | cons n l ih =>
    simp only [node_keys_cons, List.mem_cons, not_or] at h
    have h1 : ¬ n.key = k := fun e => h.1 e.symm
    simp [erase_key, h1, ih h.2]

/-- The map after `stringmap_remove`, whether or not the key was there. -/
theorem stringmap_remove_root (sm : StringMap) (k : String) :
    (stringmap_remove sm k).2.root = erase_key sm.root k := by
  unfold stringmap_remove
  by_cases h : k ∈ node_keys sm.root
  · simp [remove_nodes_of_mem _ _ h]
  · simp [remove_nodes_of_not_mem _ _ h, erase_key_of_not_mem _ _ h]

/-- The map after `stringmap_add`: a node is appended unless the item is `NULL`
or the key exists. -/
theorem stringmap_add_root (sm : StringMap) (k : String) (item : List Client) :
    (stringmap_add sm k item).2.root =
      if item = [] ∨ k ∈ node_keys sm.root then sm.root else sm.root ++ [⟨k, item⟩] := by
  unfold stringmap_add
  cases item with
  | nil => simp
  | cons c cs =>
    by_cases h : k ∈ node_keys sm.root
    · simp [add_nodes_of_mem _ _ _ h, h]
    · simp [add_nodes_of_not_mem _ _ _ h, h]

theorem mem_erase_key (l : List StringMapItem) (k : String) (n : StringMapItem)
    (h : n ∈ erase_key l k) : n ∈ l := by
  induction l with
  | nil => simp [erase_key] at h
  | cons m l ih =>
    by_cases hk : m.key = k
    · simp only [erase_key, hk, if_true] at h
      exact List.mem_cons_of_mem _ h
    · simp only [erase_key, hk, if_false, List.mem_cons] at h
      rcases h with h | h
      · exact h ▸ List.mem_cons_self _ _
      · exact List.mem_cons_of_mem _ (ih h)

theorem node_keys_erase_key (l : List StringMapItem) (k : String) :
    node_keys (erase_key l k) = (node_keys l).erase k := by
  induction l with
  | nil => rfl
  | cons m l ih =>
    by_cases hk : m.key = k
    · simp [erase_key, hk]
    · simp [erase_key, hk, ih, List.erase_cons_tail, hk]

theorem not_mem_keys_erase_key (l : List StringMapItem) (k : String)
    (hnd : (node_keys l).Nodup) : k ∉ node_keys (erase_key l k) := by
  rw [node_keys_erase_key]
  exact fun h => (List.Nodup.mem_erase_iff hnd).1 h |>.1 rfl

theorem nodup_keys_erase_key (l : List StringMapItem) (k : String)
    (hnd : (node_keys l).Nodup) : (node_keys (erase_key l k)).Nodup := by
  rw [node_keys_erase_key]
  exact hnd.erase k

theorem search_erase_key_ne (l : List StringMapItem) (k k1 : String) (h : k1 ≠ k) :
    search_nodes (erase_key l k) k1 = search_nodes l k1 := by
  induction l with
  | nil => rfl
  | cons m l ih =>
    by_cases hk : m.key = k
    · have : ¬ k1 = m.key := fun e => h (e.trans hk)
      simp [erase_key, hk, search_nodes, h]
    · simp [erase_key, hk, search_nodes, ih]

theorem search_nodes_append (l : List StringMapItem) (k k1 : String) (item : List Client) :
    search_nodes (l ++ [⟨k, item⟩]) k1 =
      if k1 ∈ node_keys l then search_nodes l k1 else if k1 = k then item else [] := by
  induction l with
  | nil => simp [search_nodes]
  | cons m l ih =>
    by_cases hk : k1 = m.key
    · simp [search_nodes, hk]
    · simp [search_nodes, hk, ih]

theorem search_store_nodes (l : List StringMapItem) (k k1 : String) (item : List Client) :
    search_nodes (store_nodes l k item) k1 =
      if k1 = k ∧ k ∈ node_keys l then item else search_nodes l k1 := by
  induction l with
  | nil => simp [store_nodes, search_nodes]
  | cons m l ih =>
    by_cases hk : k = m.key
    · by_cases hk1 : k1 = m.key
      · simp [store_nodes, search_nodes, hk, hk1]
      · have : ¬ k1 = k := fun e => hk1 (e.trans hk)
        simp [store_nodes, search_nodes, hk, hk1]
    · by_cases hk1 : k1 = m.key
      · have : ¬ k1 = k := fun e => hk (e.symm.trans hk1)
        simp [store_nodes, search_nodes, hk, hk1]
        simp [← hk1, this]
      · simp [store_nodes, search_nodes, hk, hk1, ih]

theorem node_keys_store_nodes (l : List StringMapItem) (k : String) (item : List Client) :
    node_keys (store_nodes l k item) = node_keys l := by
  induction l with
  | nil => rfl
  | cons m l ih =>
    by_cases hk : k = m.key
    · simp [store_nodes, hk]
    · simp [store_nodes, hk, ih]

theorem mem_store_nodes (l : List StringMapItem) (k : String) (item : List Client)
    (n : StringMapItem) (h : n ∈ store_nodes l k item) : n ∈ l ∨ n.item = item := by
  induction l with
  | nil => simp [store_nodes] at h
  | cons m l ih =>
    by_cases hk : k = m.key
    · simp only [store_nodes, hk, if_true, List.mem_cons] at h
      rcases h with h | h
      · right; rw [h]
      · left; exact List.mem_cons_of_mem _ h
    · simp only [store_nodes, hk, if_false, List.mem_cons] at h
      rcases h with h | h
      · left; rw [h]; exact List.mem_cons_self _ _
      · rcases ih h with h1 | h1
        · left; exact List.mem_cons_of_mem _ h1
        · right; exact h1

theorem search_eq_nil_iff (sm : StringMap) (hwf : sm.WF) (k : String) :
    stringmap_search sm k = [] ↔ k ∉ keys sm := by
  constructor
  · intro h hk
    exact search_nodes_ne_nil sm.root k hwf.2 hk h
  · intro h
    exact search_nodes_of_not_mem sm.root k h

/-- The map after `stringmap_remove` then `stringmap_add` of the same key, as
`handle_sub` and `handle_unsub` do it: the key is bound to the item (to nothing
when the item is `NULL`) and the other keys keep their items. -/
theorem search_remove_add (sm : StringMap) (hnd : (keys sm).Nodup) (k k1 : String)
    (item : List Client) :
    stringmap_search (stringmap_add (stringmap_remove sm k).2 k item).2 k1 =
      if k1 = k then item else stringmap_search sm k1 := by
  have hnot : k ∉ node_keys (erase_key sm.root k) := not_mem_keys_erase_key _ _ hnd
  unfold stringmap_search
  rw [stringmap_add_root, stringmap_remove_root]
  by_cases hitem : item = []
  · by_cases hk : k1 = k
    · subst hk
      simp [hitem, search_nodes_of_not_mem _ _ hnot]
    · simp [hitem, hk, search_erase_key_ne _ _ _ hk]
  · simp only [hitem, hnot, or_self, if_false]
    rw [search_nodes_append]
    by_cases hk : k1 = k
    · subst hk
      simp [hnot]
    · simp only [hk, if_false]
      by_cases hm : k1 ∈ node_keys (erase_key sm.root k)
      · simp [hm, search_erase_key_ne _ _ _ hk]
      · simp only [hm, if_false]
        rw [← search_erase_key_ne _ _ _ hk, search_nodes_of_not_mem _ _ hm]

theorem wf_remove_add (sm : StringMap) (hwf : sm.WF) (k : String) (item : List Client) :
    (stringmap_add (stringmap_remove sm k).2 k item).2.WF := by
  have hnot : k ∉ node_keys (erase_key sm.root k) := not_mem_keys_erase_key _ _ hwf.1
  have hnd : (node_keys (erase_key sm.root k)).Nodup := nodup_keys_erase_key _ _ hwf.1
  have hit : ∀ n ∈ erase_key sm.root k, n.item ≠ [] :=
    fun n hn => hwf.2 n (mem_erase_key _ _ _ hn)
  unfold StringMap.WF
  rw [keys_eq, stringmap_add_root, stringmap_remove_root]
  by_cases hitem : item = []
  · simp only [hitem, true_or, if_true]
    exact ⟨hnd, hit⟩
  · simp only [hitem, hnot, or_self, if_false]
    constructor
    · unfold node_keys at hnd hnot ⊢
      rw [List.map_append, List.nodup_append]
      refine ⟨hnd, by simp, ?_⟩
      intro a ha hb
      simp only [List.map_cons, List.map_nil, List.mem_singleton] at hb
      exact hnot (hb ▸ ha)
    · intro n hn
      rcases List.mem_append.1 hn with h | h
      · exact hit n h
      · simp only [List.mem_singleton] at h
        rw [h]; exact hitem

theorem remove_of_search_nil (sm : StringMap) (hwf : sm.WF) (k : String)
    (h : stringmap_search sm k = []) : (stringmap_remove sm k).2 = sm := by
  have hk : k ∉ node_keys sm.root := (search_eq_nil_iff sm hwf k).1 h
  unfold stringmap_remove
  simp [remove_nodes_of_not_mem _ _ hk]

theorem search_store (sm : StringMap) (k k1 : String) (item : List Client)
    (h : stringmap_search sm k ≠ []) :
    stringmap_search ⟨store_nodes sm.root k item⟩ k1 =
      if k1 = k then item else stringmap_search sm k1 := by
  unfold stringmap_search
  rw [search_store_nodes]
  have hk : k ∈ node_keys sm.root := mem_keys_of_search_ne_nil _ _ h
  simp [hk]

theorem wf_store (sm : StringMap) (hwf : sm.WF) (k : String) (item : List Client)
    (hitem : item ≠ []) : StringMap.WF ⟨store_nodes sm.root k item⟩ := by
  constructor
  · rw [keys_eq, node_keys_store_nodes]; exact hwf.1
  · intro n hn
    rcases mem_store_nodes _ _ _ _ hn with h | h
    · exact hwf.2 n h
    · rw [h]; exact hitem

/-! ## Facts about the chains of subscribers -/

@[simp] theorem streams_nil : streams [] = [] := rfl

@[simp] theorem streams_cons (c : Client) (l : List Client) :
    streams (c :: l) = c.toClient :: streams l := rfl

theorem already_subbed_iff (chain : List Client) (client : Client) :
    already_subbed chain client = true ↔ client.toClient ∈ streams chain := by
  induction chain with
  | nil => simp [already_subbed]
  | cons n l ih =>
    by_cases h : n.toClient = client.toClient
    · simp [already_subbed, h]
    · have h1 : ¬ client.toClient = n.toClient := fun e => h e.symm
      simp [already_subbed, h, h1, ih]

theorem unlink_client_none_iff (chain : List Client) (client : Client) :
    unlink_client chain client = none ↔ client.toClient ∉ streams chain := by
  induction chain with
  | nil => simp [unlink_client]
  | cons n l ih =>
    by_cases h : n.toClient = client.toClient
    · simp [unlink_client, h]
    · have h1 : ¬ client.toClient = n.toClient := fun e => h e.symm
      simp [unlink_client, h, h1, ih]

/-- What the unlinking loop leaves: the nodes of other clients, in order, when
the client occurs once in the chain. -/
theorem unlink_client_eq_filter (chain : List Client) (client : Client) (l : List Client)
    (hnd : (streams chain).Nodup) (h : unlink_client chain client = some l) :
    l = chain.filter (fun n => n.toClient ≠ client.toClient) := by
  induction chain generalizing l with
  | nil => simp [unlink_client] at h
  | cons n t ih =>
    simp only [streams_cons, List.nodup_cons] at hnd
    by_cases hn : n.toClient = client.toClient
    · simp only [unlink_client, hn, if_true, Option.some.injEq] at h
      subst h
      have : ∀ m ∈ t, ¬ m.toClient = client.toClient := by
        intro m hm e
        apply hnd.1
        rw [hn, ← e]
        exact List.mem_map_of_mem _ hm
      rw [List.filter_cons_of_neg (by simp [hn])]
      symm
      rw [List.filter_eq_self]
      intro m hm
      simpa using this m hm
    · simp only [unlink_client, hn, if_false, Option.map_eq_some'] at h
      obtain ⟨l1, hl1, rfl⟩ := h
      simp [hn, ih l1 hnd.2 hl1]

theorem unlink_client_streams (chain : List Client) (client : Client) (l : List Client)
    (h : unlink_client chain client = some l) :
    streams l = (streams chain).erase client.toClient := by
  induction chain generalizing l with
  | nil => simp [unlink_client] at h
  | cons n t ih =>
    by_cases hn : n.toClient = client.toClient
    · simp only [unlink_client, hn, if_true, Option.some.injEq] at h
      subst h
      simp [hn]
    · simp only [unlink_client, hn, if_false, Option.map_eq_some'] at h
      obtain ⟨l1, hl1, rfl⟩ := h
      simp [hn, ih l1 hl1, List.erase_cons_tail]

/-! ## Facts about the handlers -/

theorem check_eq_true_iff (s : String) : check_spaces_colons_empty s = true ↔ Valid s := by
  unfold check_spaces_colons_empty Valid
  by_cases h1 : s = "" <;> by_cases h2 : ' ' ∈ s.toList <;> by_cases h3 : ':' ∈ s.toList <;>
    simp [h1, h2, h3]

/-- The broker after `handle_sub` of a named client on a valid topic. -/
theorem handle_sub_broker (client : Client) (T : String) (b : Broker) (bufferSize : Nat)
    (hwf : b.info.sm.WF) (hname : client.name ≠ none) (hT : Valid T) :
    (handle_sub client T b bufferSize).2.2 =
      if client.toClient ∈ subscribers b T then b
      else { b with info := { b.info with
        sm := (stringmap_add (stringmap_remove b.info.sm T).2 T
                (client :: stringmap_search b.info.sm T)).2,
        totalSub := b.info.totalSub + 1 } } := by
  have hc : check_spaces_colons_empty T = true := (check_eq_true_iff T).2 hT
  obtain ⟨nm, hnm⟩ := Option.ne_none_iff_exists'.1 hname
  unfold handle_sub subscribers
  simp only [hc, hnm, Bool.not_true, Bool.false_eq_true, if_false]
  cases hs : stringmap_search b.info.sm T with
  | nil =>
    simp [remove_of_search_nil _ hwf _ hs]
  | cons temp next =>
    by_cases ha : already_subbed (temp :: next) client = true
    · have hm := (already_subbed_iff _ _).1 ha
      simp only [ha, if_true]
      rw [if_pos hm]
    · have hm : client.toClient ∉ streams (temp :: next) :=
        fun h => ha ((already_subbed_iff _ _).2 h)
      simp only [ha]
      rw [if_neg hm]
      simp

theorem handle_sub_wf (client : Client) (T : String) (b : Broker) (bufferSize : Nat)
    (hwf : b.info.sm.WF) : (handle_sub client T b bufferSize).2.2.info.sm.WF := by
  by_cases hT : Valid T
  · by_cases hname : client.name = none
    · have hc : check_spaces_colons_empty T = true := (check_eq_true_iff T).2 hT
      unfold handle_sub
      simpa [hc, hname] using hwf
    · rw [handle_sub_broker client T b bufferSize hwf hname hT]
      by_cases hm : client.toClient ∈ subscribers b T
      · rw [if_pos hm]; exact hwf
      · rw [if_neg hm]; exact wf_remove_add _ hwf _ _
  · have hc : check_spaces_colons_empty T = false := by
      cases h : check_spaces_colons_empty T with
      | false => rfl
      | true => exact absurd ((check_eq_true_iff T).1 h) hT
    unfold handle_sub
    simpa [hc, print_invalid] using hwf

/-- The chain of every topic after `handle_sub` of a named client on a valid
topic. -/
theorem handle_sub_search (client : Client) (T : String) (b : Broker) (bufferSize : Nat)
    (hwf : b.info.sm.WF) (hname : client.name ≠ none) (hT : Valid T) (k : String) :
    stringmap_search (handle_sub client T b bufferSize).2.2.info.sm k =
      if k = T ∧ client.toClient ∉ subscribers b T then client :: stringmap_search b.info.sm T
      else stringmap_search b.info.sm k := by
  rw [handle_sub_broker client T b bufferSize hwf hname hT]
  by_cases hm : client.toClient ∈ subscribers b T
  · simp [hm]
  · simp only [hm, if_false, not_false_eq_true, and_true]
    exact search_remove_add _ hwf.1 _ _ _

/-! ## Facts about `split_by_char` -/

theorem split_fields_one (s : List Char) (sp : Char) : split_fields s sp 1 = [s] := by
  induction s with
  | nil => rfl
  | cons c cs ih => simp [split_fields, ih]

theorem split_fields_of_not_mem (s : List Char) (sp : Char) (n : Nat) (h : sp ∉ s) :
    split_fields s sp n = [s] := by
  induction s with
  | nil => rfl
  | cons c cs ih =>
    simp only [List.mem_cons, not_or] at h
    have hc : ¬ c = sp := fun e => h.1 e.symm
    simp [split_fields, hc, ih h.2]

theorem split_fields_two (a b : List Char) (sp : Char) (h : sp ∉ a) :
    split_fields (a ++ sp :: b) sp 2 = [a, b] := by
  induction a with
  | nil => simp [split_fields, split_fields_one]
  | cons c cs ih =>
    simp only [List.mem_cons, not_or] at h
    have hc : ¬ c = sp := fun e => h.1 e.symm
    simp [split_fields, hc, ih h.2]

/-- A line without a space has one field only. -/
theorem split_by_char_of_not_mem (s : String) (h : ' ' ∉ s.toList) :
    split_by_char s ' ' TWO_TOKENS = [s] := by
  unfold split_by_char
  rw [split_fields_of_not_mem _ _ _ h]
  rfl

/-- A line is cut at its first space. -/
theorem split_by_char_two (a b : String) (h : ' ' ∉ a.toList) :
    split_by_char (a ++ " " ++ b) ' ' TWO_TOKENS = [a, b] := by
  unfold split_by_char TWO_TOKENS
  have : (a ++ " " ++ b).toList = a.toList ++ ' ' :: b.toList := by simp
  rw [this, split_fields_two _ _ _ h]
  rfl

/-- The broker after `handle_pub` on an argument with a space, cut at the first
one into `T` and `V`. -/
theorem handle_pub_two (client : Client) (T V : String) (b : Broker) (h : ' ' ∉ T.toList) :
    handle_pub client (T ++ " " ++ V) b =
      if !check_spaces_colons_empty T || V = "" then print_invalid client b
      else match client.name with
        | none => b
        | some name =>
          { info := { b.info with totalPub := b.info.totalPub + 1 },
            sent := b.sent ++ (stringmap_search b.info.sm T).map (fun (temp : Client) =>
              (temp.toClient, name ++ ":" ++ T ++ ":" ++ V ++ "\n")),
            released := b.released } := by
  unfold handle_pub
  simp only [split_by_char_two T V h]
  rfl

/-! ## Facts about `handle_unsub` -/

theorem unlink_client_cons_ne_nil (temp : Client) (next : List Client) (client : Client)
    (h : temp.toClient ≠ client.toClient) (l : List Client)
    (hl : unlink_client (temp :: next) client = some l) : l ≠ [] := by
  simp only [unlink_client, h, if_false, Option.map_eq_some'] at hl
  obtain ⟨l1, _, rfl⟩ := hl
  simp

/-- The chain of every topic after `handle_unsub` of a named client on a valid
topic. -/
theorem handle_unsub_search (client : Client) (T : String) (b : Broker) (countStat : Nat)
    (hwf : b.info.sm.WF) (hname : client.name ≠ none) (hT : Valid T) (k : String) :
    stringmap_search (handle_unsub client T b countStat).info.sm k =
      if k = T then unsub_chain (stringmap_search b.info.sm T) client countStat
      else stringmap_search b.info.sm k := by
  have hc : check_spaces_colons_empty T = true := (check_eq_true_iff T).2 hT
  obtain ⟨nm, hnm⟩ := Option.ne_none_iff_exists'.1 hname
  unfold handle_unsub unsub_chain
  simp only [hc, hnm, Bool.not_true, Bool.false_eq_true, if_false]
  cases hs : stringmap_search b.info.sm T with
  | nil =>
    by_cases hk : k = T
    · simp [hk, hs]
    · simp [hk]
  | cons temp next =>
    by_cases hh : temp.toClient = client.toClient
    · simp only [hh, if_true]
      exact search_remove_add _ hwf.1 _ _ _
    · simp only [hh, if_false]
      cases hu : unlink_client (temp :: next) client with
      | none =>
        by_cases hk : k = T
        · by_cases hcs : countStat = 0 <;> simp [hk, hs, hcs]
        · simp [hk]
      | some item1 =>
        by_cases hcs : countStat = 0
        · by_cases hk : k = T
          · simp [hk, hs, hcs]
          · simp [hk, hcs]
        · simp only [hcs, ne_eq, not_false_eq_true, if_true, Option.getD_some]
          have hne : stringmap_search b.info.sm T ≠ [] := by rw [hs]; simp
          exact search_store _ _ _ _ hne

theorem handle_unsub_wf (client : Client) (T : String) (b : Broker) (countStat : Nat)
    (hwf : b.info.sm.WF) : (handle_unsub client T b countStat).info.sm.WF := by
  unfold handle_unsub
  cases hc : check_spaces_colons_empty T with
  | false => simpa [print_invalid] using hwf
  | true =>
    simp only [Bool.not_true, Bool.false_eq_true, if_false]
    cases hnm : client.name with
    | none => exact hwf
    | some nm =>
      simp only []
      cases hs : stringmap_search b.info.sm T with
      | nil => exact hwf
      | cons temp next =>
        simp only []
        by_cases hh : temp.toClient = client.toClient
        · simp only [hh, if_true]
          exact wf_remove_add _ hwf _ _
        · simp only [hh, if_false]
          cases hu : unlink_client (temp :: next) client with
          | none => exact hwf
          | some item1 =>
            by_cases hcs : countStat = 0
            · simpa [hcs] using hwf
            · simp only [hcs, ne_eq, not_false_eq_true, if_true]
              exact wf_store _ hwf _ _ (unlink_client_cons_ne_nil _ _ _ hh _ hu)

/-- The unsubscribe counter after `handle_unsub` of a named client on a valid
topic: the head is always counted when `countStat` is set, another node when
it is found and `countStat` is set. -/
theorem handle_unsub_totalUnsub (client : Client) (T : String) (b : Broker) (countStat : Nat)
    (hname : client.name ≠ none) (hT : Valid T) :
    (handle_unsub client T b countStat).info.totalUnsub =
      if client.toClient ∈ subscribers b T ∧ countStat ≠ 0 then b.info.totalUnsub + 1
      else b.info.totalUnsub := by
  have hc : check_spaces_colons_empty T = true := (check_eq_true_iff T).2 hT
  obtain ⟨nm, hnm⟩ := Option.ne_none_iff_exists'.1 hname
  unfold handle_unsub subscribers
  simp only [hc, hnm, Bool.not_true, Bool.false_eq_true, if_false]
  cases hs : stringmap_search b.info.sm T with
  | nil => simp
  | cons temp next =>
    by_cases hh : temp.toClient = client.toClient
    · by_cases hcs : countStat = 0 <;> simp [hh, hcs]
    · have hh1 : ¬ client.toClient = temp.toClient := fun e => hh e.symm
      simp only [hh, if_false]
      cases hu : unlink_client (temp :: next) client with
      | none =>
        have := (unlink_client_none_iff _ _).1 hu
        rw [if_neg (fun h => this h.1)]
      | some item1 =>
        have hm : client.toClient ∈ streams (temp :: next) := by
          by_contra hcon
          rw [(unlink_client_none_iff _ _).2 hcon] at hu
          exact Option.noConfusion hu
        by_cases hcs : countStat = 0
        · rw [if_neg (fun h => h.2 hcs)]
          simp [hcs]
        · rw [if_pos ⟨hm, hcs⟩]
          simp [hcs]

/-- All that `handle_unsub` changes, on a valid topic, is the map, the
unsubscribe counter and the record of the nodes released while linked. -/
theorem handle_unsub_frame (client : Client) (T : String) (b : Broker) (countStat : Nat)
    (hT : Valid T) :
    handle_unsub client T b countStat =
      { info := { b.info with
          sm := (handle_unsub client T b countStat).info.sm,
          totalUnsub := (handle_unsub client T b countStat).info.totalUnsub },
        sent := b.sent,
        released := (handle_unsub client T b countStat).released } := by
  have hc : check_spaces_colons_empty T = true := (check_eq_true_iff T).2 hT
  unfold handle_unsub
  simp only [hc, Bool.not_true, Bool.false_eq_true, if_false]
  cases hnm : client.name with
  | none => rfl
  | some nm =>
    simp only []
    cases hs : stringmap_search b.info.sm T with
    | nil => rfl
    | cons temp next =>
      simp only []
      by_cases hh : temp.toClient = client.toClient
      · simp only [hh, if_true]
      · simp only [hh, if_false]
        cases hu : unlink_client (temp :: next) client with
        | none => rfl
        | some item1 =>
          by_cases hcs : countStat = 0
          · simp [hcs]
          · simp [hcs]

theorem unsub_chain_of_not_mem (chain : List Client) (client : Client) (countStat : Nat)
    (h : client.toClient ∉ streams chain) : unsub_chain chain client countStat = chain := by
  cases chain with
  | nil => rfl
  | cons temp next =>
    have hh : ¬ temp.toClient = client.toClient := by
      intro e; apply h; simp [e]
    unfold unsub_chain
    simp only [hh, if_false, (unlink_client_none_iff _ _).2 h, Option.getD_none, ite_self]

/-- With `countStat` set, `handle_unsub` leaves the nodes of the other clients,
in order, when the client occurs at most once in the chain. -/
theorem unsub_chain_count (chain : List Client) (client : Client) (countStat : Nat)
    (hcs : countStat ≠ 0) (hnd : (streams chain).Nodup) :
    unsub_chain chain client countStat
      = chain.filter (fun n => n.toClient ≠ client.toClient) := by
  by_cases hm : client.toClient ∈ streams chain
  · cases chain with
    | nil => simp at hm
    | cons temp next =>
      cases hu : unlink_client (temp :: next) client with
      | none => exact absurd hm ((unlink_client_none_iff _ _).1 hu)
      | some l =>
        have hl := unlink_client_eq_filter _ _ _ hnd hu
        unfold unsub_chain
        by_cases hh : temp.toClient = client.toClient
        · simp only [hh, if_true]
          simp only [unlink_client, hh, if_true, Option.some.injEq] at hu
          subst hu; exact hl
        · simp only [hh, if_false, hcs, ne_eq, not_false_eq_true, if_true, hu, Option.getD_some]
          exact hl
  · rw [unsub_chain_of_not_mem _ _ _ hm]
    symm
    rw [List.filter_eq_self]
    intro n hn
    have : ¬ n.toClient = client.toClient := by
      intro e; apply hm; rw [← e]; exact List.mem_map_of_mem _ hn
    simpa using this

/-! ## Facts about `handle_pub` -/

/-- `handle_pub` never changes the map. -/
theorem handle_pub_sm (client : Client) (topicAndValue : String) (b : Broker) :
    (handle_pub client topicAndValue b).info.sm = b.info.sm := by
  unfold handle_pub
  simp only []
  split
  · split
    · rfl
    · split <;> rfl
  · rfl

theorem foldl_handle_pub_sm (earlier : List (Client × String)) (b : Broker) :
    (earlier.foldl (fun acc q => handle_pub q.1 q.2 acc) b).info.sm = b.info.sm := by
  induction earlier generalizing b with
  | nil => rfl
  | cons q l ih =>
    simp only [List.foldl_cons]
    rw [ih, handle_pub_sm]

theorem subscribers_congr (b1 b2 : Broker) (h : b1.info.sm = b2.info.sm) (T : String) :
    subscribers b1 T = subscribers b2 T := by
  unfold subscribers
  rw [h]

/-! ## The invariant along executions -/

theorem inv_of_sm_eq (b1 b2 : Broker) (h : b1.info.sm = b2.info.sm) (hinv : Inv b2) :
    Inv b1 := by
  unfold Inv subscribers at *
  rw [h]
  exact hinv

theorem inv_initial (connections : Nat) : Inv (initial_broker connections) := by
  refine ⟨⟨List.nodup_nil, ?_⟩, ?_⟩
  · intro n hn
    simp [initial_broker, stringmap_init] at hn
  · intro T
    exact List.nodup_nil

theorem check_eq_false_of_not_valid (T : String) (hT : ¬ Valid T) :
    check_spaces_colons_empty T = false := by
  cases h : check_spaces_colons_empty T with
  | false => rfl
  | true => exact absurd ((check_eq_true_iff T).1 h) hT

theorem inv_handle_sub (client : Client) (T : String) (b : Broker) (bufferSize : Nat)
    (hinv : Inv b) : Inv (handle_sub client T b bufferSize).2.2 := by
  refine ⟨handle_sub_wf client T b bufferSize hinv.1, ?_⟩
  intro k
  by_cases hT : Valid T
  · by_cases hname : client.name = none
    · have hc : check_spaces_colons_empty T = true := (check_eq_true_iff T).2 hT
      have : (handle_sub client T b bufferSize).2.2 = b := by
        unfold handle_sub
        simp [hc, hname]
      rw [this]
      exact hinv.2 k
    · unfold subscribers
      rw [handle_sub_search client T b bufferSize hinv.1 hname hT k]
      by_cases hk : k = T ∧ client.toClient ∉ subscribers b T
      · rw [if_pos hk]
        exact List.nodup_cons.2 ⟨hk.2, hinv.2 T⟩
      · rw [if_neg hk]
        exact hinv.2 k
  · have hc := check_eq_false_of_not_valid T hT
    have : (handle_sub client T b bufferSize).2.2.info.sm = b.info.sm := by
      unfold handle_sub
      simp [hc, print_invalid]
    exact (inv_of_sm_eq _ _ this hinv).2 k

theorem nodup_unsub_chain (chain : List Client) (client : Client) (countStat : Nat)
    (hnd : (streams chain).Nodup) : (streams (unsub_chain chain client countStat)).Nodup := by
  cases chain with
  | nil => exact hnd
  | cons temp next =>
    unfold unsub_chain
    by_cases hh : temp.toClient = client.toClient
    · simp only [hh, if_true]
      exact (List.nodup_cons.1 hnd).2
    · simp only [hh, if_false]
      by_cases hcs : countStat = 0
      · simpa [hcs] using hnd
      · simp only [hcs, ne_eq, not_false_eq_true, if_true]
        cases hu : unlink_client (temp :: next) client with
        | none => exact hnd
        | some l =>
          simp only [Option.getD_some]
          rw [unlink_client_streams _ _ _ hu]
          exact hnd.erase _

theorem inv_handle_unsub (client : Client) (T : String) (b : Broker) (countStat : Nat)
    (hinv : Inv b) : Inv (handle_unsub client T b countStat) := by
  refine ⟨handle_unsub_wf client T b countStat hinv.1, ?_⟩
  intro k
  by_cases hT : Valid T
  · by_cases hname : client.name = none
    · have hc : check_spaces_colons_empty T = true := (check_eq_true_iff T).2 hT
      have : handle_unsub client T b countStat = b := by
        unfold handle_unsub
        simp [hc, hname]
      rw [this]
      exact hinv.2 k
    · unfold subscribers
      rw [handle_unsub_search client T b countStat hinv.1 hname hT k]
      by_cases hk : k = T
      · rw [if_pos hk]
        exact nodup_unsub_chain _ _ _ (hinv.2 T)
      · rw [if_neg hk]
        exact hinv.2 k
  · have hc := check_eq_false_of_not_valid T hT
    have : (handle_unsub client T b countStat).info.sm = b.info.sm := by
      unfold handle_unsub
      simp [hc, print_invalid]
    exact (inv_of_sm_eq _ _ this hinv).2 k

theorem inv_handle_name (client : Client) (name : String) (b : Broker) (hinv : Inv b) :
    Inv (handle_name client name b).2 := by
  have : (handle_name client name b).2.info.sm = b.info.sm := by
    unfold handle_name
    cases check_spaces_colons_empty name <;> cases client.name <;> simp [print_invalid]
  exact inv_of_sm_eq _ _ this hinv

theorem inv_clean_up_client (client : Client) (b : Broker) (hinv : Inv b) :
    Inv (clean_up_client client b) := by
  have hloop : ∀ (topics : List String) (b0 : Broker), Inv b0 →
      Inv (topics.foldl (fun acc topic => handle_unsub client topic acc DONT_COUNT) b0) := by
    intro topics
    induction topics with
    | nil => intro b0 h0; exact h0
    | cons t l ih =>
      intro b0 h0
      simp only [List.foldl_cons]
      exact ih _ (inv_handle_unsub client t b0 DONT_COUNT h0)
  exact inv_of_sm_eq _ _ rfl (hloop _ b hinv)

theorem inv_client_line (h : Handler) (text : String) (b : Broker) (hinv : Inv b) :
    Inv (client_line h text b).2 := by
  unfold client_line
  simp only []
  split
  · split
    · exact inv_handle_name _ _ _ hinv
    · split
      · exact inv_handle_sub _ _ _ _ hinv
      · split
        · exact inv_handle_unsub _ _ _ _ hinv
        · split
          · exact inv_of_sm_eq _ _ (handle_pub_sm _ _ _) hinv
          · exact inv_of_sm_eq _ _ rfl hinv
  · exact inv_of_sm_eq _ _ rfl hinv

theorem inv_apply (r : Request) (b : Broker) (hinv : Inv b) : Inv (r.apply b) := by
  cases r with
  | connect wr rd => exact inv_of_sm_eq _ _ rfl hinv
  | line h text => exact inv_client_line h text b hinv
  | unsub client topic countStat => exact inv_handle_unsub client topic b countStat hinv
  | cleanup client => exact inv_clean_up_client client b hinv

/-- Every state of an execution from the empty registry satisfies the
invariant. -/
theorem inv_run (requests : List Request) (b : Broker) (hinv : Inv b) :
    Inv (run requests b) := by
  unfold run
  induction requests generalizing b with
  | nil => exact hinv
  | cons r l ih =>
    simp only [List.foldl_cons]
    exact ih _ (inv_apply r b hinv)

/-! ## Facts about the loop of `client_thread` -/

/-- A line with a space is dispatched on its part before the first space. -/
theorem client_line_two (h : Handler) (command arg : String) (b : Broker)
    (hsp : ' ' ∉ command.toList) :
    client_line h (command ++ " " ++ arg) b =
      if command = "name" then
        ({ h with client := (handle_name h.client arg b).1 }, (handle_name h.client arg b).2)
      else if command = "sub" then
        (⟨(handle_sub h.client arg b h.bufferSize).1,
          (handle_sub h.client arg b h.bufferSize).2.1⟩,
         (handle_sub h.client arg b h.bufferSize).2.2)
      else if command = "unsub" then (h, handle_unsub h.client arg b COUNT)
      else if command = "pub" then (h, handle_pub h.client arg b)
      else (h, print_invalid h.client b) := by
  unfold client_line
  simp only [split_by_char_two command arg hsp]
  rfl

/-- A line without a space is answered with the invalid message. -/
theorem client_line_one (h : Handler) (line : String) (b : Broker)
    (hsp : ' ' ∉ line.toList) :
    client_line h line b = (h, print_invalid h.client b) := by
  unfold client_line
  simp only [split_by_char_of_not_mem line hsp]
  rfl

/-! ## Facts about the counters -/

theorem sameCounters_refl (b : Broker) : SameCounters b b :=
  ⟨rfl, rfl, rfl, rfl, rfl, rfl⟩

theorem sameCounters_trans (b b1 b2 : Broker) (h1 : SameCounters b b1)
    (h2 : SameCounters b1 b2) : SameCounters b b2 := by
  unfold SameCounters at *
  obtain ⟨a1, a2, a3, a4, a5, a6⟩ := h1
  obtain ⟨c1, c2, c3, c4, c5, c6⟩ := h2
  exact ⟨c1.trans a1, c2.trans a2, c3.trans a3, c4.trans a4, c5.trans a5, c6.trans a6⟩

theorem commandFrame_of_same (b b1 : Broker) (h : SameCounters b b1) : CommandFrame b b1 := by
  unfold SameCounters at h
  unfold CommandFrame
  obtain ⟨a1, a2, a3, a4, a5, a6⟩ := h
  exact ⟨a1, a2, a3, le_of_eq a4.symm, le_of_eq a5.symm, le_of_eq a6.symm⟩

theorem commandFrame_trans (b b1 b2 : Broker) (h1 : CommandFrame b b1)
    (h2 : CommandFrame b1 b2) : CommandFrame b b2 := by
  unfold CommandFrame at *
  obtain ⟨a1, a2, a3, a4, a5, a6⟩ := h1
  obtain ⟨c1, c2, c3, c4, c5, c6⟩ := h2
  exact ⟨c1.trans a1, c2.trans a2, c3.trans a3, le_trans a4 c4, le_trans a5 c5, le_trans a6 c6⟩

theorem same_print_invalid (client : Client) (b : Broker) :
    SameCounters b (print_invalid client b) :=
  ⟨rfl, rfl, rfl, rfl, rfl, rfl⟩

theorem same_handle_name (client : Client) (name : String) (b : Broker) :
    SameCounters b (handle_name client name b).2 := by
  unfold handle_name
  cases check_spaces_colons_empty name <;> cases client.name <;>
    exact ⟨rfl, rfl, rfl, rfl, rfl, rfl⟩

/-- `handle_sub` changes no counter but the subscribe counter, which stays or
grows by 1. -/
theorem handle_sub_counters (client : Client) (T : String) (b : Broker) (bufferSize : Nat) :
    (handle_sub client T b bufferSize).2.2.info.threadLock = b.info.threadLock
      ∧ (handle_sub client T b bufferSize).2.2.info.currentConnections
          = b.info.currentConnections
      ∧ (handle_sub client T b bufferSize).2.2.info.totalConnections = b.info.totalConnections
      ∧ (handle_sub client T b bufferSize).2.2.info.totalPub = b.info.totalPub
      ∧ ((handle_sub client T b bufferSize).2.2.info.totalSub = b.info.totalSub
          ∨ (handle_sub client T b bufferSize).2.2.info.totalSub = b.info.totalSub + 1)
      ∧ (handle_sub client T b bufferSize).2.2.info.totalUnsub = b.info.totalUnsub := by
  unfold handle_sub
  cases check_spaces_colons_empty T with
  | false => simp [print_invalid]
  | true =>
    simp only [Bool.not_true, Bool.false_eq_true, if_false]
    cases client.name with
    | none => simp
    | some nm =>
      simp only []
      cases stringmap_search b.info.sm T with
      | nil => simp
      | cons temp next =>
        simp only []
        cases already_subbed (temp :: next) client <;> simp

/-- `handle_unsub` changes no counter but the unsubscribe counter, which stays
or grows by 1, and stays when `countStat` is 0. -/
theorem handle_unsub_counters (client : Client) (T : String) (b : Broker) (countStat : Nat) :
    (handle_unsub client T b countStat).info.threadLock = b.info.threadLock
      ∧ (handle_unsub client T b countStat).info.currentConnections
          = b.info.currentConnections
      ∧ (handle_unsub client T b countStat).info.totalConnections = b.info.totalConnections
      ∧ (handle_unsub client T b countStat).info.totalPub = b.info.totalPub
      ∧ (handle_unsub client T b countStat).info.totalSub = b.info.totalSub
      ∧ ((handle_unsub client T b countStat).info.totalUnsub = b.info.totalUnsub
          ∨ (countStat ≠ 0
              ∧ (handle_unsub client T b countStat).info.totalUnsub = b.info.totalUnsub + 1)) := by
  unfold handle_unsub
  cases check_spaces_colons_empty T with
  | false => simp [print_invalid]
  | true =>
    simp only [Bool.not_true, Bool.false_eq_true, if_false]
    cases client.name with
    | none => simp
    | some nm =>
      simp only []
      cases stringmap_search b.info.sm T with
      | nil => simp
      | cons temp next =>
        simp only []
        by_cases hh : temp.toClient = client.toClient
        · by_cases hcs : countStat = 0 <;> simp [hh, hcs]
        · simp only [hh, if_false]
          cases unlink_client (temp :: next) client with
          | none => simp
          | some item1 => by_cases hcs : countStat = 0 <;> simp [hcs]

/-- `handle_pub` changes no counter but the publish counter, which stays or
grows by 1. -/
theorem handle_pub_counters (client : Client) (topicAndValue : String) (b : Broker) :
    (handle_pub client topicAndValue b).info.threadLock = b.info.threadLock
      ∧ (handle_pub client topicAndValue b).info.currentConnections
          = b.info.currentConnections
      ∧ (handle_pub client topicAndValue b).info.totalConnections = b.info.totalConnections
      ∧ ((handle_pub client topicAndValue b).info.totalPub = b.info.totalPub
          ∨ (handle_pub client topicAndValue b).info.totalPub = b.info.totalPub + 1)
      ∧ (handle_pub client topicAndValue b).info.totalSub = b.info.totalSub
      ∧ (handle_pub client topicAndValue b).info.totalUnsub = b.info.totalUnsub := by
  unfold handle_pub
  simp only []
  split
  · split
    · simp [print_invalid]
    · split <;> simp
  · simp [print_invalid]

theorem frame_handle_sub (client : Client) (T : String) (b : Broker) (bufferSize : Nat) :
    CommandFrame b (handle_sub client T b bufferSize).2.2 := by
  obtain ⟨a1, a2, a3, a4, a5, a6⟩ := handle_sub_counters client T b bufferSize
  refine ⟨a1, a2, a3, le_of_eq a4.symm, ?_, le_of_eq a6.symm⟩
  rcases a5 with h | h <;> omega

theorem frame_handle_unsub (client : Client) (T : String) (b : Broker) (countStat : Nat) :
    CommandFrame b (handle_unsub client T b countStat) := by
  obtain ⟨a1, a2, a3, a4, a5, a6⟩ := handle_unsub_counters client T b countStat
  refine ⟨a1, a2, a3, le_of_eq a4.symm, le_of_eq a5.symm, ?_⟩
  rcases a6 with h | ⟨_, h⟩ <;> omega

theorem frame_handle_pub (client : Client) (topicAndValue : String) (b : Broker) :
    CommandFrame b (handle_pub client topicAndValue b) := by
  obtain ⟨a1, a2, a3, a4, a5, a6⟩ := handle_pub_counters client topicAndValue b
  refine ⟨a1, a2, a3, ?_, le_of_eq a5.symm, le_of_eq a6.symm⟩
  rcases a4 with h | h <;> omega

/-- One iteration of the loop of `client_thread` leaves the semaphore, the
current and the completed connections, and lowers no counter. -/
theorem frame_client_line (h : Handler) (line : String) (b : Broker) :
    CommandFrame b (client_line h line b).2 := by
  unfold client_line
  simp only []
  split
  · split
    · exact commandFrame_of_same _ _ (same_handle_name _ _ _)
    · split
      · exact frame_handle_sub _ _ _ _
      · split
        · exact frame_handle_unsub _ _ _ _
        · split
          · exact frame_handle_pub _ _ _
          · exact commandFrame_of_same _ _ (same_print_invalid _ _)
  · exact commandFrame_of_same _ _ (same_print_invalid _ _)

theorem same_handle_unsub_dont_count (client : Client) (T : String) (b : Broker) :
    SameCounters b (handle_unsub client T b DONT_COUNT) := by
  obtain ⟨a1, a2, a3, a4, a5, a6⟩ := handle_unsub_counters client T b DONT_COUNT
  refine ⟨a1, a2, a3, a4, a5, ?_⟩
  rcases a6 with h | ⟨h0, _⟩
  · exact h
  · exact absurd rfl h0

/-- The loop of `clean_up_client` changes no counter. -/
theorem same_clean_up_loop (client : Client) (topics : List String) (b : Broker) :
    SameCounters b
      (topics.foldl (fun acc topic => handle_unsub client topic acc DONT_COUNT) b) := by
  induction topics generalizing b with
  | nil => exact sameCounters_refl b
  | cons t l ih =>
    simp only [List.foldl_cons]
    exact sameCounters_trans _ _ _ (same_handle_unsub_dont_count client t b) (ih _)

/-- The counters after `clean_up_client`. -/
theorem clean_up_client_counters (client : Client) (b : Broker) :
    (clean_up_client client b).info.threadLock = b.info.threadLock + 1
      ∧ (clean_up_client client b).info.currentConnections = b.info.currentConnections - 1
      ∧ (clean_up_client client b).info.totalConnections = b.info.totalConnections + 1
      ∧ (clean_up_client client b).info.totalPub = b.info.totalPub
      ∧ (clean_up_client client b).info.totalSub = b.info.totalSub
      ∧ (clean_up_client client b).info.totalUnsub = b.info.totalUnsub := by
  obtain ⟨a1, a2, a3, a4, a5, a6⟩ :=
    same_clean_up_loop client (client.subbedTopics.take client.subCount) b
  unfold clean_up_client
  simp only []
  exact ⟨by rw [a1], by rw [a2], by rw [a3], a4, a5, a6⟩

/-! ## Facts about the local state of a thread -/

/-- `handle_sub` leaves the name and the streams of the client. -/
theorem handle_sub_client (client : Client) (T : String) (b : Broker) (bufferSize : Nat) :
    (handle_sub client T b bufferSize).1.name = client.name
      ∧ (handle_sub client T b bufferSize).1.toClient = client.toClient
      ∧ (handle_sub client T b bufferSize).1.fromClient = client.fromClient := by
  unfold handle_sub
  cases check_spaces_colons_empty T with
  | false => simp
  | true =>
    simp only [Bool.not_true, Bool.false_eq_true, if_false]
    cases hnm : client.name with
    | none => simp [hnm]
    | some nm =>
      simp only []
      cases stringmap_search b.info.sm T with
      | nil => simp [add_subscribed_topic, hnm]
      | cons temp next =>
        simp only []
        cases already_subbed (temp :: next) client <;> simp [add_subscribed_topic, hnm]

/-- Once set, the name survives every iteration of the loop. -/
theorem client_line_name (h : Handler) (X : String) (line : String) (b : Broker)
    (hX : h.client.name = some X) : (client_line h line b).1.client.name = some X := by
  unfold client_line
  simp only []
  split
  · split
    · simp [handle_name, hX]
      cases check_spaces_colons_empty _ <;> simp [hX]
    · split
      · simp only []
        rw [(handle_sub_client _ _ _ _).1]
        exact hX
      · split
        · exact hX
        · split
          · exact hX
          · exact hX
  · exact hX

theorem client_lines_name (h : Handler) (X : String) (lines : List String) (b : Broker)
    (hX : h.client.name = some X) : (client_lines h lines b).1.client.name = some X := by
  unfold client_lines
  induction lines generalizing h b with
  | nil => exact hX
  | cons l ls ih =>
    simp only [List.foldl_cons]
    exact ih _ _ (client_line_name h X l b hX)

theorem client_lines_cons (h : Handler) (line : String) (lines : List String) (b : Broker) :
    client_lines h (line :: lines) b
      = client_lines (client_line h line b).1 lines (client_line h line b).2 := by
  unfold client_lines
  rfl

/-! ## Facts about the counters along executions -/

theorem grow_of_frame (b b1 : Broker) (h : CommandFrame b b1) :
    CountersGrow b b1 ∧ b.info.currentConnections ≤ b1.info.currentConnections := by
  obtain ⟨_, a2, a3, a4, a5, a6⟩ := h
  exact ⟨⟨le_of_eq a3.symm, a4, a5, a6⟩, le_of_eq a2.symm⟩

theorem grow_refl (b : Broker) : CountersGrow b b :=
  ⟨le_refl _, le_refl _, le_refl _, le_refl _⟩

theorem grow_trans (b b1 b2 : Broker) (h1 : CountersGrow b b1) (h2 : CountersGrow b1 b2) :
    CountersGrow b b2 :=
  ⟨le_trans h1.1 h2.1, le_trans h1.2.1 h2.2.1, le_trans h1.2.2.1 h2.2.2.1,
   le_trans h1.2.2.2 h2.2.2.2⟩

theorem grow_client_start (wr rd : Nat) (b : Broker) :
    CountersGrow b (client_start wr rd b).2 :=
  ⟨le_refl _, le_refl _, le_refl _, le_refl _⟩

theorem grow_clean_up_client (client : Client) (b : Broker) :
    CountersGrow b (clean_up_client client b) := by
  obtain ⟨_, _, a3, a4, a5, a6⟩ := clean_up_client_counters client b
  unfold CountersGrow
  refine ⟨by omega, le_of_eq a4.symm, le_of_eq a5.symm, le_of_eq a6.symm⟩

theorem grow_step (s : Server) (e : Event) : CountersGrow s.broker (s.step e).broker := by
  cases e with
  | accept wr rd =>
    simp only [Server.step]
    unfold process_connections_loop
    split
    · split
      · exact grow_refl _
      · exact ⟨le_refl _, le_refl _, le_refl _, le_refl _⟩
    · exact ⟨le_refl _, le_refl _, le_refl _, le_refl _⟩
  | line i text =>
    simp only [Server.step]
    split
    · exact grow_refl _
    · exact (grow_of_frame _ _ (frame_client_line _ _ _)).1
  | eof i =>
    simp only [Server.step]
    split
    · exact grow_refl _
    · exact grow_clean_up_client _ _

theorem grow_run (events : List Event) (s : Server) :
    CountersGrow s.broker (Server.run events s).broker := by
  unfold Server.run
  induction events generalizing s with
  | nil => exact grow_refl _
  | cons e l ih =>
    simp only [List.foldl_cons]
    exact grow_trans _ _ _ (grow_step s e) (ih _)

/-! ## Facts about admission -/

theorem frame_client_lines (h : Handler) (lines : List String) (b : Broker) :
    CommandFrame b (client_lines h lines b).2 := by
  unfold client_lines
  induction lines generalizing h b with
  | nil => exact commandFrame_of_same _ _ (sameCounters_refl b)
  | cons l ls ih =>
    simp only [List.foldl_cons]
    exact commandFrame_trans _ _ _ (frame_client_line h l b) (ih _ _)

/-- A thread releases one unit of the semaphore over its whole life. -/
theorem client_thread_threadLock (wr rd : Nat) (lines : List String) (b : Broker) :
    (client_thread wr rd lines b).info.threadLock = b.info.threadLock + 1 := by
  unfold client_thread
  simp only []
  rw [(clean_up_client_counters _ _).1, (frame_client_lines _ _ _).1]
  rfl

/-- A limit up to `SEM_VALUE_MAX` is the value that the semaphore gets. -/
theorem init_thread_lock_of_le (N : Nat) (hmax : N ≤ SEM_VALUE_MAX) :
    init_thread_lock N = some N := by
  have hlt : N < 2 ^ 32 := by
    unfold SEM_VALUE_MAX at hmax
    omega
  unfold init_thread_lock
  rw [Nat.mod_eq_of_lt hlt, if_pos hmax]

theorem admission_initial (N : Nat) (hmax : N ≤ SEM_VALUE_MAX) :
    Admission N (initial_server N) := by
  unfold Admission initial_server initial_broker
  simp [init_thread_lock_of_le N hmax]

theorem admission_step (N : Nat) (hN : 0 < N) (s : Server) (e : Event)
    (hs : Admission N s) : Admission N (s.step e) := by
  obtain ⟨hc, hsum⟩ := hs
  cases e with
  | accept wr rd =>
    simp only [Server.step]
    unfold process_connections_loop
    have hpos : s.connections > 0 := by rw [hc]; exact hN
    simp only [hpos, if_true]
    unfold take_lock
    by_cases h0 : s.broker.info.threadLock = 0
    · simp only [h0, if_true]
      exact ⟨hc, by rw [h0] at hsum ⊢; exact hsum⟩
    · simp only [h0, if_false]
      refine ⟨hc, ?_⟩
      simp only [client_start, List.length_append, List.length_singleton]
      omega
  | line i text =>
    simp only [Server.step]
    split
    · exact ⟨hc, hsum⟩
    · refine ⟨hc, ?_⟩
      simp only [List.length_set]
      rw [(frame_client_line _ _ _).1]
      exact hsum
  | eof i =>
    simp only [Server.step]
    split
    · exact ⟨hc, hsum⟩
    · rename_i h hi
      refine ⟨hc, ?_⟩
      obtain ⟨hlt, _⟩ := List.getElem?_eq_some.1 hi
      simp only [List.length_eraseIdx, hlt, if_true]
      rw [(clean_up_client_counters _ _).1]
      omega

theorem admission_run (N : Nat) (hN : 0 < N) (events : List Event) (s : Server)
    (hs : Admission N s) : Admission N (Server.run events s) := by
  unfold Server.run
  induction events generalizing s with
  | nil => exact hs
  | cons e l ih =>
    simp only [List.foldl_cons]
    exact ih _ (admission_step N hN s e hs)

/-! ## Facts about the tracked topics -/

/-- The client that `handle_sub` returns, for a named client and a valid
topic. -/
theorem handle_sub_result (client : Client) (T : String) (b : Broker) (bufferSize : Nat)
    (hname : client.name ≠ none) (hT : Valid T) :
    (handle_sub client T b bufferSize).1 =
      if client.toClient ∈ subscribers b T then client
      else (add_subscribed_topic client bufferSize T).1 := by
  have hc : check_spaces_colons_empty T = true := (check_eq_true_iff T).2 hT
  obtain ⟨nm, hnm⟩ := Option.ne_none_iff_exists'.1 hname
  unfold handle_sub subscribers
  simp only [hc, hnm, Bool.not_true, Bool.false_eq_true, if_false]
  cases hs : stringmap_search b.info.sm T with
  | nil => simp
  | cons temp next =>
    by_cases ha : already_subbed (temp :: next) client = true
    · have hm := (already_subbed_iff _ _).1 ha
      simp only [ha, if_true]
      rw [if_pos hm]
    · have hm : client.toClient ∉ streams (temp :: next) :=
        fun h => ha ((already_subbed_iff _ _).2 h)
      simp only [ha]
      rw [if_neg hm]
      simp

/-- `handle_sub` on an invalid topic or for a client without a name returns the
client and the map as they were. -/
theorem handle_sub_skip (client : Client) (T : String) (b : Broker) (bufferSize : Nat)
    (h : ¬ Valid T ∨ client.name = none) :
    (handle_sub client T b bufferSize).1 = client
      ∧ (handle_sub client T b bufferSize).2.2.info.sm = b.info.sm := by
  by_cases hT : Valid T
  · have hn : client.name = none := h.resolve_left (fun hnv => hnv hT)
    unfold handle_sub
    simp [(check_eq_true_iff T).2 hT, hn]
  · unfold handle_sub
    simp [check_eq_false_of_not_valid T hT, print_invalid]

/-- `subCount` stays the number of entries through `handle_sub`. -/
theorem handle_sub_subCount (client : Client) (T : String) (b : Broker) (bufferSize : Nat)
    (h : client.subCount = client.subbedTopics.length) :
    (handle_sub client T b bufferSize).1.subCount
      = (handle_sub client T b bufferSize).1.subbedTopics.length := by
  by_cases hs : ¬ Valid T ∨ client.name = none
  · rw [(handle_sub_skip client T b bufferSize hs).1]
    exact h
  · have hT : Valid T := by
      by_contra hc; exact hs (Or.inl hc)
    have hn : client.name ≠ none := fun hc => hs (Or.inr hc)
    rw [handle_sub_result client T b bufferSize hn hT]
    by_cases hm : client.toClient ∈ subscribers b T
    · rw [if_pos hm]; exact h
    · rw [if_neg hm]
      simp [add_subscribed_topic, h]

theorem handle_name_tracked (client : Client) (name : String) (b : Broker) :
    (handle_name client name b).1.subbedTopics = client.subbedTopics
      ∧ (handle_name client name b).1.subCount = client.subCount
      ∧ (handle_name client name b).1.toClient = client.toClient
      ∧ (handle_name client name b).2.info.sm = b.info.sm := by
  unfold handle_name
  cases check_spaces_colons_empty name <;> cases client.name <;> simp [print_invalid]

/-- `subCount` stays the number of entries through every iteration of the
loop. -/
theorem client_line_subCount (h : Handler) (line : String) (b : Broker)
    (hh : h.client.subCount = h.client.subbedTopics.length) :
    (client_line h line b).1.client.subCount
      = (client_line h line b).1.client.subbedTopics.length := by
  unfold client_line
  simp only []
  split
  · split
    · simp only []
      rw [(handle_name_tracked _ _ _).1, (handle_name_tracked _ _ _).2.1]
      exact hh
    · split
      · exact handle_sub_subCount _ _ _ _ hh
      · split
        · exact hh
        · split
          · exact hh
          · exact hh
  · exact hh

theorem server_step_subCount (s : Server) (e : Event)
    (hs : ∀ h ∈ s.threads, h.client.subCount = h.client.subbedTopics.length) :
    ∀ h ∈ (s.step e).threads, h.client.subCount = h.client.subbedTopics.length := by
  cases e with
  | accept wr rd =>
    simp only [Server.step]
    unfold process_connections_loop
    have hnew : ∀ (b0 : Broker), ∀ h ∈ s.threads ++ [(client_start wr rd b0).1],
        h.client.subCount = h.client.subbedTopics.length := by
      intro b0 h hh
      rcases List.mem_append.1 hh with h1 | h1
      · exact hs h h1
      · simp only [List.mem_singleton] at h1
        rw [h1]; rfl
    split
    · split
      · exact hs
      · exact hnew _
    · exact hnew _
  | line i text =>
    simp only [Server.step]
    split
    · exact hs
    · rename_i h0 hi
      intro h hh
      rcases List.mem_or_eq_of_mem_set hh with h1 | h1
      · exact hs h h1
      · rw [h1]
        obtain ⟨hlt, hget⟩ := List.getElem?_eq_some.1 hi
        exact client_line_subCount h0 text s.broker (hs h0 (hget ▸ List.getElem_mem hlt))
  | eof i =>
    simp only [Server.step]
    split
    · exact hs
    · intro h hh
      exact hs h (List.mem_of_mem_eraseIdx hh)

theorem server_run_subCount (events : List Event) (s : Server)
    (hs : ∀ h ∈ s.threads, h.client.subCount = h.client.subbedTopics.length) :
    ∀ h ∈ (Server.run events s).threads, h.client.subCount = h.client.subbedTopics.length := by
  unfold Server.run
  induction events generalizing s with
  | nil => exact hs
  | cons e l ih =>
    simp only [List.foldl_cons]
    exact ih _ (server_step_subCount s e hs)

/-! ## Facts about the map as a finite map -/

theorem search_add_ne (sm : StringMap) (k k1 : String) (item : List Client) (h : k1 ≠ k) :
    stringmap_search (stringmap_add sm k item).2 k1 = stringmap_search sm k1 := by
  unfold stringmap_search
  rw [stringmap_add_root]
  by_cases hc : item = [] ∨ k ∈ node_keys sm.root
  · rw [if_pos hc]
  · rw [if_neg hc, search_nodes_append]
    by_cases hm : k1 ∈ node_keys sm.root
    · rw [if_pos hm]
    · rw [if_neg hm, if_neg h, search_nodes_of_not_mem _ _ hm]

theorem search_remove_ne (sm : StringMap) (k k1 : String) (h : k1 ≠ k) :
    stringmap_search (stringmap_remove sm k).2 k1 = stringmap_search sm k1 := by
  unfold stringmap_search
  rw [stringmap_remove_root]
  exact search_erase_key_ne _ _ _ h

theorem mem_keys_add_ne (sm : StringMap) (k k1 : String) (item : List Client) (h : k1 ≠ k) :
    k1 ∈ keys (stringmap_add sm k item).2 ↔ k1 ∈ keys sm := by
  rw [keys_eq, keys_eq, stringmap_add_root]
  by_cases hc : item = [] ∨ k ∈ node_keys sm.root
  · rw [if_pos hc]
  · rw [if_neg hc]
    unfold node_keys
    simp [h]

theorem mem_keys_remove_ne (sm : StringMap) (k k1 : String) (h : k1 ≠ k) :
    k1 ∈ keys (stringmap_remove sm k).2 ↔ k1 ∈ keys sm := by
  rw [keys_eq, keys_eq, stringmap_remove_root, node_keys_erase_key]
  exact List.mem_erase_of_ne h

theorem search_store_ne (l : List StringMapItem) (k k1 : String) (item : List Client)
    (h : k1 ≠ k) :
    stringmap_search ⟨store_nodes l k item⟩ k1 = stringmap_search ⟨l⟩ k1 := by
  unfold stringmap_search
  rw [search_store_nodes]
  rw [if_neg (fun hc => h hc.1)]

theorem stringmap_add_absent (sm : StringMap) (k : String) (item : List Client)
    (hitem : item ≠ []) (hk : k ∉ keys sm) :
    stringmap_add sm k item = (1, ⟨sm.root ++ [⟨k, item⟩]⟩) := by
  unfold stringmap_add
  cases item with
  | nil => exact absurd rfl hitem
  | cons c cs =>
    simp only []
    rw [add_nodes_of_not_mem _ _ _ hk]

theorem stringmap_add_present (sm : StringMap) (k : String) (item : List Client)
    (h : k ∈ keys sm ∨ item = []) : stringmap_add sm k item = (0, sm) := by
  unfold stringmap_add
  cases item with
  | nil => rfl
  | cons c cs =>
    have hk : k ∈ node_keys sm.root := by
      rcases h with h | h
      · exact h
      · exact absurd h (List.cons_ne_nil _ _)
    simp only []
    rw [add_nodes_of_mem _ _ _ hk]

theorem stringmap_remove_fst (sm : StringMap) (k : String) :
    (stringmap_remove sm k).1 = 1 ↔ k ∈ keys sm := by
  unfold stringmap_remove
  by_cases hk : k ∈ node_keys sm.root
  · rw [remove_nodes_of_mem _ _ hk]
    simp only [true_iff]
    exact hk
  · rw [remove_nodes_of_not_mem _ _ hk]
    simp only [zero_ne_one, false_iff]
    exact hk

theorem search_remove_self (sm : StringMap) (k : String) (hnd : (keys sm).Nodup) :
    stringmap_search (stringmap_remove sm k).2 k = [] := by
  unfold stringmap_search
  rw [stringmap_remove_root]
  exact search_nodes_of_not_mem _ _ (not_mem_keys_erase_key _ _ hnd)

theorem nodup_keys_add (sm : StringMap) (k : String) (item : List Client)
    (hnd : (keys sm).Nodup) : (keys (stringmap_add sm k item).2).Nodup := by
  rw [keys_eq, stringmap_add_root]
  by_cases hc : item = [] ∨ k ∈ node_keys sm.root
  · rw [if_pos hc]; exact hnd
  · rw [if_neg hc]
    have hk : k ∉ node_keys sm.root := fun h => hc (Or.inr h)
    unfold node_keys at hk ⊢
    rw [List.map_append, List.nodup_append]
    refine ⟨hnd, by simp, ?_⟩
    intro a ha hb
    simp only [List.map_cons, List.map_nil, List.mem_singleton] at hb
    exact hk (hb ▸ ha)

theorem nodup_keys_remove (sm : StringMap) (k : String) (hnd : (keys sm).Nodup) :
    (keys (stringmap_remove sm k).2).Nodup := by
  rw [keys_eq, stringmap_remove_root]
  exact nodup_keys_erase_key _ _ hnd

theorem nodup_keys_apply (sm : StringMap) (op : MapOp) (hnd : (keys sm).Nodup) :
    (keys (MapOp.apply sm op)).Nodup := by
  cases op with
  | add key item => exact nodup_keys_add sm key item hnd
  | remove key => exact nodup_keys_remove sm key hnd

theorem nodup_keys_foldl (ops : List MapOp) (sm : StringMap) (hnd : (keys sm).Nodup) :
    (keys (ops.foldl MapOp.apply sm)).Nodup := by
  induction ops generalizing sm with
  | nil => exact hnd
  | cons op l ih =>
    simp only [List.foldl_cons]
    exact ih _ (nodup_keys_apply sm op hnd)

/-! ## Facts about the other topics -/

/-- `handle_sub` on `T` leaves the chain and the presence of every other
topic. -/
theorem handle_sub_other (client : Client) (T U : String) (b : Broker) (bufferSize : Nat)
    (h : U ≠ T) :
    stringmap_search (handle_sub client T b bufferSize).2.2.info.sm U
        = stringmap_search b.info.sm U
      ∧ (U ∈ keys (handle_sub client T b bufferSize).2.2.info.sm ↔ U ∈ keys b.info.sm) := by
  unfold handle_sub
  cases check_spaces_colons_empty T with
  | false => exact ⟨rfl, Iff.rfl⟩
  | true =>
    simp only [Bool.not_true, Bool.false_eq_true, if_false]
    cases client.name with
    | none => exact ⟨rfl, Iff.rfl⟩
    | some nm =>
      simp only []
      cases stringmap_search b.info.sm T with
      | nil =>
        simp only []
        exact ⟨search_add_ne _ _ _ _ h, mem_keys_add_ne _ _ _ _ h⟩
      | cons temp next =>
        simp only []
        cases already_subbed (temp :: next) client with
        | true => exact ⟨rfl, Iff.rfl⟩
        | false =>
          simp only [Bool.false_eq_true, if_false]
          refine ⟨?_, ?_⟩
          · rw [search_add_ne _ _ _ _ h, search_remove_ne _ _ _ h]
          · rw [mem_keys_add_ne _ _ _ _ h, mem_keys_remove_ne _ _ _ h]

/-- `handle_unsub` on `T` leaves the chain and the presence of every other
topic. -/
theorem handle_unsub_other (client : Client) (T U : String) (b : Broker) (countStat : Nat)
    (h : U ≠ T) :
    stringmap_search (handle_unsub client T b countStat).info.sm U
        = stringmap_search b.info.sm U
      ∧ (U ∈ keys (handle_unsub client T b countStat).info.sm ↔ U ∈ keys b.info.sm) := by
  unfold handle_unsub
  cases check_spaces_colons_empty T with
  | false => exact ⟨rfl, Iff.rfl⟩
  | true =>
    simp only [Bool.not_true, Bool.false_eq_true, if_false]
    cases client.name with
    | none => exact ⟨rfl, Iff.rfl⟩
    | some nm =>
      simp only []
      cases stringmap_search b.info.sm T with
      | nil => exact ⟨rfl, Iff.rfl⟩
      | cons temp next =>
        simp only []
        by_cases hh : temp.toClient = client.toClient
        · simp only [hh, if_true]
          refine ⟨?_, ?_⟩
          · rw [search_add_ne _ _ _ _ h, search_remove_ne _ _ _ h]
          · rw [mem_keys_add_ne _ _ _ _ h, mem_keys_remove_ne _ _ _ h]
        · simp only [hh, if_false]
          cases unlink_client (temp :: next) client with
          | none => exact ⟨rfl, Iff.rfl⟩
          | some item1 =>
            simp only []
            by_cases hcs : countStat = 0
            · rw [if_neg (fun hc => hc hcs)]
              exact ⟨rfl, Iff.rfl⟩
            · rw [if_pos hcs]
              refine ⟨search_store_ne _ _ _ _ h, ?_⟩
              rw [keys_eq, keys_eq, node_keys_store_nodes]

/-! ## Facts about maps built by calls -/

theorem wf_add (sm : StringMap) (k : String) (item : List Client) (hwf : sm.WF) :
    (stringmap_add sm k item).2.WF := by
  refine ⟨nodup_keys_add sm k item hwf.1, ?_⟩
  rw [stringmap_add_root]
  by_cases hc : item = [] ∨ k ∈ node_keys sm.root
  · rw [if_pos hc]; exact hwf.2
  · rw [if_neg hc]
    intro n hn
    rcases List.mem_append.1 hn with h | h
    · exact hwf.2 n h
    · simp only [List.mem_singleton] at h
      rw [h]
      exact fun hnil => hc (Or.inl hnil)

theorem wf_remove (sm : StringMap) (k : String) (hwf : sm.WF) :
    (stringmap_remove sm k).2.WF := by
  refine ⟨nodup_keys_remove sm k hwf.1, ?_⟩
  rw [stringmap_remove_root]
  intro n hn
  exact hwf.2 n (mem_erase_key _ _ _ hn)

theorem wf_foldl (ops : List MapOp) (sm : StringMap) (hwf : sm.WF) :
    (ops.foldl MapOp.apply sm).WF := by
  induction ops generalizing sm with
  | nil => exact hwf
  | cons op l ih =>
    simp only [List.foldl_cons]
    apply ih
    cases op with
    | add key item => exact wf_add sm key item hwf
    | remove key => exact wf_remove sm key hwf

theorem wf_build (ops : List MapOp) : (build ops).WF := by
  unfold build
  apply wf_foldl
  refine ⟨List.nodup_nil, ?_⟩
  intro n hn
  simp [stringmap_init] at hn

/-- On a well-formed map `stringmap_add` is the addition of the finite map. -/
theorem search_add_eq (sm : StringMap) (k : String) (item : List Client) (hwf : sm.WF) :
    stringmap_search (stringmap_add sm k item).2
      = finite_map_add (stringmap_search sm) k item := by
  funext k1
  unfold finite_map_add
  by_cases hitem : item = []
  · rw [stringmap_add_present sm k item (Or.inr hitem)]
    simp [hitem]
  · by_cases hk : k ∈ keys sm
    · rw [stringmap_add_present sm k item (Or.inl hk)]
      have hne : stringmap_search sm k ≠ [] := fun h => (search_eq_nil_iff sm hwf k).1 h hk
      simp [hne]
    · have hnil : stringmap_search sm k = [] := (search_eq_nil_iff sm hwf k).2 hk
      by_cases hk1 : k1 = k
      · subst hk1
        rw [stringmap_add_absent sm k1 item hitem hk]
        have hk2 : k1 ∉ node_keys sm.root := hk
        unfold stringmap_search at hnil ⊢
        simp only []
        rw [search_nodes_append, if_neg hk2, if_pos rfl]
        simp [hitem, hnil]
      · rw [search_add_ne sm k k1 item hk1]
        simp [hk1]

/-- On a map with distinct keys `stringmap_remove` is the removal of the finite
map. -/
theorem search_remove_eq (sm : StringMap) (k : String) (hnd : (keys sm).Nodup) :
    stringmap_search (stringmap_remove sm k).2
      = finite_map_remove (stringmap_search sm) k := by
  funext k1
  unfold finite_map_remove
  by_cases hk1 : k1 = k
  · subst hk1
    rw [search_remove_self sm k1 hnd]
    simp
  · rw [search_remove_ne sm k k1 hk1]
    simp [hk1]

/-! ## Facts about the counters as `int` -/

theorem c_int_of_range (x : Int) (h1 : INT_MIN ≤ x) (h2 : x ≤ INT_MAX) : c_int x = x := by
  unfold c_int
  unfold INT_MIN INT_MAX at *
  norm_num
  omega

theorem step_of_same (b b1 : Broker) (h : SameCounters b b1) : CountersStep b b1 := by
  obtain ⟨_, a2, a3, a4, a5, a6⟩ := h
  unfold CountersStep
  refine ⟨⟨?_, ?_⟩, ⟨?_, ?_⟩, ⟨?_, ?_⟩, ⟨?_, ?_⟩, ⟨?_, ?_⟩⟩ <;> omega

theorem step_handle_sub (client : Client) (T : String) (b : Broker) (bufferSize : Nat) :
    CountersStep b (handle_sub client T b bufferSize).2.2 := by
  obtain ⟨_, a2, a3, a4, a5, a6⟩ := handle_sub_counters client T b bufferSize
  unfold CountersStep
  refine ⟨⟨?_, ?_⟩, ⟨?_, ?_⟩, ⟨?_, ?_⟩, ⟨?_, ?_⟩, ⟨?_, ?_⟩⟩ <;> omega

theorem step_handle_unsub (client : Client) (T : String) (b : Broker) (countStat : Nat) :
    CountersStep b (handle_unsub client T b countStat) := by
  obtain ⟨_, a2, a3, a4, a5, a6⟩ := handle_unsub_counters client T b countStat
  unfold CountersStep
  refine ⟨⟨?_, ?_⟩, ⟨?_, ?_⟩, ⟨?_, ?_⟩, ⟨?_, ?_⟩, ⟨?_, ?_⟩⟩ <;> omega

theorem step_handle_pub (client : Client) (topicAndValue : String) (b : Broker) :
    CountersStep b (handle_pub client topicAndValue b) := by
  obtain ⟨_, a2, a3, a4, a5, a6⟩ := handle_pub_counters client topicAndValue b
  unfold CountersStep
  refine ⟨⟨?_, ?_⟩, ⟨?_, ?_⟩, ⟨?_, ?_⟩, ⟨?_, ?_⟩, ⟨?_, ?_⟩⟩ <;> omega

theorem step_client_line (h : Handler) (line : String) (b : Broker) :
    CountersStep b (client_line h line b).2 := by
  unfold client_line
  simp only []
  split
  · split
    · exact step_of_same _ _ (same_handle_name _ _ _)
    · split
      · exact step_handle_sub _ _ _ _
      · split
        · exact step_handle_unsub _ _ _ _
        · split
          · exact step_handle_pub _ _ _
          · exact step_of_same _ _ (same_print_invalid _ _)
  · exact step_of_same _ _ (same_print_invalid _ _)

theorem step_client_start (wr rd : Nat) (b : Broker) :
    CountersStep b (client_start wr rd b).2 := by
  unfold CountersStep client_start
  simp only []
  refine ⟨⟨?_, ?_⟩, ⟨?_, ?_⟩, ⟨?_, ?_⟩, ⟨?_, ?_⟩, ⟨?_, ?_⟩⟩ <;> omega

theorem step_clean_up_client (client : Client) (b : Broker) :
    CountersStep b (clean_up_client client b) := by
  obtain ⟨_, a2, a3, a4, a5, a6⟩ := clean_up_client_counters client b
  unfold CountersStep
  refine ⟨⟨?_, ?_⟩, ⟨?_, ?_⟩, ⟨?_, ?_⟩, ⟨?_, ?_⟩, ⟨?_, ?_⟩⟩ <;> omega

theorem step_server_step (s : Server) (e : Event) : CountersStep s.broker (s.step e).broker := by
  cases e with
  | accept wr rd =>
    simp only [Server.step]
    unfold process_connections_loop
    split
    · split
      · exact step_of_same _ _ (sameCounters_refl _)
      · unfold CountersStep client_start
        simp only []
        refine ⟨⟨?_, ?_⟩, ⟨?_, ?_⟩, ⟨?_, ?_⟩, ⟨?_, ?_⟩, ⟨?_, ?_⟩⟩ <;> omega
    · exact step_client_start wr rd s.broker
  | line i text =>
    simp only [Server.step]
    split
    · exact step_of_same _ _ (sameCounters_refl _)
    · exact step_client_line _ _ _
  | eof i =>
    simp only [Server.step]
    split
    · exact step_of_same _ _ (sameCounters_refl _)
    · exact step_clean_up_client _ _

/-- A counter that is a value of `int` and that a step leaves or, below
`INT_MAX`, raises by 1, is held the same or greater. -/
theorem c_int_le_of_step (x y : Int) (h1 : INT_MIN ≤ x) (h2 : x ≤ INT_MAX) (hxy : x ≤ y)
    (hyx : y ≤ x + 1) (hlim : y = x ∨ x < INT_MAX) : c_int x ≤ c_int y := by
  have hy : y ≤ INT_MAX := by
    rcases hlim with h | h
    · rw [h]; exact h2
    · unfold INT_MAX at *; omega
  rw [c_int_of_range x h1 h2, c_int_of_range y (le_trans h1 hxy) hy]
  exact hxy

/-- From a state whose counters are values of `int`, a step that raises no
total that is at `INT_MAX` leaves every total held the same or greater. -/
theorem stored_of_step (b b1 : Broker) (hb : InRange b) (hs : CountersStep b b1)
    (ht : b1.info.totalConnections = b.info.totalConnections
      ∨ b.info.totalConnections < INT_MAX)
    (hp : b1.info.totalPub = b.info.totalPub ∨ b.info.totalPub < INT_MAX)
    (hsub : b1.info.totalSub = b.info.totalSub ∨ b.info.totalSub < INT_MAX)
    (hu : b1.info.totalUnsub = b.info.totalUnsub ∨ b.info.totalUnsub < INT_MAX) :
    StoredGrow b b1 := by
  obtain ⟨_, ⟨t1, t2⟩, ⟨p1, p2⟩, ⟨s1, s2⟩, ⟨u1, u2⟩⟩ := hb
  obtain ⟨_, ⟨e1, e2⟩, ⟨f1, f2⟩, ⟨g1, g2⟩, ⟨k1, k2⟩⟩ := hs
  exact ⟨c_int_le_of_step _ _ t1 t2 e1 e2 ht, c_int_le_of_step _ _ p1 p2 f1 f2 hp,
    c_int_le_of_step _ _ s1 s2 g1 g2 hsub, c_int_le_of_step _ _ u1 u2 k1 k2 hu⟩

/-- Between two states whose totals are values of `int`, totals that have grown
are held grown. -/
theorem stored_of_grow (b b1 : Broker) (hb : TotalsInRange b) (hb1 : TotalsInRange b1)
    (hg : CountersGrow b b1) : StoredGrow b b1 := by
  obtain ⟨⟨t1, t2⟩, ⟨p1, p2⟩, ⟨s1, s2⟩, ⟨u1, u2⟩⟩ := hb
  obtain ⟨⟨t3, t4⟩, ⟨p3, p4⟩, ⟨s3, s4⟩, ⟨u3, u4⟩⟩ := hb1
  unfold StoredGrow
  rw [c_int_of_range _ t1 t2, c_int_of_range _ p1 p2, c_int_of_range _ s1 s2,
    c_int_of_range _ u1 u2, c_int_of_range _ t3 t4, c_int_of_range _ p3 p4,
    c_int_of_range _ s3 s4, c_int_of_range _ u3 u4]
  exact hg

/-! ## Facts about the nodes released while linked -/

/-- When the second loop of `handle_unsub` finds the client, the node before it
is another client and is still in the chain after the unlinking. -/
theorem prev_client_mem_unlink (chain : List Client) (client : Client) :
    ∀ (temp : Client) (next l : List Client), chain = temp :: next →
      temp.toClient ≠ client.toClient → unlink_client (temp :: next) client = some l →
      ∃ prev, prev_client (temp :: next) client = some prev ∧ prev ∈ l
        ∧ prev.toClient ≠ client.toClient := by
  induction chain with
  | nil => intro temp next l h; exact absurd h (by simp)
  | cons c rest ih =>
    intro temp next l hc hh hu
    simp only [List.cons.injEq] at hc
    obtain ⟨hc1, hc2⟩ := hc
    subst hc1 hc2
    simp only [unlink_client, hh, if_false, Option.map_eq_some'] at hu
    obtain ⟨l1, hl1, rfl⟩ := hu
    cases rest with
    | nil => simp [unlink_client] at hl1
    | cons t2 r2 =>
      by_cases h2 : t2.toClient = client.toClient
      · refine ⟨c, ?_, List.mem_cons_self _ _, hh⟩
        simp [prev_client, h2]
      · obtain ⟨prev, hp1, hp2, hp3⟩ := ih t2 r2 l1 rfl h2 hl1
        refine ⟨prev, ?_, List.mem_cons_of_mem _ hp2, hp3⟩
        simp only [prev_client, h2, if_false]
        exact hp1

/-- `handle_unsub` releases no linked node when the client is the head of the
chain, is not in the chain, or `countStat` is 0. -/
theorem handle_unsub_released_same (client : Client) (T : String) (b : Broker)
    (countStat : Nat)
    (h : ∀ (temp : Client) (next : List Client), stringmap_search b.info.sm T = temp :: next →
      temp.toClient = client.toClient ∨ client.toClient ∉ streams (temp :: next)
        ∨ countStat = 0) :
    (handle_unsub client T b countStat).released = b.released := by
  unfold handle_unsub
  cases check_spaces_colons_empty T with
  | false => simp [print_invalid]
  | true =>
    simp only [Bool.not_true, Bool.false_eq_true, if_false]
    cases client.name with
    | none => rfl
    | some nm =>
      simp only []
      cases hs : stringmap_search b.info.sm T with
      | nil => rfl
      | cons temp next =>
        simp only []
        by_cases hh : temp.toClient = client.toClient
        · simp only [hh, if_true]
        · simp only [hh, if_false]
          cases hu : unlink_client (temp :: next) client with
          | none => rfl
          | some item1 =>
            by_cases hcs : countStat = 0
            · simp [hcs]
            · exfalso
              rcases h temp next hs with h1 | h1 | h1
              · exact hh h1
              · rw [(unlink_client_none_iff _ _).2 h1] at hu
                exact Option.noConfusion hu
              · exact hcs h1

/-- When `handle_unsub` with `countStat` set finds the client behind the head,
the node before the client is released and is still in the chain. -/
theorem handle_unsub_releases_prev (client : Client) (T : String) (b : Broker)
    (countStat : Nat) (hwf : b.info.sm.WF) (hname : client.name ≠ none) (hT : Valid T)
    (hcs : countStat ≠ 0) (temp : Client) (next : List Client)
    (hs : stringmap_search b.info.sm T = temp :: next)
    (hh : temp.toClient ≠ client.toClient) (hmem : client.toClient ∈ subscribers b T) :
    ∃ prev, prev_client (temp :: next) client = some prev
      ∧ prev.toClient ≠ client.toClient
      ∧ (handle_unsub client T b countStat).released = b.released ++ [(T, prev)]
      ∧ prev ∈ stringmap_search (handle_unsub client T b countStat).info.sm T := by
  have hc : check_spaces_colons_empty T = true := (check_eq_true_iff T).2 hT
  obtain ⟨nm, hnm⟩ := Option.ne_none_iff_exists'.1 hname
  unfold subscribers at hmem
  rw [hs] at hmem
  cases hu : unlink_client (temp :: next) client with
  | none => exact absurd hmem ((unlink_client_none_iff _ _).1 hu)
  | some item1 =>
    obtain ⟨prev, hp1, hp2, hp3⟩ := prev_client_mem_unlink _ client temp next item1 rfl hh hu
    refine ⟨prev, hp1, hp3, ?_, ?_⟩
    · unfold handle_unsub
      simp only [hc, hnm, Bool.not_true, Bool.false_eq_true, if_false, hs, hh, hu, hcs, ne_eq,
        not_false_eq_true, if_true, hp1, Option.map_some', Option.toList_some]
    · rw [handle_unsub_search client T b countStat hwf hname hT T, if_pos rfl, hs]
      unfold unsub_chain
      simp only [hh, if_false, hcs, ne_eq, not_false_eq_true, if_true, hu, Option.getD_some]
      exact hp2

/-! ## Facts about the tracked topics of a connection -/

theorem client_line_toClient (h : Handler) (line : String) (b : Broker) :
    (client_line h line b).1.client.toClient = h.client.toClient := by
  unfold client_line
  simp only []
  split
  · split
    · exact (handle_name_tracked _ _ _).2.2.1
    · split
      · exact (handle_sub_client _ _ _ _).2.1
      · split
        · rfl
        · split <;> rfl
  · rfl

theorem handle_sub_released (client : Client) (T : String) (b : Broker) (bufferSize : Nat) :
    (handle_sub client T b bufferSize).2.2.released = b.released := by
  unfold handle_sub
  cases check_spaces_colons_empty T with
  | false => simp [print_invalid]
  | true =>
    simp only [Bool.not_true, Bool.false_eq_true, if_false]
    cases client.name with
    | none => rfl
    | some nm =>
      simp only []
      cases stringmap_search b.info.sm T with
      | nil => rfl
      | cons temp next =>
        simp only []
        cases already_subbed (temp :: next) client <;> simp

theorem handle_pub_released (client : Client) (topicAndValue : String) (b : Broker) :
    (handle_pub client topicAndValue b).released = b.released := by
  unfold handle_pub
  simp only []
  split
  · split
    · rfl
    · split <;> rfl
  · rfl

theorem handle_name_released (client : Client) (name : String) (b : Broker) :
    (handle_name client name b).2.released = b.released := by
  unfold handle_name
  cases check_spaces_colons_empty name <;> cases client.name <;> simp [print_invalid]

/-- `handle_unsub` on an invalid topic or for a client without a name leaves
the map and releases nothing. -/
theorem handle_unsub_skip (client : Client) (T : String) (b : Broker) (countStat : Nat)
    (h : ¬ Valid T ∨ client.name = none) :
    (handle_unsub client T b countStat).info.sm = b.info.sm
      ∧ (handle_unsub client T b countStat).released = b.released := by
  by_cases hT : Valid T
  · have hn : client.name = none := h.resolve_left (fun hnv => hnv hT)
    unfold handle_unsub
    simp [(check_eq_true_iff T).2 hT, hn]
  · unfold handle_unsub
    simp [check_eq_false_of_not_valid T hT, print_invalid]

/-- `handle_unsub` for a client that is not in the sequence of the topic leaves
the broker. -/
theorem handle_unsub_of_not_mem (client : Client) (T : String) (b : Broker) (countStat : Nat)
    (hname : client.name ≠ none) (hT : Valid T) (hnot : client.toClient ∉ subscribers b T) :
    handle_unsub client T b countStat = b := by
  have hc : check_spaces_colons_empty T = true := (check_eq_true_iff T).2 hT
  obtain ⟨nm, hnm⟩ := Option.ne_none_iff_exists'.1 hname
  unfold handle_unsub
  simp only [hc, hnm, Bool.not_true, Bool.false_eq_true, if_false]
  unfold subscribers at hnot
  cases hs : stringmap_search b.info.sm T with
  | nil => rfl
  | cons temp next =>
    rw [hs] at hnot
    have hh : ¬ temp.toClient = client.toClient := by
      intro e; apply hnot; simp [e]
    simp only [hh, if_false, (unlink_client_none_iff _ _).2 hnot]

theorem inserted_topic_eq (h : Handler) (line : String) (b : Broker) (command arg : String)
    (h0 : (split_by_char line ' ' TWO_TOKENS)[0]? = some command)
    (h1 : (split_by_char line ' ' TWO_TOKENS)[1]? = some arg) :
    inserted_topic h line b =
      if command = "sub" ∧ check_spaces_colons_empty arg = true ∧ h.client.name ≠ none
          ∧ h.client.toClient ∉ subscribers b arg then some arg else none := by
  unfold inserted_topic
  rw [h0, h1]

theorem removed_topic_eq (h : Handler) (line : String) (b : Broker) (command arg : String)
    (h0 : (split_by_char line ' ' TWO_TOKENS)[0]? = some command)
    (h1 : (split_by_char line ' ' TWO_TOKENS)[1]? = some arg) :
    removed_topic h line b =
      if command = "unsub" ∧ check_spaces_colons_empty arg = true ∧ h.client.name ≠ none
          ∧ h.client.toClient ∈ subscribers b arg then some arg else none := by
  unfold removed_topic
  rw [h0, h1]

theorem inserted_topic_none_of (h : Handler) (line : String) (b : Broker)
    (hn : (split_by_char line ' ' TWO_TOKENS)[0]? = none
      ∨ (split_by_char line ' ' TWO_TOKENS)[1]? = none) :
    inserted_topic h line b = none ∧ removed_topic h line b = none := by
  unfold inserted_topic removed_topic
  rcases hn with hn | hn
  · rw [hn]
    exact ⟨rfl, rfl⟩
  · rw [hn]
    cases (split_by_char line ' ' TWO_TOKENS)[0]? <;> exact ⟨rfl, rfl⟩

/-- The values of `inserted_topic` and `removed_topic` for a line with two
tokens. -/
theorem topics_of_command (h : Handler) (line : String) (b : Broker) (command arg : String)
    (h0 : (split_by_char line ' ' TWO_TOKENS)[0]? = some command)
    (h1 : (split_by_char line ' ' TWO_TOKENS)[1]? = some arg) :
    (command ≠ "sub" → inserted_topic h line b = none)
      ∧ (command ≠ "unsub" → removed_topic h line b = none)
      ∧ (¬ Valid arg ∨ h.client.name = none →
          inserted_topic h line b = none ∧ removed_topic h line b = none)
      ∧ (command = "sub" → Valid arg → h.client.name ≠ none →
          (h.client.toClient ∈ subscribers b arg → inserted_topic h line b = none)
            ∧ (h.client.toClient ∉ subscribers b arg → inserted_topic h line b = some arg))
      ∧ (command = "unsub" → Valid arg → h.client.name ≠ none →
          (h.client.toClient ∈ subscribers b arg → removed_topic h line b = some arg)
            ∧ (h.client.toClient ∉ subscribers b arg → removed_topic h line b = none)) := by
  rw [inserted_topic_eq h line b command arg h0 h1, removed_topic_eq h line b command arg h0 h1]
  refine ⟨?_, ?_, ?_, ?_, ?_⟩
  · intro hc
    rw [if_neg (fun hx => hc hx.1)]
  · intro hc
    rw [if_neg (fun hx => hc hx.1)]
  · intro hs
    have h2 : ¬ (check_spaces_colons_empty arg = true ∧ h.client.name ≠ none) := by
      intro hx
      rcases hs with hs | hs
      · exact hs ((check_eq_true_iff arg).1 hx.1)
      · exact hx.2 hs
    rw [if_neg (fun hx => h2 ⟨hx.2.1, hx.2.2.1⟩), if_neg (fun hx => h2 ⟨hx.2.1, hx.2.2.1⟩)]
    exact ⟨rfl, rfl⟩
  · intro hc hT hn
    have hv := (check_eq_true_iff arg).2 hT
    exact ⟨fun hm => by rw [if_neg (fun hx => hx.2.2.2 hm)],
      fun hm => by rw [if_pos ⟨hc, hv, hn, hm⟩]⟩
  · intro hc hT hn
    have hv := (check_eq_true_iff arg).2 hT
    exact ⟨fun hm => by rw [if_pos ⟨hc, hv, hn, hm⟩],
      fun hm => by rw [if_neg (fun hx => hm hx.2.2.2)]⟩

/-- One iteration of the loop of `client_thread` for a line with two tokens. -/
theorem client_line_eq (h : Handler) (line : String) (b : Broker) (command arg : String)
    (h0 : (split_by_char line ' ' TWO_TOKENS)[0]? = some command)
    (h1 : (split_by_char line ' ' TWO_TOKENS)[1]? = some arg) :
    client_line h line b =
      if command = "name" then
        ({ h with client := (handle_name h.client arg b).1 }, (handle_name h.client arg b).2)
      else if command = "sub" then
        (⟨(handle_sub h.client arg b h.bufferSize).1, (handle_sub h.client arg b h.bufferSize).2.1⟩,
          (handle_sub h.client arg b h.bufferSize).2.2)
      else if command = "unsub" then (h, handle_unsub h.client arg b COUNT)
      else if command = "pub" then (h, handle_pub h.client arg b)
      else (h, print_invalid h.client b) := by
  unfold client_line
  simp only [h0, h1]

/-- One iteration of the loop of `client_thread` for a line without two
tokens. -/
theorem client_line_none (h : Handler) (line : String) (b : Broker)
    (hn : (split_by_char line ' ' TWO_TOKENS)[0]? = none
      ∨ (split_by_char line ' ' TWO_TOKENS)[1]? = none) :
    client_line h line b = (h, print_invalid h.client b) := by
  unfold client_line
  rcases hn with hn | hn
  · simp only [hn]
  · simp only [hn]
    cases (split_by_char line ' ' TWO_TOKENS)[0]? <;> rfl

/-- What one iteration of the loop of `client_thread` does to the tracked
topics: a `sub` that inserts the client records its topic at the end, and no
other line changes the list. -/
theorem client_line_tracked (h : Handler) (line : String) (b : Broker)
    (hh : h.client.subCount = h.client.subbedTopics.length) :
    (client_line h line b).1.client.subbedTopics
      = h.client.subbedTopics ++ (inserted_topic h line b).toList := by
  by_cases hnone : (split_by_char line ' ' TWO_TOKENS)[0]? = none
      ∨ (split_by_char line ' ' TWO_TOKENS)[1]? = none
  · rw [(inserted_topic_none_of h line b hnone).1, client_line_none h line b hnone]
    simp
  · obtain ⟨command, h0⟩ := Option.ne_none_iff_exists'.1 (fun hc => hnone (Or.inl hc))
    obtain ⟨arg, h1⟩ := Option.ne_none_iff_exists'.1 (fun hc => hnone (Or.inr hc))
    obtain ⟨t1, _, t3, t4, _⟩ := topics_of_command h line b command arg h0 h1
    rw [client_line_eq h line b command arg h0 h1]
    by_cases c1 : command = "name"
    · rw [t1 (by rw [c1]; decide), if_pos c1]
      simp only [Option.toList_none, List.append_nil]
      exact (handle_name_tracked _ _ _).1
    · rw [if_neg c1]
      by_cases c2 : command = "sub"
      · rw [if_pos c2]
        simp only []
        by_cases hs : ¬ Valid arg ∨ h.client.name = none
        · rw [(handle_sub_skip h.client arg b h.bufferSize hs).1, (t3 hs).1]
          simp
        · have hT : Valid arg := by
            by_contra hc; exact hs (Or.inl hc)
          have hn : h.client.name ≠ none := fun hc => hs (Or.inr hc)
          rw [handle_sub_result h.client arg b h.bufferSize hn hT]
          by_cases hm : h.client.toClient ∈ subscribers b arg
          · rw [if_pos hm, (t4 c2 hT hn).1 hm]
            simp
          · rw [if_neg hm, (t4 c2 hT hn).2 hm]
            simp [add_subscribed_topic, hh]
      · rw [if_neg c2, t1 c2]
        simp only [Option.toList_none, List.append_nil]
        split
        · rfl
        · split <;> rfl

/-- What one iteration of the loop of `client_thread` does to the subscriber
sequences, for a client that is the head of every sequence it is in: an
inserting `sub` puts the client in front, a removing `unsub` takes the head
away, and no other line changes a sequence. No linked node is released. -/
theorem client_line_registry (h : Handler) (line : String) (b : Broker) (hinv : Inv b)
    (hhead : ∀ T : String, h.client.toClient ∈ subscribers b T →
      (subscribers b T).head? = some h.client.toClient) :
    (∀ k : String, subscribers (client_line h line b).2 k =
        match inserted_topic h line b, removed_topic h line b with
        | some T, _ => if k = T then h.client.toClient :: subscribers b k else subscribers b k
        | none, some T => if k = T then (subscribers b k).tail else subscribers b k
        | none, none => subscribers b k)
      ∧ (client_line h line b).2.released = b.released := by
  by_cases hnone : (split_by_char line ' ' TWO_TOKENS)[0]? = none
      ∨ (split_by_char line ' ' TWO_TOKENS)[1]? = none
  · rw [(inserted_topic_none_of h line b hnone).1, (inserted_topic_none_of h line b hnone).2,
      client_line_none h line b hnone]
    exact ⟨fun k => rfl, rfl⟩
  · obtain ⟨command, h0⟩ := Option.ne_none_iff_exists'.1 (fun hc => hnone (Or.inl hc))
    obtain ⟨arg, h1⟩ := Option.ne_none_iff_exists'.1 (fun hc => hnone (Or.inr hc))
    obtain ⟨t1, t2, t3, t4, t5⟩ := topics_of_command h line b command arg h0 h1
    rw [client_line_eq h line b command arg h0 h1]
    by_cases c1 : command = "name"
    · rw [t1 (by rw [c1]; decide), t2 (by rw [c1]; decide), if_pos c1]
      exact ⟨fun k => subscribers_congr _ _ (handle_name_tracked _ _ _).2.2.2 k,
        handle_name_released _ _ _⟩
    · rw [if_neg c1]
      by_cases c2 : command = "sub"
      · rw [if_pos c2, t2 (by rw [c2]; decide)]
        refine ⟨?_, handle_sub_released _ _ _ _⟩
        intro k
        by_cases hs : ¬ Valid arg ∨ h.client.name = none
        · rw [(t3 hs).1]
          exact subscribers_congr _ _ (handle_sub_skip h.client arg b h.bufferSize hs).2 k
        · have hT : Valid arg := by
            by_contra hc; exact hs (Or.inl hc)
          have hn : h.client.name ≠ none := fun hc => hs (Or.inr hc)
          have hsearch := handle_sub_search h.client arg b h.bufferSize hinv.1 hn hT k
          by_cases hm : h.client.toClient ∈ subscribers b arg
          · rw [(t4 c2 hT hn).1 hm]
            unfold subscribers
            simp only []
            rw [hsearch, if_neg (fun hc => hc.2 hm)]
          · rw [(t4 c2 hT hn).2 hm]
            unfold subscribers
            simp only []
            rw [hsearch]
            by_cases hk : k = arg
            · rw [if_pos ⟨hk, hm⟩, if_pos hk, hk]
              rfl
            · rw [if_neg (fun hc => hk hc.1), if_neg hk]
      · rw [if_neg c2, t1 c2]
        by_cases c3 : command = "unsub"
        · rw [if_pos c3]
          by_cases hs : ¬ Valid arg ∨ h.client.name = none
          · rw [(t3 hs).2]
            exact ⟨fun k => subscribers_congr _ _
              (handle_unsub_skip h.client arg b COUNT hs).1 k,
              (handle_unsub_skip h.client arg b COUNT hs).2⟩
          · have hT : Valid arg := by
              by_contra hc; exact hs (Or.inl hc)
            have hn : h.client.name ≠ none := fun hc => hs (Or.inr hc)
            by_cases hm : h.client.toClient ∈ subscribers b arg
            · rw [(t5 c3 hT hn).1 hm]
              have hhd := hhead arg hm
              unfold subscribers at hhd
              cases hch : stringmap_search b.info.sm arg with
              | nil => rw [hch] at hhd; simp at hhd
              | cons temp next =>
                rw [hch] at hhd
                simp only [streams_cons, List.head?_cons, Option.some.injEq] at hhd
                refine ⟨?_, ?_⟩
                · intro k
                  unfold subscribers
                  simp only []
                  rw [handle_unsub_search h.client arg b COUNT hinv.1 hn hT k]
                  by_cases hk : k = arg
                  · rw [if_pos hk, if_pos hk, hk, hch]
                    unfold unsub_chain
                    simp only [hhd, if_true, streams_cons, List.tail_cons]
                  · rw [if_neg hk, if_neg hk]
                · apply handle_unsub_released_same
                  intro temp1 next1 hs1
                  rw [hch] at hs1
                  simp only [List.cons.injEq] at hs1
                  rw [← hs1.1]
                  exact Or.inl hhd
            · rw [(t5 c3 hT hn).2 hm, handle_unsub_of_not_mem h.client arg b COUNT hn hT hm]
              exact ⟨fun k => rfl, rfl⟩
        · rw [if_neg c3, t2 c3]
          split
          · exact ⟨fun k => subscribers_congr _ _ (handle_pub_sm _ _ _) k,
              handle_pub_released _ _ _⟩
          · exact ⟨fun k => rfl, rfl⟩

theorem inserted_topic_some (h : Handler) (line : String) (b : Broker) (T : String)
    (hi : inserted_topic h line b = some T) :
    h.client.toClient ∉ subscribers b T ∧ removed_topic h line b = none := by
  by_cases hnone : (split_by_char line ' ' TWO_TOKENS)[0]? = none
      ∨ (split_by_char line ' ' TWO_TOKENS)[1]? = none
  · rw [(inserted_topic_none_of h line b hnone).1] at hi
    exact Option.noConfusion hi
  · obtain ⟨command, h0⟩ := Option.ne_none_iff_exists'.1 (fun hc => hnone (Or.inl hc))
    obtain ⟨arg, h1⟩ := Option.ne_none_iff_exists'.1 (fun hc => hnone (Or.inr hc))
    rw [inserted_topic_eq h line b command arg h0 h1] at hi
    by_cases hc : command = "sub" ∧ check_spaces_colons_empty arg = true ∧ h.client.name ≠ none
        ∧ h.client.toClient ∉ subscribers b arg
    · rw [if_pos hc] at hi
      simp only [Option.some.injEq] at hi
      subst hi
      exact ⟨hc.2.2.2, (topics_of_command h line b command arg h0 h1).2.1
        (by rw [hc.1]; decide)⟩
    · rw [if_neg hc] at hi
      exact Option.noConfusion hi

theorem removed_topic_some (h : Handler) (line : String) (b : Broker) (T : String)
    (hi : removed_topic h line b = some T) : h.client.toClient ∈ subscribers b T := by
  by_cases hnone : (split_by_char line ' ' TWO_TOKENS)[0]? = none
      ∨ (split_by_char line ' ' TWO_TOKENS)[1]? = none
  · rw [(inserted_topic_none_of h line b hnone).2] at hi
    exact Option.noConfusion hi
  · obtain ⟨command, h0⟩ := Option.ne_none_iff_exists'.1 (fun hc => hnone (Or.inl hc))
    obtain ⟨arg, h1⟩ := Option.ne_none_iff_exists'.1 (fun hc => hnone (Or.inr hc))
    rw [removed_topic_eq h line b command arg h0 h1] at hi
    by_cases hc : command = "unsub" ∧ check_spaces_colons_empty arg = true
        ∧ h.client.name ≠ none ∧ h.client.toClient ∈ subscribers b arg
    · rw [if_pos hc] at hi
      simp only [Option.some.injEq] at hi
      subst hi
      exact hc.2.2.2
    · rw [if_neg hc] at hi
      exact Option.noConfusion hi

/-- One iteration of the loop of `client_thread` keeps the tracked topics, the
topics removed and the registry in agreement and releases no linked node; the
tracked list gets its first duplicate exactly when the line inserts the client
for a topic from which it has been removed. -/
theorem ledger_client_line (h : Handler) (line : String) (b : Broker) (removed : List String)
    (hinv : Inv b) (hL : Ledger h b removed) :
    Ledger (client_line h line b).1 (client_line h line b).2
        ((removed_topic h line b).toList ++ removed)
      ∧ (client_line h line b).2.released = b.released
      ∧ ((client_line h line b).1.client.subbedTopics.Nodup
          ↔ h.client.subbedTopics.Nodup
            ∧ ∀ T : String, inserted_topic h line b = some T → T ∉ removed) := by
  obtain ⟨hcount, hhead, hled⟩ := hL
  obtain ⟨hreg, hrel⟩ := client_line_registry h line b hinv hhead
  have htr := client_line_tracked h line b hcount
  have hw := client_line_toClient h line b
  have hsc := client_line_subCount h line b hcount
  unfold Ledger
  rw [hw, htr]
  cases hi : inserted_topic h line b with
  | some T0 =>
    obtain ⟨hnot, hrem⟩ := inserted_topic_some h line b T0 hi
    rw [hi] at hreg
    simp only [] at hreg
    rw [hrem]
    simp only [Option.toList_some, Option.toList_none, List.nil_append]
    have hsc1 : (client_line h line b).1.client.subCount
        = (h.client.subbedTopics ++ [T0]).length := by
      rw [hsc, htr, hi]
      rfl
    refine ⟨⟨hsc1, ?_, ?_⟩, hrel, ?_⟩
    · intro T hm
      rw [hreg T] at hm ⊢
      by_cases hk : T = T0
      · rw [if_pos hk]
        rfl
      · rw [if_neg hk] at hm ⊢
        exact hhead T hm
    · intro T
      rw [hreg T, List.count_append, hled T]
      by_cases hk : T = T0
      · subst hk
        rw [if_pos rfl, if_neg hnot]
        simp
      · rw [if_neg hk]
        have : List.count T [T0] = 0 := by
          rw [List.count_eq_zero]
          simp only [List.mem_singleton]
          exact hk
        omega
    · have hz : T0 ∈ h.client.subbedTopics ↔ T0 ∈ removed := by
        have h1 := hled T0
        rw [if_neg hnot] at h1
        constructor
        · intro hm
          have := List.count_pos_iff.2 hm
          exact List.count_pos_iff.1 (by omega)
        · intro hm
          have := List.count_pos_iff.2 hm
          exact List.count_pos_iff.1 (by omega)
      rw [List.nodup_append]
      constructor
      · intro hnd
        refine ⟨hnd.1, ?_⟩
        intro T hT
        simp only [Option.some.injEq] at hT
        subst hT
        intro hm
        exact hnd.2.2 (hz.2 hm) (List.mem_singleton_self _)
      · intro hnd
        refine ⟨hnd.1, List.nodup_singleton _, ?_⟩
        intro a ha hb
        simp only [List.mem_singleton] at hb
        subst hb
        exact hnd.2 a rfl (hz.1 ha)
  | none =>
    rw [hi] at hreg
    simp only [Option.toList_none, List.append_nil]
    have hsc1 : (client_line h line b).1.client.subCount = h.client.subbedTopics.length := by
      rw [hsc, htr, hi]
      simp
    have hnd : (h.client.subbedTopics.Nodup
        ↔ h.client.subbedTopics.Nodup ∧ ∀ T : String, (none : Option String) = some T →
          T ∉ removed) :=
      ⟨fun hx => ⟨hx, fun T hT => Option.noConfusion hT⟩, fun hx => hx.1⟩
    cases hr : removed_topic h line b with
    | some T0 =>
      have hm0 := removed_topic_some h line b T0 hr
      rw [hr] at hreg
      simp only [] at hreg
      simp only [Option.toList_some, List.singleton_append]
      have hhd := hhead T0 hm0
      have hnd0 := hinv.2 T0
      have hcons : subscribers b T0 = h.client.toClient :: (subscribers b T0).tail := by
        cases hs : subscribers b T0 with
        | nil => rw [hs] at hhd; simp at hhd
        | cons x xs =>
          rw [hs] at hhd
          simp only [List.head?_cons, Option.some.injEq] at hhd
          rw [hhd]
          rfl
      have hnt : h.client.toClient ∉ (subscribers b T0).tail := by
        rw [hcons] at hnd0
        exact (List.nodup_cons.1 hnd0).1
      refine ⟨⟨hsc1, ?_, ?_⟩, hrel, hnd⟩
      · intro T hm
        rw [hreg T] at hm ⊢
        by_cases hk : T = T0
        · rw [if_pos hk, hk] at hm
          exact absurd hm hnt
        · rw [if_neg hk] at hm ⊢
          exact hhead T hm
      · intro T
        rw [hreg T, hled T, List.count_cons]
        by_cases hk : T = T0
        · subst hk
          rw [if_pos rfl, if_pos hm0, if_neg hnt]
          simp
        · rw [if_neg hk]
          have hk1 : (T0 == T) = false := by
            rw [beq_eq_false_iff_ne]
            exact fun e => hk e.symm
          simp only [hk1, Bool.false_eq_true, if_false]
          omega
    | none =>
      rw [hr] at hreg
      simp only [] at hreg
      simp only [Option.toList_none, List.nil_append]
      refine ⟨⟨hsc1, ?_, ?_⟩, hrel, hnd⟩
      · intro T hm
        rw [hreg T] at hm ⊢
        exact hhead T hm
      · intro T
        rw [hreg T]
        exact hled T

/-- The loop of `client_thread` over any lines keeps the tracked topics, the
topics removed and the registry in agreement and releases no linked node; the
tracked list has no topic twice at the end exactly when it had none twice at
the start and no line has inserted the client for a topic from which it had
been removed. -/
theorem ledger_client_lines (lines : List String) :
    ∀ (h : Handler) (b : Broker) (removed : List String), Inv b → Ledger h b removed →
      Ledger (client_lines h lines b).1 (client_lines h lines b).2
          (unsubscribed h b removed lines)
        ∧ (client_lines h lines b).2.released = b.released
        ∧ ((client_lines h lines b).1.client.subbedTopics.Nodup
            ↔ h.client.subbedTopics.Nodup ∧ no_resubscribe h b removed lines = true) := by
  induction lines with
  | nil =>
    intro h b removed _ hL
    exact ⟨hL, rfl, ⟨fun hx => ⟨hx, rfl⟩, fun hx => hx.1⟩⟩
  | cons line rest ih =>
    intro h b removed hinv hL
    obtain ⟨s1, s2, s3⟩ := ledger_client_line h line b removed hinv hL
    obtain ⟨r1, r2, r3⟩ := ih _ _ _ (inv_client_line h line b hinv) s1
    rw [client_lines_cons]
    simp only [unsubscribed, no_resubscribe, Bool.and_eq_true]
    refine ⟨r1, r2.trans s2, ?_⟩
    rw [r3, s3]
    have hcond : (∀ T : String, inserted_topic h line b = some T → T ∉ removed)
        ↔ (match inserted_topic h line b with
            | some T => decide (T ∉ removed)
            | none => true) = true := by
      cases inserted_topic h line b with
      | none => simp
      | some T0 => simp
    rw [hcond]
    exact and_assoc

/-- A connection that starts on a stream which is in no subscriber sequence has
nothing tracked and nothing removed. -/
theorem ledger_client_start (wr rd : Nat) (b : Broker)
    (hfresh : ∀ T : String, wr ∉ subscribers b T) :
    Ledger (client_start wr rd b).1 (client_start wr rd b).2 [] := by
  refine ⟨rfl, ?_, ?_⟩
  · intro T hm
    exact absurd hm (hfresh T)
  · intro T
    have h1 : (client_start wr rd b).1.client.toClient ∉ subscribers (client_start wr rd b).2 T :=
      hfresh T
    rw [if_neg h1]
    rfl

theorem client_lines_toClient (lines : List String) :
    ∀ (h : Handler) (b : Broker),
      (client_lines h lines b).1.client.toClient = h.client.toClient := by
  induction lines with
  | nil => intro h b; rfl
  | cons l ls ih =>
    intro h b
    rw [client_lines_cons, ih, client_line_toClient]

/-- The empty registry has no subscribers. -/
theorem subscribers_initial (connections : Nat) (T : String) :
    subscribers (initial_broker connections) T = [] := rfl

/-! ## The claims -/

/-- C1. Head insertion by `handle_sub`: in a registry state whose map is well
formed, for a client whose name is set and a valid topic `T` whose subscriber
sequence does not contain the client, `handle_sub` makes the chain of `T` the
client followed by the previous chain (the one-element chain when `T` had no
entry), increments the subscribe counter by exactly 1 and writes nothing. Hence
when a client `B`, on another stream and not yet subscribed, subscribes to `T`
next, `B` precedes the first client in the sequence of `T`. -/
theorem handle_sub_head_insertion (b : Broker) (client : Client) (T : String)
    (bufferSize : Nat) (hwf : b.info.sm.WF) (hname : client.name ≠ none) (hT : Valid T)
    (hnot : client.toClient ∉ subscribers b T) :
    stringmap_search (handle_sub client T b bufferSize).2.2.info.sm T
        = client :: stringmap_search b.info.sm T
      ∧ subscribers (handle_sub client T b bufferSize).2.2 T
        = client.toClient :: subscribers b T
      ∧ (stringmap_search b.info.sm T = [] →
          stringmap_search (handle_sub client T b bufferSize).2.2.info.sm T = [client])
      ∧ (handle_sub client T b bufferSize).2.2.info.totalSub = b.info.totalSub + 1
      ∧ (handle_sub client T b bufferSize).2.2.sent = b.sent
      ∧ ∀ (B : Client) (bufferSizeB : Nat), B.name ≠ none →
          B.toClient ∉ subscribers b T → B.toClient ≠ client.toClient →
          subscribers (handle_sub B T (handle_sub client T b bufferSize).2.2 bufferSizeB).2.2 T
            = B.toClient :: client.toClient :: subscribers b T := by
  have h1 : stringmap_search (handle_sub client T b bufferSize).2.2.info.sm T
      = client :: stringmap_search b.info.sm T := by
    rw [handle_sub_search client T b bufferSize hwf hname hT T]
    simp [hnot]
  have h2 : subscribers (handle_sub client T b bufferSize).2.2 T
      = client.toClient :: subscribers b T := by
    unfold subscribers
    rw [h1]; rfl
  refine ⟨h1, h2, ?_, ?_, ?_, ?_⟩
  · intro h0
    rw [h1, h0]
  · rw [handle_sub_broker client T b bufferSize hwf hname hT, if_neg hnot]
  · rw [handle_sub_broker client T b bufferSize hwf hname hT, if_neg hnot]
  · intro B bufferSizeB hB hBnot hne
    have hwf1 := handle_sub_wf client T b bufferSize hwf
    have hBnot1 : B.toClient ∉ subscribers (handle_sub client T b bufferSize).2.2 T := by
      rw [h2]
      simp only [List.mem_cons, not_or]
      exact ⟨hne, hBnot⟩
    unfold subscribers
    rw [handle_sub_search B T _ bufferSizeB hwf1 hB hT T]
    simp only [hBnot1, not_false_eq_true, and_self, if_true, streams_cons]
    rw [h1]; rfl

/-- C1 at a concrete input: alice, then bob, subscribe to "news" where carol
already is. -/
theorem handle_sub_head_insertion_witness :
    news_broker.info.sm.WF ∧ alice.name ≠ none ∧ Valid "news"
      ∧ alice.toClient ∉ subscribers news_broker "news"
      ∧ subscribers (handle_sub alice "news" news_broker 3).2.2 "news" = [4, 8]
      ∧ subscribers (handle_sub bob "news" (handle_sub alice "news" news_broker 3).2.2 3).2.2
          "news" = [6, 4, 8] :=
  ⟨by decide, by decide, by decide, by decide,
   (handle_sub_head_insertion news_broker alice "news" 3
      (by decide) (by decide) (by decide) (by decide)).2.1,
   (handle_sub_head_insertion news_broker alice "news" 3
      (by decide) (by decide) (by decide) (by decide)).2.2.2.2.2 bob 3
      (by decide) (by decide) (by decide)⟩

/-- C2. Delivery by `handle_pub`: for a publisher whose name is `P`, a valid
topic `T` and a non-empty value `V` (any characters, spaces and colons
included), `handle_pub` on `T`, a space, `V` writes the line `P:T:V` once to
each client of the subscriber sequence of `T`, head first, and writes nothing
else; it increments the publish counter by exactly 1, also when `T` has no
subscribers, where nothing is written; the map and the other counters stay. -/
theorem handle_pub_delivery (b : Broker) (client : Client) (P T V : String)
    (hname : client.name = some P) (hT : Valid T) (hV : V ≠ "") :
    (handle_pub client (T ++ " " ++ V) b).sent
        = b.sent ++ (subscribers b T).map (fun wr => (wr, P ++ ":" ++ T ++ ":" ++ V ++ "\n"))
      ∧ (handle_pub client (T ++ " " ++ V) b).info
        = { b.info with totalPub := b.info.totalPub + 1 }
      ∧ (handle_pub client (T ++ " " ++ V) b).info.sm = b.info.sm
      ∧ (subscribers b T = [] → (handle_pub client (T ++ " " ++ V) b).sent = b.sent) := by
  have hc : check_spaces_colons_empty T = true := (check_eq_true_iff T).2 hT
  have hpub := handle_pub_two client T V b hT.2.1
  simp only [hc, hV, hname, Bool.not_true, Bool.false_or, decide_False, Bool.false_eq_true,
    if_false] at hpub
  have hsent : (handle_pub client (T ++ " " ++ V) b).sent
      = b.sent ++ (subscribers b T).map (fun wr => (wr, P ++ ":" ++ T ++ ":" ++ V ++ "\n")) := by
    rw [hpub]
    simp [subscribers, streams, List.map_map, Function.comp_def]
  refine ⟨hsent, ?_, ?_, ?_⟩
  · rw [hpub]
  · rw [hpub]
  · intro h0
    rw [hsent, h0]
    simp

/-- C2 at a concrete input: bob publishes to "news", where alice and carol are
subscribed, a value with a colon and spaces. -/
theorem handle_pub_delivery_witness :
    bob.name = some "bob" ∧ Valid "news" ∧ "hello: big world" ≠ ""
      ∧ (handle_pub bob ("news" ++ " " ++ "hello: big world")
          (handle_sub alice "news" news_broker 3).2.2).sent
        = [(4, "bob:news:hello: big world\n"), (8, "bob:news:hello: big world\n")] :=
  ⟨by decide, by decide, by decide,
   (handle_pub_delivery (handle_sub alice "news" news_broker 3).2.2 bob "bob" "news"
      "hello: big world" (by decide) (by decide) (by decide)).1⟩

/-- C3, the code at the failing input: alice and carol are subscribed to
"news", alice at the head; carol unsubscribes with `countStat = COUNT`. The
chain is then the node of alice alone, the counter has grown by 1, and that
node, the subscriber to be kept, has been released by `free(prev)`. With bob
ahead of the two it is again the node of alice.
In general: when the client is the head of the chain of a valid topic `T`,
`handle_unsub` with `countStat = COUNT` leaves the rest of the chain, removes
the entry when nothing is left, raises the unsubscribe counter by exactly 1,
touches no other topic and releases no linked node. When the client is behind
the head (and occurs once), the links are those of the previous chain without
the client and the counter grows by 1, but a node of another client, still in
the chain, has been released. -/
theorem handle_unsub_releases_kept_subscriber :
    (subscribers news_broker2 "news" = [4, 8]
        ∧ news_broker2.released = []
        ∧ stringmap_search (handle_unsub carol "news" news_broker2 COUNT).info.sm "news"
            = [alice]
        ∧ (handle_unsub carol "news" news_broker2 COUNT).info.totalUnsub
            = news_broker2.info.totalUnsub + 1
        ∧ (handle_unsub carol "news" news_broker2 COUNT).released = [("news", alice)]
        ∧ alice.toClient = 4
        ∧ subscribers news_broker3 "news" = [6, 4, 8]
        ∧ stringmap_search (handle_unsub carol "news" news_broker3 COUNT).info.sm "news"
            = [bob, alice]
        ∧ (handle_unsub carol "news" news_broker3 COUNT).released = [("news", alice)])
      ∧ (∀ (b : Broker) (client : Client) (T : String) (temp : Client) (next : List Client),
          b.info.sm.WF → client.name ≠ none → Valid T →
          stringmap_search b.info.sm T = temp :: next → temp.toClient = client.toClient →
          stringmap_search (handle_unsub client T b COUNT).info.sm T = next
            ∧ (next = [] → T ∉ keys (handle_unsub client T b COUNT).info.sm)
            ∧ (∀ U : String, U ≠ T →
                stringmap_search (handle_unsub client T b COUNT).info.sm U
                  = stringmap_search b.info.sm U)
            ∧ (handle_unsub client T b COUNT).info.totalUnsub = b.info.totalUnsub + 1
            ∧ (handle_unsub client T b COUNT).released = b.released)
      ∧ ∀ (b : Broker) (client : Client) (T : String) (temp : Client) (next : List Client),
          b.info.sm.WF → (subscribers b T).Nodup → client.name ≠ none → Valid T →
          stringmap_search b.info.sm T = temp :: next → temp.toClient ≠ client.toClient →
          client.toClient ∈ subscribers b T →
          stringmap_search (handle_unsub client T b COUNT).info.sm T
              = (stringmap_search b.info.sm T).filter (fun n => n.toClient ≠ client.toClient)
            ∧ (handle_unsub client T b COUNT).info.totalUnsub = b.info.totalUnsub + 1
            ∧ ∃ prev, prev ∈ stringmap_search (handle_unsub client T b COUNT).info.sm T
                ∧ prev.toClient ≠ client.toClient
                ∧ (handle_unsub client T b COUNT).released = b.released ++ [(T, prev)] := by
  have hcs : COUNT ≠ 0 := by decide
  refine ⟨by decide, ?_, ?_⟩
  · intro b client T temp next hwf hname hT hs hh
    have hmem : client.toClient ∈ subscribers b T := by
      unfold subscribers
      rw [hs, ← hh]
      exact List.mem_cons_self _ _
    have h1 : stringmap_search (handle_unsub client T b COUNT).info.sm T = next := by
      rw [handle_unsub_search client T b COUNT hwf hname hT T, if_pos rfl, hs]
      unfold unsub_chain
      simp only [hh, if_true]
    refine ⟨h1, ?_, ?_, ?_, ?_⟩
    · intro h0
      apply (search_eq_nil_iff _ (handle_unsub_wf client T b COUNT hwf) T).1
      rw [h1, h0]
    · intro U hU
      rw [handle_unsub_search client T b COUNT hwf hname hT U, if_neg hU]
    · rw [handle_unsub_totalUnsub client T b COUNT hname hT, if_pos ⟨hmem, hcs⟩]
    · apply handle_unsub_released_same
      intro temp1 next1 hs1
      rw [hs] at hs1
      simp only [List.cons.injEq] at hs1
      rw [← hs1.1]
      exact Or.inl hh
  · intro b client T temp next hwf hnd hname hT hs hh hmem
    refine ⟨?_, ?_, ?_⟩
    · rw [handle_unsub_search client T b COUNT hwf hname hT T, if_pos rfl]
      exact unsub_chain_count _ _ _ hcs hnd
    · rw [handle_unsub_totalUnsub client T b COUNT hname hT, if_pos ⟨hmem, hcs⟩]
    · obtain ⟨prev, _, hp2, hp3, hp4⟩ :=
        handle_unsub_releases_prev client T b COUNT hwf hname hT hcs temp next hs hh hmem
      exact ⟨prev, hp4, hp2, hp3⟩

/-- C4, the code at the failing input: alice and then bob connect, name
themselves and subscribe to "news"; alice disconnects. After `clean_up_client`
alice is still in the sequence of "news", behind bob, and the next publish to
"news" is written to the stream of alice. -/
theorem clean_up_client_leaves_non_head :
    subscribers bob_session.2 "news" = [6, 4]
      ∧ alice_session.1.client.toClient = 4
      ∧ alice_session.1.client.subbedTopics = ["news"]
      ∧ subscribers after_alice_left "news" = [6, 4]
      ∧ delivered after_alice_left
          (client_line bob_session.1 "pub news hi" after_alice_left).2
          = [(6, "bob:news:hi\n"), (4, "bob:news:hi\n")] := by
  decide

/-- C5, the code at the failing input: carol is subscribed to "news" behind
alice. `handle_unsub` with `countStat = DONT_COUNT` changes nothing, carol stays
in the sequence, whereas with `countStat = COUNT` carol is removed; at the head
(alice) both calls remove the client. -/
theorem handle_unsub_dont_count_keeps_non_head :
    subscribers news_broker2 "news" = [4, 8]
      ∧ handle_unsub carol "news" news_broker2 DONT_COUNT = news_broker2
      ∧ subscribers (handle_unsub carol "news" news_broker2 DONT_COUNT) "news" = [4, 8]
      ∧ subscribers (handle_unsub carol "news" news_broker2 COUNT) "news" = [4]
      ∧ (handle_unsub carol "news" news_broker2 DONT_COUNT).info.sm
          ≠ (handle_unsub carol "news" news_broker2 COUNT).info.sm
      ∧ (handle_unsub alice "news" news_broker2 DONT_COUNT).info.sm
          = (handle_unsub alice "news" news_broker2 COUNT).info.sm := by
  decide

/-- C6. Idempotent subscribe: for a named client and a valid topic `T`, when the
client is already in the sequence of `T`, `handle_sub` returns the client (its
tracked topics included), the buffer size and the broker (map, counters,
writes) as they were. Consequently, from a well-formed state where no client
occurs twice in the sequence of `T`, after the client has subscribed to `T`
twice, a publish to `T`, also one that follows other publishes, writes exactly
one line to that client. -/
theorem handle_sub_idempotent (b : Broker) (client : Client) (T : String) (bufferSize : Nat)
    (hname : client.name ≠ none) (hT : Valid T) :
    (client.toClient ∈ subscribers b T →
        handle_sub client T b bufferSize = (client, bufferSize, b))
      ∧ (b.info.sm.WF → (subscribers b T).Nodup →
          handle_sub (handle_sub client T b bufferSize).1 T
              (handle_sub client T b bufferSize).2.2 (handle_sub client T b bufferSize).2.1
            = handle_sub client T b bufferSize
          ∧ ∀ (earlier : List (Client × String)) (publisher : Client) (P V : String),
            publisher.name = some P → V ≠ "" →
            (delivered
                (earlier.foldl (fun acc q => handle_pub q.1 q.2 acc)
                  (handle_sub client T b bufferSize).2.2)
                (handle_pub publisher (T ++ " " ++ V)
                  (earlier.foldl (fun acc q => handle_pub q.1 q.2 acc)
                    (handle_sub client T b bufferSize).2.2))).filter
                (fun w => w.1 = client.toClient)
              = [(client.toClient, P ++ ":" ++ T ++ ":" ++ V ++ "\n")]) := by
  have hc : check_spaces_colons_empty T = true := (check_eq_true_iff T).2 hT
  obtain ⟨nm, hnm⟩ := Option.ne_none_iff_exists'.1 hname
  have hidem : ∀ (c : Client) (b0 : Broker) (n : Nat), c.name ≠ none →
      c.toClient ∈ subscribers b0 T → handle_sub c T b0 n = (c, n, b0) := by
    intro c b0 n hcn hmem
    obtain ⟨nm0, hnm0⟩ := Option.ne_none_iff_exists'.1 hcn
    unfold handle_sub
    simp only [hc, hnm0, Bool.not_true, Bool.false_eq_true, if_false]
    unfold subscribers at hmem
    cases hs : stringmap_search b0.info.sm T with
    | nil => rw [hs] at hmem; simp at hmem
    | cons temp next =>
      rw [hs] at hmem
      simp [(already_subbed_iff _ _).2 hmem]
  refine ⟨hidem client b bufferSize hname, ?_⟩
  intro hwf hnd
  -- the client, as `handle_sub` returns it, keeps its name and its stream
  have hclient : (handle_sub client T b bufferSize).1.name ≠ none
      ∧ (handle_sub client T b bufferSize).1.toClient = client.toClient := by
    unfold handle_sub
    simp only [hc, hnm, Bool.not_true, Bool.false_eq_true, if_false]
    cases hs : stringmap_search b.info.sm T with
    | nil => simp [add_subscribed_topic, hnm]
    | cons temp next =>
      by_cases ha : already_subbed (temp :: next) client = true
      · simp [ha, hnm]
      · simp [ha, add_subscribed_topic, hnm]
  -- after the first call the client occurs exactly once
  have hsubs : subscribers (handle_sub client T b bufferSize).2.2 T
      = if client.toClient ∈ subscribers b T then subscribers b T
        else client.toClient :: subscribers b T := by
    have hs := handle_sub_search client T b bufferSize hwf hname hT T
    by_cases hm : client.toClient ∈ subscribers b T
    · rw [if_pos hm]
      rw [if_neg (fun h => h.2 hm)] at hs
      unfold subscribers
      rw [hs]
    · rw [if_neg hm]
      rw [if_pos ⟨rfl, hm⟩] at hs
      unfold subscribers
      rw [hs]; rfl
  have hmem1 : client.toClient ∈ subscribers (handle_sub client T b bufferSize).2.2 T := by
    rw [hsubs]
    by_cases hm : client.toClient ∈ subscribers b T
    · rw [if_pos hm]; exact hm
    · rw [if_neg hm]; exact List.mem_cons_self _ _
  have hnd1 : (subscribers (handle_sub client T b bufferSize).2.2 T).Nodup := by
    rw [hsubs]
    by_cases hm : client.toClient ∈ subscribers b T
    · rw [if_pos hm]; exact hnd
    · rw [if_neg hm]
      exact List.nodup_cons.2 ⟨hm, hnd⟩
  refine ⟨?_, ?_⟩
  · have := hidem (handle_sub client T b bufferSize).1 (handle_sub client T b bufferSize).2.2
      (handle_sub client T b bufferSize).2.1 hclient.1 (by rw [hclient.2]; exact hmem1)
    rw [this]
  · intro earlier publisher P V hP hV
    have hpub := handle_pub_two publisher T V
      (earlier.foldl (fun acc q => handle_pub q.1 q.2 acc)
        (handle_sub client T b bufferSize).2.2) hT.2.1
    simp only [hc, hV, hP, Bool.not_true, Bool.false_or, decide_False, Bool.false_eq_true,
      if_false] at hpub
    have hsame : stringmap_search (earlier.foldl (fun acc q => handle_pub q.1 q.2 acc)
        (handle_sub client T b bufferSize).2.2).info.sm T
        = stringmap_search (handle_sub client T b bufferSize).2.2.info.sm T := by
      rw [foldl_handle_pub_sm]
    rw [hpub, hsame]
    unfold delivered
    simp only [List.drop_left]
    unfold subscribers streams at hmem1 hnd1
    generalize stringmap_search (handle_sub client T b bufferSize).2.2.info.sm T = chain
      at hmem1 hnd1
    induction chain with
    | nil => simp at hmem1
    | cons n l ih =>
      simp only [List.map_cons, List.nodup_cons, List.mem_cons] at hmem1 hnd1
      by_cases hn : n.toClient = client.toClient
      · have hl : ∀ m ∈ l, ¬ m.toClient = client.toClient := by
          intro m hm e
          apply hnd1.1
          rw [hn, ← e]
          exact List.mem_map_of_mem _ hm
        simp only [List.map_cons, hn, List.filter_cons, decide_True, if_true, List.cons.injEq,
          true_and]
        rw [List.filter_eq_nil_iff]
        intro w hw
        simp only [List.mem_map] at hw
        obtain ⟨m, hm, rfl⟩ := hw
        simpa using hl m hm
      · have hmem2 : client.toClient ∈ List.map (fun n => n.toClient) l :=
          hmem1.resolve_left (fun e => hn e.symm)
        simp only [List.map_cons, List.filter_cons, hn, decide_False, Bool.false_eq_true,
          if_false]
        exact ih hmem2 hnd1.2

/-- C6 at a concrete input: alice subscribes to "news" again, and bob
publishes after alice subscribed. -/
theorem handle_sub_idempotent_witness :
    alice.name ≠ none ∧ Valid "news" ∧ alice.toClient ∈ subscribers news_broker2 "news"
      ∧ news_broker.info.sm.WF ∧ (subscribers news_broker "news").Nodup
      ∧ handle_sub alice "news" news_broker2 3 = (alice, 3, news_broker2)
      ∧ (delivered (handle_sub alice "news" news_broker 3).2.2
            (handle_pub bob ("news" ++ " " ++ "hi")
              (handle_sub alice "news" news_broker 3).2.2)).filter
            (fun w => w.1 = alice.toClient)
          = [(4, "bob:news:hi\n")] :=
  ⟨by decide, by decide, by decide, by decide, by decide,
   (handle_sub_idempotent news_broker2 alice "news" 3 (by decide) (by decide)).1 (by decide),
   ((handle_sub_idempotent news_broker alice "news" 3 (by decide) (by decide)).2
      (by decide) (by decide)).2 [] bob "bob" "hi" (by decide) (by decide)⟩

/-- C7, the code at the failing input: carol and then alice connect, name
themselves and subscribe to "news"; carol sends `unsub news`. This is a state of
an execution from the empty registry. The chain of "news" is then the node of
alice, which `free(prev)` has released. When alice sends `sub news` again, the
loop of `handle_sub` that looks for her reads that node: whether it finds her
is not determined by the program.
In general, in every state of every execution from the empty registry (any
sequence of connection starts, of `name`, `sub`, `unsub` and `pub` commands and
other lines, of `handle_unsub` calls and of client cleanups, by any clients) in
which no linked node has been released, no client, identified by its write
stream, occurs more than once in the subscriber sequence of a topic. -/
theorem released_node_read_by_subscribe :
    (carol_left
          = run [Request.connect 8 9,
              Request.line ⟨⟨none, 8, 9, [], 0⟩, 3⟩ "name carol",
              Request.line ⟨⟨some "carol", 8, 9, [], 0⟩, 3⟩ "sub news",
              Request.connect 4 5,
              Request.line ⟨⟨none, 4, 5, [], 0⟩, 3⟩ "name alice",
              Request.line ⟨⟨some "alice", 4, 5, [], 0⟩, 3⟩ "sub news",
              Request.line ⟨⟨some "carol", 8, 9, ["news"], 1⟩, 3⟩ "unsub news"]
            (initial_broker 0)
        ∧ subscribers alice_joined.2 "news" = [4, 8]
        ∧ alice_joined.2.released = []
        ∧ handle_unsub_frees carol_session.1.client "news" alice_joined.2 COUNT = [1, 0]
        ∧ stringmap_search carol_left.info.sm "news" = [alice]
        ∧ carol_left.released = [("news", alice)]
        ∧ alice_joined.1.client.toClient = alice.toClient
        ∧ handle_sub_reads alice_joined.1.client "news" carol_left = [alice])
      ∧ ∀ (connections : Nat) (requests : List Request) (T : String),
          (run requests (initial_broker connections)).released = [] →
          (subscribers (run requests (initial_broker connections)) T).Nodup
            ∧ ∀ wr : Nat,
                (subscribers (run requests (initial_broker connections)) T).count wr ≤ 1 := by
  refine ⟨by decide, ?_⟩
  intro connections requests T _
  have h := (inv_run requests _ (inv_initial connections)).2 T
  exact ⟨h, fun wr => List.nodup_iff_count_le_one.1 h wr⟩

/-- C8, the code at the failing input: carol and then alice connect, name
themselves and subscribe to "news"; carol sends `unsub news`. The entry of
"news" then holds the node of alice alone, which `free(prev)` has released.
When alice, the only subscriber left, sends `unsub news`, the test of the head
in `handle_unsub` reads that node: whether the entry is removed is not
determined by the program.
In general, in every state of every execution from the empty registry in which
no linked node has been released, no node of the map stores a `NULL` chain, so
every topic that has an entry has a non-empty subscriber sequence; and when the
only subscriber of `T` unsubscribes (with either value of `countStat`),
`stringmap_search` finds nothing for `T`, `T` is no key of the map, and no
linked node is released. -/
theorem released_node_keeps_topic_entry :
    ("news" ∈ keys carol_left.info.sm
        ∧ stringmap_search carol_left.info.sm "news" = [alice]
        ∧ subscribers carol_left "news" = [alice_joined.1.client.toClient]
        ∧ ("news", alice) ∈ carol_left.released
        ∧ handle_unsub_reads alice_joined.1.client "news" carol_left = [alice])
      ∧ ∀ (connections : Nat) (requests : List Request),
          (run requests (initial_broker connections)).released = [] →
          (∀ n ∈ (run requests (initial_broker connections)).info.sm.root, n.item ≠ [])
            ∧ (∀ T ∈ keys (run requests (initial_broker connections)).info.sm,
                subscribers (run requests (initial_broker connections)) T ≠ [])
            ∧ ∀ (client : Client) (T : String) (countStat : Nat),
                client.name ≠ none → Valid T →
                subscribers (run requests (initial_broker connections)) T = [client.toClient] →
                stringmap_search
                    (handle_unsub client T (run requests (initial_broker connections))
                      countStat).info.sm T = []
                  ∧ T ∉ keys
                    (handle_unsub client T (run requests (initial_broker connections))
                      countStat).info.sm
                  ∧ (handle_unsub client T (run requests (initial_broker connections))
                      countStat).released = [] := by
  refine ⟨by decide, ?_⟩
  intro connections requests hrel
  have hinv := inv_run requests _ (inv_initial connections)
  refine ⟨hinv.1.2, ?_, ?_⟩
  · intro T hT h0
    have h1 : stringmap_search (run requests (initial_broker connections)).info.sm T = [] := by
      simpa [subscribers, streams] using h0
    exact (search_eq_nil_iff _ hinv.1 T).1 h1 hT
  · intro client T countStat hname hT hone
    have hwf1 := handle_unsub_wf client T _ countStat hinv.1
    have hhead : ∀ (temp : Client) (next : List Client),
        stringmap_search (run requests (initial_broker connections)).info.sm T = temp :: next →
        temp.toClient = client.toClient ∧ next = [] := by
      intro temp next hs
      unfold subscribers at hone
      rw [hs] at hone
      simp only [streams_cons, List.cons.injEq] at hone
      exact ⟨hone.1, by simpa [streams] using hone.2⟩
    have hnil : stringmap_search
        (handle_unsub client T (run requests (initial_broker connections)) countStat).info.sm
        T = [] := by
      rw [handle_unsub_search client T _ countStat hinv.1 hname hT T, if_pos rfl]
      cases hs : stringmap_search (run requests (initial_broker connections)).info.sm T with
      | nil => rfl
      | cons temp next =>
        obtain ⟨h1, h2⟩ := hhead temp next hs
        unfold unsub_chain
        simp [h1, h2]
    refine ⟨hnil, (search_eq_nil_iff _ hwf1 T).1 hnil, ?_⟩
    rw [handle_unsub_released_same client T _ countStat
      (fun temp next hs => Or.inl (hhead temp next hs).1)]
    exact hrel

/-- C9. No-op unsubscribe: for a named client and a valid topic `T` whose
subscriber sequence does not contain the client (`T` may have no entry at all),
`handle_unsub` with any `countStat` returns the broker as it was: the map, the
five counters, and nothing written. -/
theorem handle_unsub_absent_noop (b : Broker) (client : Client) (T : String)
    (countStat : Nat) (hname : client.name ≠ none) (hT : Valid T)
    (hnot : client.toClient ∉ subscribers b T) :
    handle_unsub client T b countStat = b := by
  have hc : check_spaces_colons_empty T = true := (check_eq_true_iff T).2 hT
  obtain ⟨nm, hnm⟩ := Option.ne_none_iff_exists'.1 hname
  unfold handle_unsub
  simp only [hc, hnm, Bool.not_true, Bool.false_eq_true, if_false]
  unfold subscribers at hnot
  cases hs : stringmap_search b.info.sm T with
  | nil => rfl
  | cons temp next =>
    rw [hs] at hnot
    have hh : ¬ temp.toClient = client.toClient := by
      intro e; apply hnot; simp [e]
    simp only [hh, if_false, (unlink_client_none_iff _ _).2 hnot]

/-- C9 at a concrete input: bob, who is subscribed to nothing, unsubscribes
from a topic with subscribers and from a topic without entry. -/
theorem handle_unsub_absent_noop_witness :
    bob.name ≠ none ∧ Valid "news" ∧ bob.toClient ∉ subscribers news_broker2 "news"
      ∧ handle_unsub bob "news" news_broker2 COUNT = news_broker2
      ∧ handle_unsub bob "sport" news_broker2 DONT_COUNT = news_broker2 :=
  ⟨by decide, by decide, by decide,
   handle_unsub_absent_noop news_broker2 bob "news" COUNT (by decide) (by decide) (by decide),
   handle_unsub_absent_noop news_broker2 bob "sport" DONT_COUNT (by decide) (by decide)
     (by decide)⟩

/-- C10. Rejection by `handle_pub`: for every client, named or not, and every
argument that contains no space, or whose part before the first space is empty
or contains a colon, or whose part after the first space is empty, `handle_pub`
writes `:invalid` to that client and nothing else, and leaves the map and the
five counters as they were. -/
theorem handle_pub_rejection (b : Broker) (client : Client) (topicAndValue : String)
    (h : ' ' ∉ topicAndValue.toList
      ∨ ∃ T V : String, topicAndValue = T ++ " " ++ V ∧ ' ' ∉ T.toList
          ∧ (T = "" ∨ ':' ∈ T.toList ∨ V = "")) :
    (handle_pub client topicAndValue b).sent = b.sent ++ [(client.toClient, ":invalid\n")]
      ∧ (handle_pub client topicAndValue b).info = b.info := by
  have hinv : handle_pub client topicAndValue b = print_invalid client b := by
    rcases h with h | ⟨T, V, rfl, hsp, hbad⟩
    · unfold handle_pub
      simp [split_by_char_of_not_mem _ h]
    · rw [handle_pub_two client T V b hsp]
      rcases hbad with h1 | h1 | h1
      · have : check_spaces_colons_empty T = false :=
          check_eq_false_of_not_valid T (fun hv => hv.1 h1)
        simp [this]
      · have : check_spaces_colons_empty T = false :=
          check_eq_false_of_not_valid T (fun hv => hv.2.2 h1)
        simp [this]
      · simp [h1]
  rw [hinv]
  exact ⟨rfl, rfl⟩

/-- C10 at a concrete input: the topic part of the argument has a colon. -/
theorem handle_pub_rejection_witness :
    (handle_pub bob "ne:ws hi" news_broker2).sent = [(6, ":invalid\n")]
      ∧ (handle_pub bob "ne:ws hi" news_broker2).info = news_broker2.info :=
  handle_pub_rejection news_broker2 bob "ne:ws hi"
    (Or.inr ⟨"ne:ws", "hi", by decide, by decide, Or.inr (Or.inl (by decide))⟩)

/-- C11. Name setting and immutability: `handle_name` with an invalid name
writes `:invalid` to the client and leaves the name; with a valid name it sets
the name of a client that has none and writes nothing, and leaves a client that
has a name as it is and writes nothing. Hence a name, once set, survives every
sequence of lines of the connection; after `name X` then `name Y` on a fresh
connection, and whatever lines follow, a publication of the client is written
to the subscribers with `X` in front. -/
theorem handle_name_immutable (b : Broker) (client : Client) (name : String) :
    (¬ Valid name → handle_name client name b = (client, print_invalid client b))
      ∧ (Valid name → client.name = none →
          handle_name client name b = ({ client with name := some name }, b))
      ∧ (Valid name → client.name ≠ none → handle_name client name b = (client, b))
      ∧ (∀ (h : Handler) (X : String) (lines : List String) (b0 : Broker),
          h.client.name = some X → (client_lines h lines b0).1.client.name = some X)
      ∧ (∀ (h : Handler) (X Y : String) (later : List String) (b0 : Broker) (T V : String),
          h.client.name = none → Valid X → Valid T → V ≠ "" →
          (client_lines h (("name" ++ " " ++ X) :: ("name" ++ " " ++ Y) :: later) b0).1.client.name
              = some X
            ∧ delivered
                (client_lines h (("name" ++ " " ++ X) :: ("name" ++ " " ++ Y) :: later) b0).2
                (client_line
                  (client_lines h (("name" ++ " " ++ X) :: ("name" ++ " " ++ Y) :: later) b0).1
                  ("pub" ++ " " ++ (T ++ " " ++ V))
                  (client_lines h (("name" ++ " " ++ X) :: ("name" ++ " " ++ Y) :: later) b0).2).2
              = (subscribers
                  (client_lines h (("name" ++ " " ++ X) :: ("name" ++ " " ++ Y) :: later) b0).2
                  T).map (fun wr => (wr, X ++ ":" ++ T ++ ":" ++ V ++ "\n"))) := by
  refine ⟨?_, ?_, ?_, ?_, ?_⟩
  · intro hv
    unfold handle_name
    simp [check_eq_false_of_not_valid name hv]
  · intro hv hn
    unfold handle_name
    simp [(check_eq_true_iff name).2 hv, hn]
  · intro hv hn
    obtain ⟨nm, hnm⟩ := Option.ne_none_iff_exists'.1 hn
    unfold handle_name
    simp [(check_eq_true_iff name).2 hv, hnm]
  · intro h X lines b0 hX
    exact client_lines_name h X lines b0 hX
  · intro h X Y later b0 T V hnone hX hT hV
    have h1 : (client_line h ("name" ++ " " ++ X) b0).1.client.name = some X := by
      rw [client_line_two h "name" X b0 (by decide)]
      simp [handle_name, (check_eq_true_iff X).2 hX, hnone]
    have hname : (client_lines h (("name" ++ " " ++ X) :: ("name" ++ " " ++ Y) :: later)
        b0).1.client.name = some X := by
      rw [client_lines_cons]
      exact client_lines_name _ X _ _ h1
    refine ⟨hname, ?_⟩
    generalize client_lines h (("name" ++ " " ++ X) :: ("name" ++ " " ++ Y) :: later) b0 = r
      at hname
    rw [client_line_two r.1 "pub" (T ++ " " ++ V) r.2 (by decide)]
    have hpub := handle_pub_two r.1.client T V r.2 hT.2.1
    simp only [(check_eq_true_iff T).2 hT, hV, hname, Bool.not_true, Bool.false_or,
      decide_False, Bool.false_eq_true, if_false] at hpub
    have hd : ("pub" : String) ≠ "name" ∧ ("pub" : String) ≠ "sub"
        ∧ ("pub" : String) ≠ "unsub" := by decide
    simp only [hd.1, hd.2.1, hd.2.2, if_false, if_true]
    rw [hpub]
    unfold delivered subscribers streams
    simp [List.map_map, Function.comp_def]

/-- C11 at a concrete input: a fresh connection sends `name alice`, then
`name mallory`, subscribes to "news" and publishes to it. -/
theorem handle_name_immutable_witness :
    (client_start 4 5 (initial_broker 0)).1.client.name = none
      ∧ Valid "alice" ∧ Valid "news" ∧ "hi" ≠ ""
      ∧ (client_lines (client_start 4 5 (initial_broker 0)).1
          (("name" ++ " " ++ "alice") :: ("name" ++ " " ++ "mallory") :: ["sub news"])
          (initial_broker 0)).1.client.name = some "alice"
      ∧ handle_name alice "mallory" news_broker = (alice, news_broker) :=
  ⟨by decide, by decide, by decide, by decide,
   ((handle_name_immutable (initial_broker 0) alice "x").2.2.2.2
      (client_start 4 5 (initial_broker 0)).1 "alice" "mallory" ["sub news"] (initial_broker 0)
      "news" "hi" (by decide) (by decide) (by decide) (by decide)).1,
   (handle_name_immutable news_broker alice "mallory").2.2.1 (by decide) (by decide)⟩

/-- C12. Unnamed clients are silently dropped: for a client with no name, a
`sub` or `unsub` on a valid topic and a `pub` on a valid topic with a non-empty
value return the client, the buffer size and the broker as they were (nothing
written to any stream; map, counters and tracked topics unchanged); whereas a
`sub` or `unsub` on an invalid topic and a `pub` on an invalid argument write
`:invalid` to the client, although no name is set, and change nothing else. -/
theorem unnamed_client_dropped (b : Broker) (client : Client) (T V : String)
    (bufferSize : Nat) (hname : client.name = none) (hT : Valid T) (hV : V ≠ "") :
    handle_sub client T b bufferSize = (client, bufferSize, b)
      ∧ (∀ countStat : Nat, handle_unsub client T b countStat = b)
      ∧ handle_pub client (T ++ " " ++ V) b = b
      ∧ (∀ U : String, ¬ Valid U →
          handle_sub client U b bufferSize
              = (client, bufferSize,
                  { b with sent := b.sent ++ [(client.toClient, ":invalid\n")] })
            ∧ ∀ countStat : Nat, handle_unsub client U b countStat
              = { b with sent := b.sent ++ [(client.toClient, ":invalid\n")] })
      ∧ (∀ arg : String,
          (' ' ∉ arg.toList
            ∨ ∃ T1 V1 : String, arg = T1 ++ " " ++ V1 ∧ ' ' ∉ T1.toList
                ∧ (¬ Valid T1 ∨ V1 = "")) →
          handle_pub client arg b
            = { b with sent := b.sent ++ [(client.toClient, ":invalid\n")] }) := by
  have hc : check_spaces_colons_empty T = true := (check_eq_true_iff T).2 hT
  refine ⟨?_, ?_, ?_, ?_, ?_⟩
  · unfold handle_sub
    simp [hc, hname]
  · intro countStat
    unfold handle_unsub
    simp [hc, hname]
  · rw [handle_pub_two client T V b hT.2.1]
    simp [hc, hV, hname]
  · intro U hU
    have hcU := check_eq_false_of_not_valid U hU
    refine ⟨?_, ?_⟩
    · unfold handle_sub
      simp [hcU, print_invalid]
    · intro countStat
      unfold handle_unsub
      simp [hcU, print_invalid]
  · intro arg harg
    rcases harg with h | ⟨T1, V1, rfl, hsp, hbad⟩
    · unfold handle_pub
      simp [split_by_char_of_not_mem _ h, print_invalid]
    · rw [handle_pub_two client T1 V1 b hsp]
      rcases hbad with h1 | h1
      · simp [check_eq_false_of_not_valid T1 h1, print_invalid]
      · simp [h1, print_invalid]

/-- C12 at a concrete input: a client without a name subscribes to "news",
and to a topic with a colon. -/
theorem unnamed_client_dropped_witness :
    (client_start 4 5 news_broker).1.client.name = none ∧ Valid "news" ∧ "hi" ≠ ""
      ∧ handle_pub (client_start 4 5 news_broker).1.client ("news" ++ " " ++ "hi") news_broker
          = news_broker
      ∧ (handle_sub (client_start 4 5 news_broker).1.client "ne:ws" news_broker 3).2.2.sent
          = [(4, ":invalid\n")] :=
  ⟨by decide, by decide, by decide,
   (unnamed_client_dropped news_broker (client_start 4 5 news_broker).1.client "news" "hi" 3
      (by decide) (by decide) (by decide)).2.2.1,
   congrArg (fun r => r.2.2.sent)
     (((unnamed_client_dropped news_broker (client_start 4 5 news_broker).1.client "news" "hi" 3
      (by decide) (by decide) (by decide)).2.2.2.1 "ne:ws" (by decide)).1)⟩

/-- C13. Dispatch of malformed lines: for a line without a space (no second
token), a line whose part before the first space is none of `name`, `sub`,
`unsub`, `pub`, and a line with nothing after its first space, one iteration of
the loop of `client_thread` writes `:invalid` to the sender and leaves the
local state of the thread (name, tracked topics) and the map and counters as
they were; the loop goes on with the next line. -/
theorem client_line_malformed (h : Handler) (line : String) (b : Broker)
    (hline : ' ' ∉ line.toList
      ∨ ∃ command arg : String, line = command ++ " " ++ arg ∧ ' ' ∉ command.toList
          ∧ ((command ≠ "name" ∧ command ≠ "sub" ∧ command ≠ "unsub" ∧ command ≠ "pub")
              ∨ arg = "")) :
    client_line h line b
        = (h, { b with sent := b.sent ++ [(h.client.toClient, ":invalid\n")] })
      ∧ (client_line h line b).2.info = b.info
      ∧ ∀ rest : List String, client_lines h (line :: rest) b
          = client_lines h rest { b with sent := b.sent ++ [(h.client.toClient, ":invalid\n")] } := by
  have hmain : client_line h line b
      = (h, { b with sent := b.sent ++ [(h.client.toClient, ":invalid\n")] }) := by
    rcases hline with hsp | ⟨command, arg, rfl, hsp, hbad⟩
    · rw [client_line_one h line b hsp]; rfl
    · rw [client_line_two h command arg b hsp]
      rcases hbad with ⟨h1, h2, h3, h4⟩ | harg
      · simp [h1, h2, h3, h4, print_invalid]
      · subst harg
        have hc : check_spaces_colons_empty "" = false := by decide
        have hpub : handle_pub h.client "" b = print_invalid h.client b := by
          unfold handle_pub
          simp [split_by_char_of_not_mem "" (by decide)]
        by_cases c1 : command = "name"
        · simp [c1, handle_name, hc, print_invalid]
        · by_cases c2 : command = "sub"
          · simp [c2, handle_sub, hc, print_invalid]
          · by_cases c3 : command = "unsub"
            · simp [c3, handle_unsub, hc, print_invalid]
            · by_cases c4 : command = "pub"
              · simp [c4, hpub, print_invalid]
              · simp [c1, c2, c3, c4, print_invalid]
  refine ⟨hmain, ?_, ?_⟩
  · rw [hmain]
  · intro rest
    rw [client_lines_cons, hmain]

/-- C13 at a concrete input: the line `publish news hi` has an unknown first
token. -/
theorem client_line_malformed_witness :
    client_line ⟨alice, 3⟩ "publish news hi" news_broker
        = (⟨alice, 3⟩, { news_broker with sent := news_broker.sent ++ [(4, ":invalid\n")] })
      ∧ client_line ⟨alice, 3⟩ "sub" news_broker
        = (⟨alice, 3⟩, { news_broker with sent := news_broker.sent ++ [(4, ":invalid\n")] }) :=
  ⟨(client_line_malformed ⟨alice, 3⟩ "publish news hi" news_broker
      (Or.inr ⟨"publish", "news hi", by decide, by decide,
        Or.inl ⟨by decide, by decide, by decide, by decide⟩⟩)).1,
   (client_line_malformed ⟨alice, 3⟩ "sub" news_broker (Or.inl (by decide))).1⟩

/-- C14, the claim fails: the publish counter is at `INT_MAX`; alice publishes
to "news". The count is then 2147483648, which the `int` variable holds as
-2147483648, below what it held before. -/
theorem counter_overflows_at_int_max :
    alice.name = some "alice" ∧ Valid "news"
      ∧ InRange full_broker
      ∧ full_broker.info.totalPub = 2147483647
      ∧ c_int full_broker.info.totalPub = 2147483647
      ∧ (handle_pub alice "news hi" full_broker).info.totalPub = 2147483648
      ∧ c_int (handle_pub alice "news hi" full_broker).info.totalPub = -2147483648
      ∧ ¬ c_int full_broker.info.totalPub
          ≤ c_int (handle_pub alice "news hi" full_broker).info.totalPub
      ∧ ¬ StoredGrow full_broker (handle_pub alice "news hi" full_broker) := by
  decide

/-- C14 as amended. Counter monotonicity below `INT_MAX`: from every broker
state (its counters are values of `int`), the start of a connection,
`handle_name`, `handle_sub`, `handle_unsub` (either `countStat`), `handle_pub`,
any line through the loop of `client_thread`, the statistics report and
`clean_up_client` leave the completed-connection, publish, subscribe and
unsubscribe counters, as the `int` variables hold them, the same or greater,
provided the counter that the operation increments is below `INT_MAX`; so does
every event of the broker, and every sequence of events at whose end the four
totals counted are still values of `int`. The current-connection counter is not
lowered by any of them but `clean_up_client`, which lowers it by exactly 1
(from above `INT_MIN`); the start of a connection raises it, from below
`INT_MAX`. -/
theorem counters_monotone (b : Broker) (hb : InRange b) :
    (∀ wr rd : Nat, StoredGrow b (client_start wr rd b).2
        ∧ (b.info.currentConnections < INT_MAX →
            c_int b.info.currentConnections
              ≤ c_int (client_start wr rd b).2.info.currentConnections))
      ∧ (∀ (client : Client) (name : String), StoredGrow b (handle_name client name b).2
        ∧ c_int b.info.currentConnections
            ≤ c_int (handle_name client name b).2.info.currentConnections)
      ∧ (∀ (client : Client) (T : String) (bufferSize : Nat),
        (b.info.totalSub < INT_MAX → StoredGrow b (handle_sub client T b bufferSize).2.2)
        ∧ c_int b.info.currentConnections
            ≤ c_int (handle_sub client T b bufferSize).2.2.info.currentConnections)
      ∧ (∀ (client : Client) (T : String) (countStat : Nat),
        (b.info.totalUnsub < INT_MAX → StoredGrow b (handle_unsub client T b countStat))
        ∧ c_int b.info.currentConnections
            ≤ c_int (handle_unsub client T b countStat).info.currentConnections)
      ∧ (∀ (client : Client) (topicAndValue : String),
        (b.info.totalPub < INT_MAX → StoredGrow b (handle_pub client topicAndValue b))
        ∧ c_int b.info.currentConnections
            ≤ c_int (handle_pub client topicAndValue b).info.currentConnections)
      ∧ (∀ (h : Handler) (line : String),
        (b.info.totalPub < INT_MAX → b.info.totalSub < INT_MAX →
            b.info.totalUnsub < INT_MAX → StoredGrow b (client_line h line b).2)
        ∧ c_int b.info.currentConnections
            ≤ c_int (client_line h line b).2.info.currentConnections)
      ∧ (StoredGrow b (sig_thread b)
        ∧ c_int b.info.currentConnections ≤ c_int (sig_thread b).info.currentConnections)
      ∧ (∀ client : Client,
        (b.info.totalConnections < INT_MAX → StoredGrow b (clean_up_client client b))
        ∧ (INT_MIN < b.info.currentConnections →
            c_int (clean_up_client client b).info.currentConnections
              = c_int b.info.currentConnections - 1))
      ∧ (∀ (s : Server) (e : Event), s.broker = b →
        b.info.totalConnections < INT_MAX → b.info.totalPub < INT_MAX →
        b.info.totalSub < INT_MAX → b.info.totalUnsub < INT_MAX →
        StoredGrow b (s.step e).broker)
      ∧ (∀ (s : Server) (events : List Event), s.broker = b →
        TotalsInRange (Server.run events s).broker →
        StoredGrow b (Server.run events s).broker) := by
  have hcur : ∀ b1 : Broker, b1.info.currentConnections = b.info.currentConnections →
      c_int b.info.currentConnections ≤ c_int b1.info.currentConnections := by
    intro b1 h
    rw [h]
  refine ⟨?_, ?_, ?_, ?_, ?_, ?_, ?_, ?_, ?_, ?_⟩
  · intro wr rd
    refine ⟨stored_of_step b _ hb (step_client_start wr rd b) (Or.inl rfl) (Or.inl rfl)
      (Or.inl rfl) (Or.inl rfl), ?_⟩
    intro hlt
    refine c_int_le_of_step _ _ hb.1.1 hb.1.2 ?_ ?_ (Or.inr hlt)
    · simp [client_start]
    · simp [client_start]
  · intro client name
    obtain ⟨_, a2, a3, a4, a5, a6⟩ := same_handle_name client name b
    exact ⟨stored_of_step b _ hb (step_of_same _ _ (same_handle_name client name b))
      (Or.inl a3) (Or.inl a4) (Or.inl a5) (Or.inl a6), hcur _ a2⟩
  · intro client T bufferSize
    obtain ⟨_, a2, a3, a4, _, a6⟩ := handle_sub_counters client T b bufferSize
    exact ⟨fun hlt => stored_of_step b _ hb (step_handle_sub client T b bufferSize)
      (Or.inl a3) (Or.inl a4) (Or.inr hlt) (Or.inl a6), hcur _ a2⟩
  · intro client T countStat
    obtain ⟨_, a2, a3, a4, a5, _⟩ := handle_unsub_counters client T b countStat
    exact ⟨fun hlt => stored_of_step b _ hb (step_handle_unsub client T b countStat)
      (Or.inl a3) (Or.inl a4) (Or.inl a5) (Or.inr hlt), hcur _ a2⟩
  · intro client topicAndValue
    obtain ⟨_, a2, a3, _, a5, a6⟩ := handle_pub_counters client topicAndValue b
    exact ⟨fun hlt => stored_of_step b _ hb (step_handle_pub client topicAndValue b)
      (Or.inl a3) (Or.inr hlt) (Or.inl a5) (Or.inl a6), hcur _ a2⟩
  · intro h line
    obtain ⟨_, a2, a3, _, _, _⟩ := frame_client_line h line b
    exact ⟨fun hp hsub hu => stored_of_step b _ hb (step_client_line h line b)
      (Or.inl a3) (Or.inr hp) (Or.inr hsub) (Or.inr hu), hcur _ a2⟩
  · exact ⟨stored_of_step b _ hb (step_of_same _ _ ⟨rfl, rfl, rfl, rfl, rfl, rfl⟩)
      (Or.inl rfl) (Or.inl rfl) (Or.inl rfl) (Or.inl rfl), le_refl _⟩
  · intro client
    obtain ⟨_, a2, _, a4, a5, a6⟩ := clean_up_client_counters client b
    refine ⟨fun hlt => stored_of_step b _ hb (step_clean_up_client client b)
      (Or.inr hlt) (Or.inl a4) (Or.inl a5) (Or.inl a6), ?_⟩
    intro hgt
    rw [a2, c_int_of_range _ hb.1.1 hb.1.2,
      c_int_of_range _ (by unfold INT_MIN at *; omega) (by have := hb.1.2; omega)]
  · intro s e hs ht hp hsub hu
    subst hs
    exact stored_of_step _ _ hb (step_server_step s e) (Or.inr ht) (Or.inr hp) (Or.inr hsub)
      (Or.inr hu)
  · intro s events hs hfin
    subst hs
    exact stored_of_grow _ _ hb.2 hfin (grow_run events s)

/-- C14 as amended, at a concrete input: on a broker with counters of several
digits alice publishes, and a connection ends. -/
theorem counters_monotone_witness :
    InRange busy_broker ∧ busy_broker.info.totalPub < INT_MAX
      ∧ StoredGrow busy_broker (handle_pub alice "news hi" busy_broker)
      ∧ c_int (handle_pub alice "news hi" busy_broker).info.totalPub = 4097
      ∧ INT_MIN < busy_broker.info.currentConnections
      ∧ c_int (clean_up_client alice busy_broker).info.currentConnections
          = c_int busy_broker.info.currentConnections - 1
      ∧ c_int (clean_up_client alice busy_broker).info.currentConnections = 11 :=
  ⟨by decide, by decide,
   ((counters_monotone busy_broker (by decide)).2.2.2.2.1 alice "news hi").1 (by decide),
   by decide, by decide,
   ((counters_monotone busy_broker (by decide)).2.2.2.2.2.2.2.1 alice).2 (by decide),
   by decide⟩

/-- C15. Counter effect of the cleanup: for every broker state and every client,
whatever its tracked topics are, `clean_up_client` lowers the current-connection
counter by exactly 1, raises the completed-connection counter by exactly 1 and
leaves the publish, subscribe and unsubscribe counters. -/
theorem clean_up_client_counter_effect (b : Broker) (client : Client) :
    (clean_up_client client b).info.currentConnections = b.info.currentConnections - 1
      ∧ (clean_up_client client b).info.totalConnections = b.info.totalConnections + 1
      ∧ (clean_up_client client b).info.totalPub = b.info.totalPub
      ∧ (clean_up_client client b).info.totalSub = b.info.totalSub
      ∧ (clean_up_client client b).info.totalUnsub = b.info.totalUnsub :=
  (clean_up_client_counters client b).2

/-- C16. Validity predicates: `check_spaces_colons_empty` of the broker accepts
a string exactly when it is non-empty and has no space and no colon;
`check_spaces_colons_newlines_empty` of the client accepts a string exactly when
it is non-empty and has no space, no colon and no newline. -/
theorem validity_predicates (s : String) :
    (check_spaces_colons_empty s = true
        ↔ s ≠ "" ∧ ' ' ∉ s.toList ∧ ':' ∉ s.toList)
      ∧ (check_spaces_colons_newlines_empty s = true
        ↔ s ≠ "" ∧ ' ' ∉ s.toList ∧ ':' ∉ s.toList ∧ '\n' ∉ s.toList) := by
  refine ⟨check_eq_true_iff s, ?_⟩
  unfold check_spaces_colons_newlines_empty
  by_cases h1 : s = "" <;> by_cases h2 : ' ' ∈ s.toList <;> by_cases h3 : ':' ∈ s.toList <;>
    by_cases h4 : '\n' ∈ s.toList <;> simp [h1, h2, h3, h4, and_assoc]

/-- C17. Statistics report: one trigger of the reporter writes to `stderr`, in
one write, the five lines `Connected clients:`, `Completed clients:`,
`pub operations:`, `sub operations:`, `unsub operations:`, in that order, each
followed by the decimal text of its counter and a newline; the map and the
counters are left as they were. The decimal text is the digits in base 10, after
a minus sign for a negative number. -/
theorem sig_thread_report (b : Broker) :
    (sig_thread b).sent = b.sent ++ [(stderr, String.join (List.map (fun l => l ++ "\n")
        [ "Connected clients:" ++ toString b.info.currentConnections,
          "Completed clients:" ++ toString b.info.totalConnections,
          "pub operations:" ++ toString b.info.totalPub,
          "sub operations:" ++ toString b.info.totalSub,
          "unsub operations:" ++ toString b.info.totalUnsub ]))]
      ∧ (sig_thread b).info = b.info
      ∧ (∀ n : Nat, toString (Int.ofNat n) = String.mk (Nat.toDigits 10 n))
      ∧ (∀ n : Nat, toString (Int.negSucc n) = "-" ++ String.mk (Nat.toDigits 10 (n + 1))) := by
  refine ⟨?_, rfl, fun _ => rfl, fun _ => rfl⟩
  unfold sig_thread
  simp only [List.map, String.join, List.foldl]
  congr 3
  apply String.ext
  simp [String.data_append, List.append_assoc]

/-- C17 at a concrete input: counters of several digits. -/
theorem sig_thread_report_witness :
    (sig_thread busy_broker).sent
        = [(2, "Connected clients:12\nCompleted clients:305\npub operations:4096\n"
              ++ "sub operations:70\nunsub operations:9\n")]
      ∧ (sig_thread busy_broker).info = busy_broker.info := by
  have h := sig_thread_report busy_broker
  refine ⟨?_, h.2.1⟩
  rw [h.1]
  decide

/-- C18, the claim fails: `main` accepts the connection limit 4294967297, a
`long`; `sem_init` takes it as the `unsigned int` 1, so the semaphore starts at
1. Before any connection the live threads and the free units add up to 1, not
to the limit, and a second connection is not served while the first is live. -/
theorem admission_limit_truncated :
    init_thread_lock 4294967297 = some 1
      ∧ (initial_server 4294967297).connections = 4294967297
      ∧ (initial_server 4294967297).broker.info.threadLock = 1
      ∧ (Server.run [] (initial_server 4294967297)).threads.length
          + (Server.run [] (initial_server 4294967297)).broker.info.threadLock
          ≠ 4294967297
      ∧ (Server.run [Event.accept 4 5, Event.accept 6 7]
          (initial_server 4294967297)).threads.length = 1
      ∧ (Server.run [Event.accept 4 5, Event.accept 6 7]
          (initial_server 4294967297)).broker.info.threadLock = 0 := by
  decide

/-- C18 as amended. Admission bound: with a connection limit `N > 0` that does
not exceed `SEM_VALUE_MAX`, in every state the broker reaches from its start by
any sequence of events (the listener takes one unit of the semaphore and
creates a thread, or waits when no unit is free; a thread handles a line; a
thread reads end of file, cleans up and returns), the live threads and the free
units add up to `N`, so at most `N` threads are live. A thread that ends gives
back exactly one unit and is no longer live, no event changes the semaphore in
between, and a thread as a whole, from its start over any lines to its cleanup,
raises the semaphore by exactly 1. With no free unit the step of the listener
changes nothing. -/
theorem admission_bound (N : Nat) (hN : 0 < N) (hmax : N ≤ SEM_VALUE_MAX)
    (events : List Event) :
    (initial_server N).broker.info.threadLock = N
      ∧ (Server.run events (initial_server N)).threads.length
        + (Server.run events (initial_server N)).broker.info.threadLock = N
      ∧ (Server.run events (initial_server N)).threads.length ≤ N
      ∧ (∀ (i : Nat) (h : Handler),
          (Server.run events (initial_server N)).threads[i]? = some h →
          ((Server.run events (initial_server N)).step (Event.eof i)).broker.info.threadLock
              = (Server.run events (initial_server N)).broker.info.threadLock + 1
            ∧ ((Server.run events (initial_server N)).step (Event.eof i)).threads.length + 1
              = (Server.run events (initial_server N)).threads.length)
      ∧ (∀ (i : Nat) (text : String),
          ((Server.run events (initial_server N)).step (Event.line i text)).broker.info.threadLock
            = (Server.run events (initial_server N)).broker.info.threadLock)
      ∧ (∀ wr rd : Nat, (Server.run events (initial_server N)).broker.info.threadLock = 0 →
          (Server.run events (initial_server N)).step (Event.accept wr rd)
            = Server.run events (initial_server N))
      ∧ ∀ (wr rd : Nat) (lines : List String) (b : Broker),
          (client_thread wr rd lines b).info.threadLock = b.info.threadLock + 1 := by
  have h0 : (initial_server N).broker.info.threadLock = N := by
    simp [initial_server, initial_broker, init_thread_lock_of_le N hmax]
  have hinv := admission_run N hN events _ (admission_initial N hmax)
  generalize Server.run events (initial_server N) = s at hinv
  obtain ⟨hc, hsum⟩ := hinv
  refine ⟨h0, hsum, by omega, ?_, ?_, ?_, ?_⟩
  · intro i h hi
    obtain ⟨hlt, _⟩ := List.getElem?_eq_some.1 hi
    simp only [Server.step, hi, List.length_eraseIdx, hlt, if_true]
    exact ⟨(clean_up_client_counters _ _).1, by omega⟩
  · intro i text
    simp only [Server.step]
    split
    · rfl
    · exact (frame_client_line _ _ _).1
  · intro wr rd h0
    have hpos : s.connections > 0 := by rw [hc]; exact hN
    simp [Server.step, process_connections_loop, hpos, take_lock, h0]
  · intro wr rd lines b
    exact client_thread_threadLock wr rd lines b

/-- C18 as amended, at concrete inputs: with the limit 1, a second connection is
not served while the first is live, and is served once the first has ended;
the largest limit, `SEM_VALUE_MAX`, is the value of the semaphore at the
start. -/
theorem admission_bound_witness :
    (0 : Nat) < 1 ∧ 1 ≤ SEM_VALUE_MAX
      ∧ (Server.run [Event.accept 4 5, Event.accept 6 7] (initial_server 1)).threads.length
          + (Server.run [Event.accept 4 5, Event.accept 6 7]
              (initial_server 1)).broker.info.threadLock = 1
      ∧ (Server.run [Event.accept 4 5, Event.accept 6 7] (initial_server 1)).threads.length = 1
      ∧ (Server.run [Event.accept 4 5, Event.accept 6 7, Event.eof 0, Event.accept 6 7]
          (initial_server 1)).threads.map (fun h => h.client.toClient) = [6]
      ∧ (initial_server SEM_VALUE_MAX).broker.info.threadLock = SEM_VALUE_MAX :=
  ⟨by decide, by decide,
   (admission_bound 1 (by decide) (by decide) [Event.accept 4 5, Event.accept 6 7]).2.1,
   by decide, by decide,
   (admission_bound SEM_VALUE_MAX (by decide) (le_refl _) []).1⟩

/-- C19, the claim fails: alice has named herself and subscribed to "news",
which is in her tracked list; after the loop of `client_thread` has handled
`unsub news`, the registry has no subscriber of "news" left, and "news" is
still in her tracked list. -/
theorem unsub_leaves_topic_tracked :
    alice_session.1.client.name ≠ none
      ∧ "news" ∈ alice_session.1.client.subbedTopics
      ∧ subscribers (client_line alice_session.1 "unsub news" alice_session.2).2 "news" = []
      ∧ "news" ∈ (client_line alice_session.1 "unsub news" alice_session.2).1.client.subbedTopics := by
  decide

/-- C19 as amended: an `unsub` command leaves the local state of the thread as
it was, the tracked list and `subCount` included, so a tracked topic stays
tracked; all the command does is `handle_unsub` with `countStat = COUNT` on the
registry. -/
theorem unsub_keeps_tracked_list (h : Handler) (T : String) (b : Broker) :
    (client_line h ("unsub" ++ " " ++ T) b).1 = h
      ∧ (client_line h ("unsub" ++ " " ++ T) b).2 = handle_unsub h.client T b COUNT
      ∧ (client_line h ("unsub" ++ " " ++ T) b).1.client.subbedTopics = h.client.subbedTopics
      ∧ (T ∈ h.client.subbedTopics →
          T ∈ (client_line h ("unsub" ++ " " ++ T) b).1.client.subbedTopics) := by
  have hl : client_line h ("unsub" ++ " " ++ T) b = (h, handle_unsub h.client T b COUNT) := by
    rw [client_line_two h "unsub" T b (by decide)]
    have hd : ("unsub" : String) ≠ "name" ∧ ("unsub" : String) ≠ "sub" := by decide
    simp only [hd.1, hd.2, if_false, if_true]
  rw [hl]
  exact ⟨rfl, rfl, rfl, fun hm => hm⟩

/-- C20, the claim fails: a fresh connection sends `name alice`, `sub news`,
`unsub news`, `sub news`; its tracked list is then "news" twice, `subCount` is
2 and the list has one distinct topic. -/
theorem resubscribe_duplicates_tracked_topic :
    resubscribed.1.client.subbedTopics = ["news", "news"]
      ∧ ¬ resubscribed.1.client.subbedTopics.Nodup
      ∧ resubscribed.1.client.subCount = 2
      ∧ resubscribed.1.client.subbedTopics.dedup.length = 1 := by
  decide

/-- C20 as amended. In every state of every execution of the broker, `subCount`
of every live thread is the number of entries of its tracked list. A `sub`
command that inserts the client (the client has a name, the topic `T` is valid
and the client is not in the sequence of `T`) records `T` at the end of the
tracked list and raises `subCount` by 1; no other line changes the list, so a
list without duplicates gets one exactly when a line inserts the client for a
topic that is in the list already. The lines that insert are the `sub T` with
the client not in the sequence of `T`, the lines that remove are the `unsub T`
with the client in it. Hence, for a connection that is served alone, on a
stream that is in no sequence when it starts, on a broker satisfying the
registry invariant: after any lines the tracked list has no topic twice if and
only if no line has inserted the client for a topic from which an earlier
`unsub` had removed it; a topic is recorded once for every removal and once
more when the client is in its sequence; and no linked node has been released,
so every `unsub` has met the client at the head. -/
theorem tracked_list_entries :
    (∀ (N : Nat) (events : List Event), ∀ h ∈ (Server.run events (initial_server N)).threads,
        h.client.subCount = h.client.subbedTopics.length)
      ∧ (∀ (h : Handler) (T : String) (b : Broker),
          h.client.subCount = h.client.subbedTopics.length → b.info.sm.WF →
          h.client.name ≠ none → Valid T → h.client.toClient ∉ subscribers b T →
          (client_line h ("sub" ++ " " ++ T) b).1.client.subbedTopics
              = h.client.subbedTopics ++ [T]
            ∧ (client_line h ("sub" ++ " " ++ T) b).1.client.subCount = h.client.subCount + 1
            ∧ subscribers (client_line h ("sub" ++ " " ++ T) b).2 T
              = h.client.toClient :: subscribers b T)
      ∧ (∀ (h : Handler) (line : String) (b : Broker),
          h.client.subCount = h.client.subbedTopics.length →
          (∀ T : String, inserted_topic h line b = some T →
              (client_line h line b).1.client.subbedTopics = h.client.subbedTopics ++ [T])
            ∧ (inserted_topic h line b = none →
              (client_line h line b).1.client.subbedTopics = h.client.subbedTopics)
            ∧ ((client_line h line b).1.client.subbedTopics.Nodup
                ↔ h.client.subbedTopics.Nodup
                  ∧ ∀ T : String, inserted_topic h line b = some T →
                      T ∉ h.client.subbedTopics))
      ∧ (∀ (h : Handler) (T : String) (b : Broker), h.client.name ≠ none → Valid T →
          (h.client.toClient ∉ subscribers b T →
              inserted_topic h ("sub" ++ " " ++ T) b = some T
                ∧ removed_topic h ("unsub" ++ " " ++ T) b = none)
            ∧ (h.client.toClient ∈ subscribers b T →
              inserted_topic h ("sub" ++ " " ++ T) b = none
                ∧ removed_topic h ("unsub" ++ " " ++ T) b = some T)
            ∧ inserted_topic h ("unsub" ++ " " ++ T) b = none
            ∧ removed_topic h ("sub" ++ " " ++ T) b = none)
      ∧ ∀ (wr rd : Nat) (b : Broker) (lines : List String), Inv b →
          (∀ T : String, wr ∉ subscribers b T) →
          ((client_lines (client_start wr rd b).1 lines
                (client_start wr rd b).2).1.client.subbedTopics.Nodup
              ↔ no_resubscribe (client_start wr rd b).1 (client_start wr rd b).2 [] lines = true)
            ∧ (∀ T : String,
                (client_lines (client_start wr rd b).1 lines
                    (client_start wr rd b).2).1.client.subbedTopics.count T
                  = (unsubscribed (client_start wr rd b).1 (client_start wr rd b).2 []
                      lines).count T
                    + (if wr ∈ subscribers
                          (client_lines (client_start wr rd b).1 lines (client_start wr rd b).2).2 T
                        then 1 else 0))
            ∧ (client_lines (client_start wr rd b).1 lines (client_start wr rd b).2).1.client.subCount
              = (client_lines (client_start wr rd b).1 lines
                  (client_start wr rd b).2).1.client.subbedTopics.length
            ∧ (client_lines (client_start wr rd b).1 lines (client_start wr rd b).2).2.released
              = b.released := by
  refine ⟨?_, ?_, ?_, ?_, ?_⟩
  · intro N events
    apply server_run_subCount
    intro h hh
    simp [initial_server] at hh
  · intro h T b hh hwf hn hT hnot
    have hd : ("sub" : String) ≠ "name" := by decide
    rw [client_line_two h "sub" T b (by decide)]
    simp only [hd, if_false, if_true]
    rw [handle_sub_result h.client T b h.bufferSize hn hT, if_neg hnot]
    refine ⟨?_, rfl, ?_⟩
    · simp [add_subscribed_topic, hh]
    · unfold subscribers
      rw [handle_sub_search h.client T b h.bufferSize hwf hn hT T, if_pos ⟨rfl, hnot⟩]
      rfl
  · intro h line b hh
    have htr := client_line_tracked h line b hh
    refine ⟨?_, ?_, ?_⟩
    · intro T hi
      rw [htr, hi]
      rfl
    · intro hi
      rw [htr, hi]
      simp
    · rw [htr]
      cases inserted_topic h line b with
      | none => simp
      | some T0 =>
        simp only [Option.toList_some, Option.some.injEq, forall_eq']
        rw [List.nodup_append]
        constructor
        · intro hnd
          exact ⟨hnd.1, fun hm => hnd.2.2 hm (List.mem_singleton_self _)⟩
        · intro hnd
          refine ⟨hnd.1, List.nodup_singleton _, ?_⟩
          intro a ha hb
          simp only [List.mem_singleton] at hb
          subst hb
          exact hnd.2 ha
  · intro h T b hn hT
    have hs0 : (split_by_char ("sub" ++ " " ++ T) ' ' TWO_TOKENS)[0]? = some "sub" := by
      rw [split_by_char_two "sub" T (by decide)]
      rfl
    have hs1 : (split_by_char ("sub" ++ " " ++ T) ' ' TWO_TOKENS)[1]? = some T := by
      rw [split_by_char_two "sub" T (by decide)]
      rfl
    have hu0 : (split_by_char ("unsub" ++ " " ++ T) ' ' TWO_TOKENS)[0]? = some "unsub" := by
      rw [split_by_char_two "unsub" T (by decide)]
      rfl
    have hu1 : (split_by_char ("unsub" ++ " " ++ T) ' ' TWO_TOKENS)[1]? = some T := by
      rw [split_by_char_two "unsub" T (by decide)]
      rfl
    obtain ⟨_, a2, _, a4, _⟩ := topics_of_command h ("sub" ++ " " ++ T) b "sub" T hs0 hs1
    obtain ⟨c1, _, _, _, c5⟩ := topics_of_command h ("unsub" ++ " " ++ T) b "unsub" T hu0 hu1
    exact ⟨fun hm => ⟨(a4 rfl hT hn).2 hm, (c5 rfl hT hn).2 hm⟩,
      fun hm => ⟨(a4 rfl hT hn).1 hm, (c5 rfl hT hn).1 hm⟩,
      c1 (by decide), a2 (by decide)⟩
  · intro wr rd b lines hinv hfresh
    have hinv0 : Inv (client_start wr rd b).2 := inv_of_sm_eq _ _ rfl hinv
    obtain ⟨⟨l1, _, l3⟩, r2, r3⟩ := ledger_client_lines lines _ _ []
      hinv0 (ledger_client_start wr rd b hfresh)
    have hw : (client_lines (client_start wr rd b).1 lines
        (client_start wr rd b).2).1.client.toClient = wr := by
      rw [client_lines_toClient]
      rfl
    rw [hw] at l3
    refine ⟨?_, l3, l1, r2⟩
    rw [r3]
    exact ⟨fun hx => hx.2, fun hx => ⟨List.nodup_nil, hx⟩⟩

/-- C20 as amended, at a concrete input: a connection names itself, subscribes
to "x", unsubscribes from "y", where it is not, subscribes to "z", unsubscribes
from "x" and subscribes to "x" no more: no topic is recorded twice. -/
theorem tracked_list_entries_witness :
    no_resubscribe (client_start 4 5 (initial_broker 0)).1 (client_start 4 5 (initial_broker 0)).2
        [] ["name a", "sub x", "unsub y", "sub z", "sub x", "unsub x", "sub w"] = true
      ∧ (client_lines (client_start 4 5 (initial_broker 0)).1
          ["name a", "sub x", "unsub y", "sub z", "sub x", "unsub x", "sub w"]
          (client_start 4 5 (initial_broker 0)).2).1.client.subbedTopics = ["x", "z", "w"]
      ∧ unsubscribed (client_start 4 5 (initial_broker 0)).1
          (client_start 4 5 (initial_broker 0)).2 []
          ["name a", "sub x", "unsub y", "sub z", "sub x", "unsub x", "sub w"] = ["x"]
      ∧ (client_lines (client_start 4 5 (initial_broker 0)).1
          ["name a", "sub x", "unsub y", "sub z", "sub x", "unsub x", "sub w"]
          (client_start 4 5 (initial_broker 0)).2).1.client.subbedTopics.Nodup
      ∧ no_resubscribe (client_start 4 5 (initial_broker 0)).1
          (client_start 4 5 (initial_broker 0)).2 []
          ["name alice", "sub news", "unsub news", "sub news"] = false :=
  ⟨by decide, by decide, by decide,
   ((tracked_list_entries.2.2.2.2 4 5 (initial_broker 0)
      ["name a", "sub x", "unsub y", "sub z", "sub x", "unsub x", "sub w"] (inv_initial 0)
      (fun T => by rw [subscribers_initial]; exact List.not_mem_nil _)).1).2 (by decide),
   by decide⟩

/-- C21, the code at the failing input: the chain of "news" is bob, alice,
carol. When carol unsubscribes with `countStat = COUNT`, `handle_unsub` calls
`free` twice, on the node of carol (position 2) and on the node before it
(position 1, alice), and the node of alice is still linked afterwards: the
sequence is bob, alice, and the node at position 1 is the one it was. With
alice and carol only, the second node released is the head, to which the map
still points. When the head unsubscribes, one node is released. -/
theorem handle_unsub_frees_predecessor :
    subscribers news_broker3 "news" = [6, 4, 8]
      ∧ handle_unsub_frees carol "news" news_broker3 COUNT = [2, 1]
      ∧ subscribers (handle_unsub carol "news" news_broker3 COUNT) "news" = [6, 4]
      ∧ (stringmap_search (handle_unsub carol "news" news_broker3 COUNT).info.sm "news")[1]?
          = (stringmap_search news_broker3.info.sm "news")[1]?
      ∧ handle_unsub_frees carol "news" news_broker2 COUNT = [1, 0]
      ∧ subscribers (handle_unsub carol "news" news_broker2 COUNT) "news" = [4]
      ∧ handle_unsub_frees bob "news" news_broker3 COUNT = [0] := by
  decide

/-- C22. Per-topic frame: for every broker state, every client and every two
distinct topics `T` and `U`, `handle_sub` on `T`, `handle_unsub` on `T` (either
`countStat`) and `handle_pub` leave the chain that `stringmap_search` finds for
`U` as it was, and `U` is a key of the map afterwards exactly when it was
before; the same holds for the commands `sub T`, `unsub T` and `pub T ...`
handled by the loop of `client_thread`. -/
theorem per_topic_frame (b : Broker) (client : Client) (T U : String) (hTU : U ≠ T) :
    (∀ bufferSize : Nat,
        stringmap_search (handle_sub client T b bufferSize).2.2.info.sm U
            = stringmap_search b.info.sm U
          ∧ (U ∈ keys (handle_sub client T b bufferSize).2.2.info.sm ↔ U ∈ keys b.info.sm))
      ∧ (∀ countStat : Nat,
        stringmap_search (handle_unsub client T b countStat).info.sm U
            = stringmap_search b.info.sm U
          ∧ (U ∈ keys (handle_unsub client T b countStat).info.sm ↔ U ∈ keys b.info.sm))
      ∧ (∀ topicAndValue : String, (handle_pub client topicAndValue b).info.sm = b.info.sm)
      ∧ (∀ h : Handler,
        subscribers (client_line h ("sub" ++ " " ++ T) b).2 U = subscribers b U
          ∧ (U ∈ keys (client_line h ("sub" ++ " " ++ T) b).2.info.sm ↔ U ∈ keys b.info.sm)
          ∧ subscribers (client_line h ("unsub" ++ " " ++ T) b).2 U = subscribers b U
          ∧ (U ∈ keys (client_line h ("unsub" ++ " " ++ T) b).2.info.sm ↔ U ∈ keys b.info.sm)
          ∧ ∀ V : String,
              (client_line h ("pub" ++ " " ++ (T ++ " " ++ V)) b).2.info.sm = b.info.sm) := by
  refine ⟨fun bufferSize => handle_sub_other client T U b bufferSize hTU,
    fun countStat => handle_unsub_other client T U b countStat hTU,
    fun topicAndValue => handle_pub_sm client topicAndValue b, ?_⟩
  intro h
  have hd : ("sub" : String) ≠ "name" ∧ ("unsub" : String) ≠ "name"
      ∧ ("unsub" : String) ≠ "sub" ∧ ("pub" : String) ≠ "name" ∧ ("pub" : String) ≠ "sub"
      ∧ ("pub" : String) ≠ "unsub" := by decide
  have hsub : (client_line h ("sub" ++ " " ++ T) b).2
      = (handle_sub h.client T b h.bufferSize).2.2 := by
    rw [client_line_two h "sub" T b (by decide)]
    simp only [hd.1, if_false, if_true]
  have hunsub : (client_line h ("unsub" ++ " " ++ T) b).2 = handle_unsub h.client T b COUNT := by
    rw [client_line_two h "unsub" T b (by decide)]
    simp only [hd.2.1, hd.2.2.1, if_false, if_true]
  have hpub : ∀ V : String, (client_line h ("pub" ++ " " ++ (T ++ " " ++ V)) b).2
      = handle_pub h.client (T ++ " " ++ V) b := by
    intro V
    rw [client_line_two h "pub" (T ++ " " ++ V) b (by decide)]
    simp only [hd.2.2.2.1, hd.2.2.2.2.1, hd.2.2.2.2.2, if_false, if_true]
  refine ⟨?_, ?_, ?_, ?_, ?_⟩
  · unfold subscribers
    rw [hsub, (handle_sub_other h.client T U b h.bufferSize hTU).1]
  · rw [hsub]
    exact (handle_sub_other h.client T U b h.bufferSize hTU).2
  · unfold subscribers
    rw [hunsub, (handle_unsub_other h.client T U b COUNT hTU).1]
  · rw [hunsub]
    exact (handle_unsub_other h.client T U b COUNT hTU).2
  · intro V
    rw [hpub V]
    exact handle_pub_sm _ _ _

/-- C22 at a concrete input: alice, the head of "news", unsubscribes from it and
bob subscribes to it; the sequence of "sport" stays. -/
theorem per_topic_frame_witness :
    "sport" ≠ "news"
      ∧ subscribers two_topics "sport" = [6]
      ∧ keys two_topics.info.sm = ["news", "sport"]
      ∧ keys (handle_unsub alice "news" two_topics COUNT).info.sm = ["sport", "news"]
      ∧ stringmap_search (handle_unsub alice "news" two_topics COUNT).info.sm "sport"
          = stringmap_search two_topics.info.sm "sport"
      ∧ stringmap_search (handle_sub bob "news" two_topics 3).2.2.info.sm "sport"
          = stringmap_search two_topics.info.sm "sport" :=
  ⟨by decide, by decide, by decide, by decide,
   ((per_topic_frame two_topics alice "news" "sport" (by decide)).2.1 COUNT).1,
   ((per_topic_frame two_topics bob "news" "sport" (by decide)).1 3).1⟩

/-- C23. Subscribe then unsubscribe: in a broker state whose map is well
formed, for a named client and a valid topic `T` whose subscriber sequence does
not contain the client, `handle_sub` followed by `handle_unsub` with
`countStat = COUNT` restores the mapping from topics to chains: for every topic
`stringmap_search` finds the chain it found before, and the map has the keys it
had before (so no entry for `T` if it had none). The subscribe and the
unsubscribe counter have each grown by exactly 1; the other counters, the
semaphore and what has been written are as before. -/
theorem sub_unsub_round_trip (b : Broker) (client : Client) (T : String) (bufferSize : Nat)
    (hwf : b.info.sm.WF) (hname : client.name ≠ none) (hT : Valid T)
    (hnot : client.toClient ∉ subscribers b T) :
    (∀ k : String, stringmap_search (sub_then_unsub client T b bufferSize).info.sm k
        = stringmap_search b.info.sm k)
      ∧ (∀ k : String, k ∈ keys (sub_then_unsub client T b bufferSize).info.sm
          ↔ k ∈ keys b.info.sm)
      ∧ (T ∉ keys b.info.sm → T ∉ keys (sub_then_unsub client T b bufferSize).info.sm)
      ∧ (sub_then_unsub client T b bufferSize).info.totalSub = b.info.totalSub + 1
      ∧ (sub_then_unsub client T b bufferSize).info.totalUnsub = b.info.totalUnsub + 1
      ∧ (sub_then_unsub client T b bufferSize).info.totalPub = b.info.totalPub
      ∧ (sub_then_unsub client T b bufferSize).info.currentConnections
          = b.info.currentConnections
      ∧ (sub_then_unsub client T b bufferSize).info.totalConnections
          = b.info.totalConnections
      ∧ (sub_then_unsub client T b bufferSize).info.threadLock = b.info.threadLock
      ∧ (sub_then_unsub client T b bufferSize).sent = b.sent := by
  -- the state between the two calls
  have hcl := handle_sub_client client T b bufferSize
  have hname1 : (handle_sub client T b bufferSize).1.name ≠ none := by rw [hcl.1]; exact hname
  have hwf1 := handle_sub_wf client T b bufferSize hwf
  have hmid := handle_sub_broker client T b bufferSize hwf hname hT
  rw [if_neg hnot] at hmid
  have hs1 := handle_sub_search client T b bufferSize hwf hname hT
  have hmem1 : (handle_sub client T b bufferSize).1.toClient
      ∈ subscribers (handle_sub client T b bufferSize).2.2 T := by
    unfold subscribers
    rw [hs1 T, if_pos ⟨rfl, hnot⟩, hcl.2.1]
    exact List.mem_cons_self _ _
  -- the chains after the second call
  have hsearch : ∀ k : String, stringmap_search (sub_then_unsub client T b bufferSize).info.sm k
      = stringmap_search b.info.sm k := by
    intro k
    unfold sub_then_unsub
    rw [handle_unsub_search _ T _ COUNT hwf1 hname1 hT k]
    by_cases hk : k = T
    · rw [if_pos hk, hs1 T, if_pos ⟨rfl, hnot⟩, hk]
      unfold unsub_chain
      simp [hcl.2.1]
    · rw [if_neg hk, hs1 k, if_neg (fun hc => hk hc.1)]
  have hwf2 : (sub_then_unsub client T b bufferSize).info.sm.WF := by
    unfold sub_then_unsub
    exact handle_unsub_wf _ T _ COUNT hwf1
  have hkeys : ∀ k : String, k ∈ keys (sub_then_unsub client T b bufferSize).info.sm
      ↔ k ∈ keys b.info.sm := by
    intro k
    have h1 := search_eq_nil_iff _ hwf2 k
    have h2 := search_eq_nil_iff _ hwf k
    rw [hsearch k] at h1
    constructor
    · intro hk
      by_contra hc
      exact (h1.1 (h2.2 hc)) hk
    · intro hk
      by_contra hc
      exact (h2.1 (h1.2 hc)) hk
  have hframe : sub_then_unsub client T b bufferSize
      = { info := { (handle_sub client T b bufferSize).2.2.info with
            sm := (sub_then_unsub client T b bufferSize).info.sm,
            totalUnsub := (sub_then_unsub client T b bufferSize).info.totalUnsub },
          sent := (handle_sub client T b bufferSize).2.2.sent,
          released := (sub_then_unsub client T b bufferSize).released } := by
    unfold sub_then_unsub
    exact handle_unsub_frame _ T _ COUNT hT
  have hun : (sub_then_unsub client T b bufferSize).info.totalUnsub = b.info.totalUnsub + 1 := by
    unfold sub_then_unsub
    rw [handle_unsub_totalUnsub _ T _ COUNT hname1 hT, if_pos ⟨hmem1, by decide⟩, hmid]
  refine ⟨hsearch, hkeys, fun hk hc => hk ((hkeys T).1 hc), ?_, hun, ?_, ?_, ?_, ?_, ?_⟩
  · rw [hframe, hmid]
  · rw [hframe, hmid]
  · rw [hframe, hmid]
  · rw [hframe, hmid]
  · rw [hframe, hmid]
  · rw [hframe, hmid]

/-- C23 at a concrete input: bob subscribes to "news", where alice and carol
are, and unsubscribes; and to "sport", which has no entry, and unsubscribes. -/
theorem sub_unsub_round_trip_witness :
    news_broker2.info.sm.WF ∧ bob.name ≠ none ∧ Valid "news" ∧ Valid "sport"
      ∧ bob.toClient ∉ subscribers news_broker2 "news"
      ∧ bob.toClient ∉ subscribers news_broker2 "sport"
      ∧ (∀ k : String, stringmap_search (sub_then_unsub bob "news" news_broker2 3).info.sm k
          = stringmap_search news_broker2.info.sm k)
      ∧ "sport" ∉ keys (sub_then_unsub bob "sport" news_broker2 3).info.sm
      ∧ (sub_then_unsub bob "news" news_broker2 3).info.totalSub = 3
      ∧ (sub_then_unsub bob "news" news_broker2 3).info.totalUnsub = 1 :=
  ⟨by decide, by decide, by decide, by decide, by decide, by decide,
   (sub_unsub_round_trip news_broker2 bob "news" 3
      (by decide) (by decide) (by decide) (by decide)).1,
   (sub_unsub_round_trip news_broker2 bob "sport" 3
      (by decide) (by decide) (by decide) (by decide)).2.2.1 (by decide),
   by decide, by decide⟩

/-- C24. The map is a finite map with unique keys: for every map, keys `k` and
`k1` and item `v`, `stringmap_add` returns 1 and binds `k` to `v` when `v` is
not `NULL` and `k` is no key of the map, and returns 0 and the map as it was
when `k` is a key or `v` is `NULL`; `stringmap_remove` returns 1 exactly when
`k` is a key, and afterwards, the keys being distinct, `stringmap_search` finds
nothing for `k` and `k` is no key; neither operation changes what
`stringmap_search` finds for a key other than `k`; and in every map built from
`stringmap_init` by calls of the two, the keys are pairwise distinct (so what is
said of `stringmap_remove` holds of every such map). On every such map, what
`stringmap_search` finds after a call is what the finite map of the claim
binds: `finite_map_add`, `finite_map_remove`. -/
theorem stringmap_finite_map (m : StringMap) (k k1 : String) (v : List Client) :
    (v ≠ [] → k ∉ keys m →
        (stringmap_add m k v).1 = 1 ∧ stringmap_search (stringmap_add m k v).2 k = v)
      ∧ ((k ∈ keys m ∨ v = []) → stringmap_add m k v = (0, m))
      ∧ ((stringmap_remove m k).1 = 1 ↔ k ∈ keys m)
      ∧ ((keys m).Nodup →
          stringmap_search (stringmap_remove m k).2 k = []
            ∧ k ∉ keys (stringmap_remove m k).2)
      ∧ (k1 ≠ k →
          stringmap_search (stringmap_add m k v).2 k1 = stringmap_search m k1
            ∧ stringmap_search (stringmap_remove m k).2 k1 = stringmap_search m k1)
      ∧ (∀ ops : List MapOp, (keys (build ops)).Nodup)
      ∧ (∀ ops : List MapOp,
          stringmap_search (stringmap_remove (build ops) k).2 k = []
            ∧ k ∉ keys (stringmap_remove (build ops) k).2)
      ∧ (∀ ops : List MapOp,
          stringmap_search (stringmap_add (build ops) k v).2
              = finite_map_add (stringmap_search (build ops)) k v
            ∧ stringmap_search (stringmap_remove (build ops) k).2
              = finite_map_remove (stringmap_search (build ops)) k) := by
  have hbuild : ∀ ops : List MapOp, (keys (build ops)).Nodup := by
    intro ops
    unfold build
    exact nodup_keys_foldl ops stringmap_init List.nodup_nil
  have hrem : ∀ sm : StringMap, (keys sm).Nodup →
      stringmap_search (stringmap_remove sm k).2 k = []
        ∧ k ∉ keys (stringmap_remove sm k).2 := by
    intro sm hnd
    refine ⟨search_remove_self sm k hnd, ?_⟩
    rw [keys_eq, stringmap_remove_root]
    exact not_mem_keys_erase_key _ _ hnd
  refine ⟨?_, ?_, ?_, ?_, ?_, hbuild, ?_, ?_⟩
  rotate_right
  · intro ops
    exact ⟨search_add_eq _ k v (wf_build ops), search_remove_eq _ k (hbuild ops)⟩
  · intro hv hk
    rw [stringmap_add_absent m k v hv hk]
    refine ⟨rfl, ?_⟩
    unfold stringmap_search
    simp only []
    have hk1 : k ∉ node_keys m.root := hk
    rw [search_nodes_append, if_neg hk1, if_pos rfl]
  · intro h
    exact stringmap_add_present m k v h
  · exact stringmap_remove_fst m k
  · intro hnd
    exact hrem m hnd
  · intro hne
    exact ⟨search_add_ne m k k1 v hne, search_remove_ne m k k1 hne⟩
  · intro ops
    exact hrem (build ops) (hbuild ops)

/-- C24 at a concrete input: a map built by five calls, among them an add of a
key that exists and an add of a `NULL` item. -/
theorem stringmap_finite_map_witness :
    keys (build [MapOp.add "a" [alice], MapOp.add "b" [bob], MapOp.add "a" [carol],
        MapOp.remove "a", MapOp.add "c" []]) = ["b"]
      ∧ (keys (build [MapOp.add "a" [alice], MapOp.add "b" [bob], MapOp.add "a" [carol],
        MapOp.remove "a", MapOp.add "c" []])).Nodup
      ∧ stringmap_add (build [MapOp.add "a" [alice]]) "a" [carol]
          = (0, build [MapOp.add "a" [alice]]) :=
  ⟨by decide,
   (stringmap_finite_map stringmap_init "a" "b" []).2.2.2.2.2.1 _,
   (stringmap_finite_map (build [MapOp.add "a" [alice]]) "a" "b" [carol]).2.1
     (Or.inl (by decide))⟩

end PubSub
